import Mathlib

/-!
# a360-workshop: panorama-to-cubemap pipeline

Shallow embedding of `backend/internal/pipeline/slicer.go` (`ExtractFace`,
`SlicePano`), of `backend/internal/s3/r2.go` (`UploadFile`, `DeleteFile`,
`DeleteDirectory`) and of the handlers of `backend/internal/handlers/project.go`
the specification speaks of (`UploadPano` with its processing task,
`DeleteProject`, `UpdateProject`, `shouldIncrementView`,
`generateUniqueMagicCode`), with the properties of the specification proved (or
refuted) against it.

Conventions of the embedding:

* `float64` arithmetic is a parameter: `Float64Ops F` lists the operations
  `ExtractFace` performs on floats, over an arbitrary carrier `F`.  Theorems
  stated for every `o : Float64Ops F` hold for IEEE-754 as well as for exact
  arithmetic.  `exactOps` instantiates the carrier with `ℚ` (exact
  arithmetic, `math.Atan2` and `math.Sqrt` still parameters).
* an image is its bounds (origin `(0,0)`, as `image.NewRGBA(image.Rect(0,0,w,h))`
  and `imaging.Open` produce) and its pixel function.  Colours are kept as read:
  the conversion to `color.RGBA` that `Set` applies is the identity on the opaque
  colours a decoded JPEG holds.
* identifiers drawn by `uuid.New()` are carried by the step that draws them, and
  a step is enabled only for an identifier not in use.
* the file system, the database and the object store are explicit states
  threaded through the functions.
* the `projects` table keeps its soft-deleted rows (`gorm.DeletedAt`): the queries
  of the handlers do not reach them, the primary key and the unique index on
  `magic_code` do.  A write the database rejects leaves the table as it was, and
  the handlers drop the error of `h.DB.Create` and `h.DB.Save`.
-/

namespace Pipeline

/-! ## Floating point operations used by the projector -/

/-- The `float64` operations `ExtractFace` uses, over a carrier `F`. -/
structure Float64Ops (F : Type) where
  /-- Go `float64(n)` for an `int` `n`, and the integral literals `2.0`, `1.0`, `-1.0` -/
  ofInt : Int → F
  /-- the literal `0.5` -/
  half : F
  /-- Go `math.Pi` -/
  pi : F
  add : F → F → F
  sub : F → F → F
  mul : F → F → F
  div : F → F → F
  /-- unary minus -/
  neg : F → F
  /-- Go `math.Sqrt` -/
  sqrt : F → F
  /-- Go `math.Atan2(y, x)` -/
  atan2 : F → F → F
  /-- the conversion `int(f)` -/
  toInt : F → Int

/-- Go's conversion of a float to `int` discards the fraction (truncation
toward zero); on an exact rational that is `num / den` rounded toward zero. -/
def goInt (q : ℚ) : Int := Int.tdiv q.num q.den

/-- Exact rational arithmetic, with the library functions `math.Atan2`,
`math.Sqrt` and the constant `math.Pi` supplied by the caller. -/
def exactOps (atan2 : ℚ → ℚ → ℚ) (sqrt : ℚ → ℚ) (pi : ℚ) : Float64Ops ℚ where
  ofInt := fun n => (n : ℚ)
  half := 1 / 2
  pi := pi
  add := fun a b => a + b
  sub := fun a b => a - b
  mul := fun a b => a * b
  div := fun a b => a / b
  neg := fun a => -a
  sqrt := sqrt
  atan2 := atan2
  toInt := goInt

/-! ## Images -/

/-- An 8-bit colour with alpha, as `color.RGBA`. -/
structure Color where
  r : Nat
  g : Nat
  b : Nat
  a : Nat
deriving DecidableEq, Repr

/-- The zero colour, which `At` returns outside the bounds and a new image holds. -/
def Color.zero : Color := ⟨0, 0, 0, 0⟩

/-- A bitmap with bounds `image.Rect(0, 0, width, height)`. -/
structure Image where
  /-- Go `Bounds().Dx()` -/
  width : Nat
  /-- Go `Bounds().Dy()` -/
  height : Nat
  /-- the stored pixels -/
  pix : Int → Int → Color

/-- Whether `(x, y)` lies in the bounds of the image: `image.Point.In`. -/
def Image.inBounds (img : Image) (x y : Int) : Bool :=
  decide (0 ≤ x) && decide (x < img.width) && decide (0 ≤ y) && decide (y < img.height)

/-- Go `img.At(x, y)`: the pixel, or the zero colour outside the bounds. -/
def Image.At (img : Image) (x y : Int) : Color :=
  if img.inBounds x y then img.pix x y else Color.zero

/-- Go `img.Set(x, y, c)`: no effect outside the bounds. -/
def Image.Set (img : Image) (x y : Int) (c : Color) : Image :=
  if img.inBounds x y then
    { img with pix := fun i j => if i = x ∧ j = y then c else img.pix i j }
  else img

/-- Go `image.NewRGBA(image.Rect(0, 0, w, h))`: all pixels zero. -/
def NewRGBA (w h : Nat) : Image := ⟨w, h, fun _ _ => Color.zero⟩

/-- The Go loop `for i := 0; i < n; i++ { s = body i s }`. -/
def forRange {σ : Type} (n : Nat) (body : Nat → σ → σ) (s : σ) : σ :=
  match n with
  | 0 => s
  | k + 1 => body k (forRange k body s)

/-! ## `ExtractFace` -/

section Projector

variable {F : Type}

/-- Lines 19-20: `2.0*float64(x)/float64(faceSize) - 1.0`. -/
def ndc (o : Float64Ops F) (x faceSize : Nat) : F :=
  o.sub (o.div (o.mul (o.ofInt 2) (o.ofInt x)) (o.ofInt faceSize)) (o.ofInt 1)

/-- Lines 22-36: the `switch face` giving `(vx, vy, vz)`; the variables keep
their zero value when no case matches. -/
def faceDirection (o : Float64Ops F) (face : Int) (u v : F) : F × F × F :=
  if face = 0 then (o.ofInt 1, o.neg v, o.neg u)
  else if face = 1 then (o.ofInt (-1), o.neg v, u)
  else if face = 2 then (u, o.ofInt 1, v)
  else if face = 3 then (u, o.ofInt (-1), o.neg v)
  else if face = 4 then (u, o.neg v, o.ofInt 1)
  else if face = 5 then (o.neg u, o.neg v, o.ofInt (-1))
  else (o.ofInt 0, o.ofInt 0, o.ofInt 0)

/-- Line 39: `phi := math.Atan2(vx, vz)`. -/
def phiOf (o : Float64Ops F) (d : F × F × F) : F :=
  o.atan2 d.1 d.2.2

/-- Line 40: `theta := math.Atan2(vy, math.Sqrt(vx*vx+vz*vz))`. -/
def thetaOf (o : Float64Ops F) (d : F × F × F) : F :=
  o.atan2 d.2.1 (o.sqrt (o.add (o.mul d.1 d.1) (o.mul d.2.2 d.2.2)))

/-- Line 43: `srcX := (phi/(2*math.Pi) + 0.5) * float64(input.Bounds().Dx())`. -/
def srcXOf (o : Float64Ops F) (phi : F) (width : Nat) : F :=
  o.mul (o.add (o.div phi (o.mul (o.ofInt 2) o.pi)) o.half) (o.ofInt width)

/-- Line 44: `srcY := (0.5 - theta/math.Pi) * float64(input.Bounds().Dy())`. -/
def srcYOf (o : Float64Ops F) (theta : F) (height : Nat) : F :=
  o.mul (o.sub o.half (o.div theta o.pi)) (o.ofInt height)

/-- Lines 18-47 of the inner loop body: the colour `c` read from the source
for the destination pixel `(x, y)`. -/
def sampleColor (o : Float64Ops F) (input : Image) (face : Int) (faceSize : Nat)
    (x y : Nat) : Color :=
  let u := ndc o x faceSize
  let v := ndc o y faceSize
  let d := faceDirection o face u v
  let phi := phiOf o d
  let theta := thetaOf o d
  let srcX := srcXOf o phi input.width
  let srcY := srcYOf o theta input.height
  input.At (o.toInt srcX) (o.toInt srcY)

/-- Go `ExtractFace(input, face, faceSize)`: rows `y`, then columns `x`, each
iteration ending with `img.Set(x, y, c)` (line 48). -/
def ExtractFace (o : Float64Ops F) (input : Image) (face : Int) (faceSize : Nat) : Image :=
  forRange faceSize
    (fun y img =>
      forRange faceSize
        (fun x img => img.Set x y (sampleColor o input face faceSize x y)) img)
    (NewRGBA faceSize faceSize)

end Projector

/-! ## File system and imaging library -/

/-- The errors the pipeline's I/O steps return. -/
inductive Error where
  /-- Go `imaging.Open` / `os.Open` failed on the path -/
  | openFailed (path : String)
  /-- Go `imaging.Save` / `c.SaveFile` failed on the path -/
  | saveFailed (path : String)
  /-- the remote store refused the object with that key -/
  | uploadFailed (key : String)
  /-- the remote store failed to list the keys starting with `pre` -/
  | listFailed (pre : String)
  /-- the remote store failed to delete the object with that key -/
  | deleteFailed (key : String)
deriving DecidableEq, Repr

/-- What the code takes from its libraries and from the outside world: path
manipulation (`path/filepath`), `imaging.Fill`, and which I/O operations
fail. -/
structure Env where
  /-- Go `filepath.Join(a, b)` -/
  join : String → String → String
  /-- Go `filepath.Dir` -/
  dir : String → String
  /-- Go `filepath.Base` -/
  base : String → String
  /-- Predicate `inside d p`: the path `p` is `d` or lies below the directory `d` -/
  inside : String → String → Bool
  /-- Go `imaging.Fill(img, 512, 512, imaging.Center, imaging.Lanczos)` -/
  fill : Image → Image
  /-- the paths that cannot be opened or decoded as an image -/
  openFails : String → Bool
  /-- the paths `imaging.Save` cannot write -/
  saveFails : String → Bool
  /-- the paths `c.SaveFile` cannot write -/
  saveFileFails : String → Bool
  /-- the object keys the remote store rejects -/
  uploadFails : String → Bool
  /-- whether `h.R2` is non-nil -/
  hasR2 : Bool

/-- The local disk: image files (latest write first) and directories. -/
structure FS where
  files : List (String × Image)
  dirs : List String

/-- Go `imaging.Open(path)`. -/
def imagingOpen (env : Env) (fs : FS) (path : String) : Except Error Image :=
  if env.openFails path then .error (.openFailed path)
  else match fs.files.lookup path with
    | some img => .ok img
    | none => .error (.openFailed path)

/-- Go `imaging.Save(img, path)`. -/
def imagingSave (env : Env) (img : Image) (path : String) (fs : FS) : Except Error FS :=
  if env.saveFails path then .error (.saveFailed path)
  else .ok { fs with files := (path, img) :: fs.files }

/-- Lines 65-67: `os.Stat` + `os.MkdirAll(outputDir, 0755)` when the directory is absent. -/
def ensureDir (fs : FS) (d : String) : FS :=
  if d ∈ fs.dirs then fs else { fs with dirs := d :: fs.dirs }

/-- Go `os.RemoveAll(d)`. -/
def removeAll (env : Env) (d : String) (fs : FS) : FS :=
  { files := fs.files.filter (fun f => !env.inside d f.1),
    dirs := fs.dirs.filter (fun p => !env.inside d p) }

/-! ## `SlicePano` -/

/-- Line 62: the face names, in the order of the face indices. -/
def faces : List String := ["posx", "negx", "posy", "negy", "posz", "negz"]

section Slicer

variable {F : Type}

/-- Lines 69-77: the loop over `faces`, leaving at the first failed save. -/
def saveFaces (o : Float64Ops F) (env : Env) (src : Image) (faceSize : Nat)
    (outputDir : String) :
    List (Nat × String) → List String → FS → Except Error (List String) × FS
  | [], paths, fs => (.ok paths, fs)
  | (i, name) :: rest, paths, fs =>
    let faceImg := ExtractFace o src (i : Int) faceSize
    let path := env.join outputDir (name ++ ".jpg")
    match imagingSave env faceImg path fs with
    | .error e => (.error e, fs)
    | .ok fs1 => saveFaces o env src faceSize outputDir rest (paths ++ [path]) fs1

/-- Go `SlicePano(inputPath, outputDir)`: the returned `([]string, error)` and the
file system it leaves. -/
def SlicePano (o : Float64Ops F) (env : Env) (inputPath outputDir : String) (fs : FS) :
    Except Error (List String) × FS :=
  match imagingOpen env fs inputPath with
  | .error e => (.error e, fs)
  | .ok src =>
    let faceSize := src.width / 4
    let fs1 := ensureDir fs outputDir
    match saveFaces o env src faceSize outputDir faces.enum [] fs1 with
    | (.error e, fs2) => (.error e, fs2)
    | (.ok paths, fs2) =>
      let frontFacePath := env.join outputDir "posz.jpg"
      match imagingOpen env fs2 frontFacePath with
      | .ok frontImg =>
        let uploadPath := env.dir outputDir
        let thumb := env.fill frontImg
        match imagingSave env thumb (env.join uploadPath "thumbnail.jpg") fs2 with
        | .ok fs3 => (.ok paths, fs3)
        | .error _ => (.ok paths, fs2)
      | .error _ => (.ok paths, fs2)

end Slicer

end Pipeline

namespace Handlers

open Pipeline

/-! ## Database (the `projects` and `scenes` tables) -/

/-- The columns of `models.Project` the handlers modelled here read or write. -/
structure Project where
  id : String
  userID : Nat
  name : String
  panoPath : String
  isPublic : Bool
  magicCode : String
  size : Nat
  status : String
  /-- Column `is_active`, `true` when the row is created (`gorm:"default:true"`) -/
  isActive : Bool := true
deriving DecidableEq, Repr

/-- The columns of `models.Scene` the upload pipeline reads or writes. -/
structure Scene where
  id : String
  projectID : String
  name : String
  panoPath : String
  status : String
  displayOrder : Nat
  size : Nat
deriving DecidableEq, Repr

/-- The two tables, in insertion order.  The rows of `projects` whose `deleted_at`
is set (`gorm.DeletedAt`, models.go line 45) are kept apart in `deleted`: no query
of the handlers reaches them, the unique indexes still cover them. -/
structure DB where
  /-- the rows of `projects` with `deleted_at IS NULL` -/
  projects : List Project
  scenes : List Scene
  /-- the soft-deleted rows of `projects` -/
  deleted : List Project := []
deriving DecidableEq, Repr

/-- The table `projects` after an `INSERT` the database accepted. -/
def DB.insertProject (db : DB) (p : Project) : DB :=
  { db with projects := db.projects ++ [p] }

/-- Whether the database rejects the `INSERT` of `p`: a row, soft-deleted or not,
holds its primary key or its `magic_code` (`gorm:"uniqueIndex"`, models.go line 38;
the empty code of a private project is a value like any other). -/
def DB.rejectsInsert (db : DB) (p : Project) : Bool :=
  (db.projects ++ db.deleted).any (fun q => q.id == p.id || q.magicCode == p.magicCode)

/-- Go `h.DB.Create(&project)` (project.go, line 129), its error dropped: a rejected
`INSERT` leaves the table as it was. -/
def DB.createProject (db : DB) (p : Project) : DB :=
  if db.rejectsInsert p then db else db.insertProject p

/-- Go `db.Create(&scene)`. -/
def DB.createScene (db : DB) (sc : Scene) : DB :=
  { db with scenes := db.scenes ++ [sc] }

/-- Go `db.Model(&models.Scene{}).Where("id = ?", sid).Update("status", status)`. -/
def DB.updateSceneStatus (db : DB) (sid status : String) : DB :=
  { db with
    scenes := List.map (fun sc => if sc.id = sid then { sc with status := status } else sc)
      db.scenes }

/-- Go `db.Model(&models.Scene{}).Where("project_id = ? AND status = ?", pid, "processing").Count(..)`. -/
def DB.countProcessing (db : DB) (pid : String) : Nat :=
  (db.scenes.filter (fun sc => decide (sc.projectID = pid ∧ sc.status = "processing"))).length

/-- Go `db.Model(&models.Project{}).Where("id = ?", pid).Update("status", status)`. -/
def DB.updateProjectStatus (db : DB) (pid status : String) : DB :=
  { db with
    projects := List.map (fun p => if p.id = pid then { p with status := status } else p)
      db.projects }

/-- Go `h.DB.Model(&project).Update("pano_path", path)`. -/
def DB.updateProjectPanoPath (db : DB) (pid path : String) : DB :=
  { db with
    projects := List.map (fun p => if p.id = pid then { p with panoPath := path } else p)
      db.projects }

/-- The status column of the project `pid`, when the project exists. -/
def DB.projectStatus (db : DB) (pid : String) : Option String :=
  (db.projects.find? (fun p => decide (p.id = pid))).map (fun p => p.status)

/-- The status column of the scene `sid`, when the scene exists. -/
def DB.sceneStatus (db : DB) (sid : String) : Option String :=
  (db.scenes.find? (fun sc => decide (sc.id = sid))).map (fun sc => sc.status)

/-! ## Object store (`s3.R2Service`) -/

/-- The bucket: the objects it holds (key, content type, body) and every
`UploadFile` call made (key, local path, content type), latest first. -/
structure Store where
  objects : List (String × String × Image)
  calls : List (String × String × String)

/-- Go `R2Service.UploadFile(ctx, key, filePath, contentType)` (r2.go, lines 60-76). -/
def UploadFile (env : Env) (key filePath contentType : String) (fs : FS) (st : Store) :
    Except Error Unit × Store :=
  let st1 : Store := { st with calls := (key, filePath, contentType) :: st.calls }
  match fs.files.lookup filePath with
  | none => (.error (.openFailed filePath), st1)
  | some body =>
    if env.uploadFails key then (.error (.uploadFailed key), st1)
    else (.ok (), { st1 with objects := (key, contentType, body) :: st1.objects })

/-- The S3 service behind `R2Service`, as the deletion path sees it. -/
structure R2Api where
  /-- the most keys one `ListObjectsV2` response holds (1000 for S3 and for R2) -/
  maxKeys : Nat
  /-- the key beginnings whose listing fails -/
  listFails : String → Bool
  /-- the keys `DeleteObject` fails on -/
  deleteFails : String → Bool

/-- Whether the key starts with `pre`: the match `ListObjectsV2` makes for its `Prefix`. -/
def hasPrefix (pre key : String) : Bool :=
  pre.data.isPrefixOf key.data

/-- Lexicographic order on code points (the order of the UTF-8 encodings), in
which `ListObjectsV2` returns keys. -/
def charsLE : List Char → List Char → Bool
  | [], _ => true
  | _ :: _, [] => false
  | a :: as, b :: bs => decide (a.toNat < b.toNat) || (a == b && charsLE as bs)

/-- The keys of the bucket, each once, in listing order. -/
def Store.keys (st : Store) : List String :=
  List.insertionSort (fun a b : String => charsLE a.data b.data = true)
    (st.objects.map (fun ob => ob.1)).dedup

/-- One `S3Client.ListObjectsV2(Bucket, Prefix)` call (r2.go, lines 88-94): the
first `maxKeys` keys starting with `pre`. -/
def listObjects (api : R2Api) (st : Store) (pre : String) : Except Error (List String) :=
  if api.listFails pre then .error (.listFailed pre)
  else .ok ((st.keys.filter (fun k => hasPrefix pre k)).take api.maxKeys)

/-- Go `R2Service.DeleteFile(ctx, key)` (r2.go, lines 78-84). -/
def DeleteFile (api : R2Api) (key : String) (st : Store) : Except Error Store :=
  if api.deleteFails key then .error (.deleteFailed key)
  else .ok { st with objects := st.objects.filter (fun ob => ob.1 != key) }

/-- The loop of `DeleteDirectory` (r2.go, lines 96-101), leaving at the first failure. -/
def deleteKeys (api : R2Api) : List String → Store → Except Error Unit × Store
  | [], st => (.ok (), st)
  | k :: rest, st =>
    match DeleteFile api k st with
    | .error e => (.error e, st)
    | .ok st1 => deleteKeys api rest st1

/-- Go `R2Service.DeleteDirectory(ctx, prefix)` (r2.go, lines 86-104): the
returned error and the bucket left behind. -/
def DeleteDirectory (api : R2Api) (pre : String) (st : Store) : Except Error Unit × Store :=
  match listObjects api st pre with
  | .error e => (.error e, st)
  | .ok keys => deleteKeys api keys st

/-- What a processing task touches besides the database. -/
structure World where
  fs : FS
  r2 : Store

/-! ## The processing task (the goroutine of `UploadPano`, lines 164-200) -/

section Task

variable {F : Type}

/-- Lines 176-178: one `UploadFile` per face path, its result dropped. -/
def uploadFaces (env : Env) (pid sid : String) (fs : FS) : List String → Store → Store
  | [], st => st
  | fp :: rest, st =>
    uploadFaces env pid sid fs rest
      (UploadFile env (pid ++ "/" ++ sid ++ "/cubemap/" ++ env.base fp) fp "image/jpeg" fs st).2

/-- Lines 173-184: the body of `if err == nil && r2 != nil`. -/
def uploadAndCleanup (env : Env) (sid pid fpath cubeDir : String) (facePaths : List String)
    (w : World) : World :=
  let st1 := (UploadFile env (pid ++ "/" ++ sid ++ "/original.jpg") fpath "image/jpeg" w.fs w.r2).2
  let st2 := uploadFaces env pid sid w.fs facePaths st1
  let thumbPath := env.join (env.dir cubeDir) "thumbnail.jpg"
  let st3 := (UploadFile env (pid ++ "/" ++ sid ++ "/thumbnail.jpg") thumbPath "image/jpeg" w.fs st2).2
  { fs := removeAll env (env.dir fpath) w.fs, r2 := st3 }

/-- Lines 168-185: slicing, then uploads and cleanup; the result of `SlicePano`
is returned with the world left behind. -/
def taskSlice (o : Float64Ops F) (env : Env) (sid pid fpath : String) (w : World) :
    Except Error (List String) × World :=
  let cubeDir := env.join (env.dir fpath) "cubemap"
  match SlicePano o env fpath cubeDir w.fs with
  | (.ok facePaths, fs1) =>
    if env.hasR2 then
      (.ok facePaths, uploadAndCleanup env sid pid fpath cubeDir facePaths { w with fs := fs1 })
    else (.ok facePaths, { w with fs := fs1 })
  | (.error e, fs1) => (.error e, { w with fs := fs1 })

/-- Lines 187-190: `status := "ready"; if err != nil { status = "error" }`. -/
def taskStatus (res : Except Error (List String)) : String :=
  match res with
  | .error _ => "error"
  | .ok _ => "ready"

/-- Line 192: the item status write. -/
def taskWrite (sid status : String) (db : DB) : DB :=
  db.updateSceneStatus sid status

/-- Lines 195-196: the count of the aggregate's items still `processing`. -/
def taskCount (pid : String) (db : DB) : Nat :=
  db.countProcessing pid

/-- Lines 197-199: the aggregate status write, when the count was zero. -/
def taskFinish (pid : String) (unfinished : Nat) (db : DB) : DB :=
  if unfinished = 0 then db.updateProjectStatus pid "ready" else db

/-- The goroutine body run without interruption, from the acquired slot on:
the item status it wrote, the database and the world it leaves. -/
def runTask (o : Float64Ops F) (env : Env) (sid pid fpath : String) (db : DB) (w : World) :
    String × DB × World :=
  let r := taskSlice o env sid pid fpath w
  let status := taskStatus r.1
  let db1 := taskWrite sid status db
  let unfinished := taskCount pid db1
  (status, taskFinish pid unfinished db1, r.2)

end Task

/-! ## `DeleteProject` -/

/-- Go `h.DB.Delete(&project)`: with `gorm.DeletedAt` a soft delete, the row leaves
the reach of the queries and keeps its columns. -/
def DB.deleteProject (db : DB) (pid : String) : DB :=
  { db with
    projects := db.projects.filter (fun p => p.id != pid),
    deleted := db.deleted ++ db.projects.filter (fun p => p.id == pid) }

/-- Go `DeleteProject` (project.go, lines 245-288) for the request of user `userID`
(an administrator when `isAdmin`, past the creative phase when `expired`): the
HTTP status, the database and the world left.  The storage bookkeeping of the
user (lines 270-277) is left out. -/
def DeleteProject (env : Env) (api : R2Api) (id : String) (userID : Nat)
    (isAdmin expired : Bool) (db : DB) (w : World) : Nat × DB × World :=
  match db.projects.find? (fun p => decide (p.id = id)) with
  | none => (404, db, w)
  | some project =>
    if !isAdmin && decide (project.userID ≠ userID) then (403, db, w)
    else if !isAdmin && expired then (403, db, w)
    else
      let db1 := db.deleteProject project.id
      if env.hasR2 then
        (200, db1, { w with r2 := (DeleteDirectory api id w.r2).2 })
      else
        (200, db1, { w with fs := removeAll env project.panoPath w.fs })

/-! ## `UploadPano` and its tasks as a transition system

One step is one database operation (or one I/O block touching only the
task's own directory), so that every interleaving of the handler loops and of
the goroutines is a sequence of steps. -/

/-- Where a goroutine stands. -/
inductive PC where
  /-- launched, blocked on `slicingSemaphore <- struct{}{}` (line 165) -/
  | waiting
  /-- holds a slot, before `SlicePano` (line 170) -/
  | running
  /-- Local `status` computed (line 190), before the item status write -/
  | sliced
  /-- item status written (line 192), before the count -/
  | wrote
  /-- Count `unfinished` read (line 196), before the aggregate status write -/
  | counted (unfinished : Nat)
  /-- returned; the deferred release of the slot has run -/
  | done
deriving DecidableEq, Repr

/-- A goroutine: its arguments `sid, pid, fpath`, its position and its local `status`. -/
structure Task where
  sid : String
  pid : String
  fpath : String
  pc : PC
  status : String
deriving DecidableEq, Repr

/-- One uploaded file of the multipart form. -/
structure FileUpload where
  content : Image
  size : Nat

/-- A call of `UploadPano` past its validations (line 112 on): the local
`project`, the files, the loop index and the response once returned. -/
structure Handler where
  project : Project
  files : List FileUpload
  next : Nat
  returned : Option Project

/-- The whole system. -/
structure State where
  db : DB
  world : World
  handlers : List Handler
  tasks : List Task

/-- The steps; a fresh identifier (`uuid.New()`) is carried by the step that draws it. -/
inductive Action where
  /-- lines 112-133: a request with files `files` creates its project; `pid` is the
  value of `uuid.New()`, held by no project and drawn by no earlier request -/
  | submit (pid : String) (userID : Nat) (name : String) (isPublic : Bool) (magicCode : String)
      (files : List FileUpload)
  /-- lines 136-201: one iteration of the loop of handler `h`, drawing `sid` -/
  | create (h : Nat) (sid : String)
  /-- line 203: handler `h` returns `c.JSON(project)` -/
  | respond (h : Nat)
  /-- line 165: task `t` takes a slot of the semaphore -/
  | acquire (t : Nat)
  /-- lines 168-190 -/
  | slice (t : Nat)
  /-- line 192 -/
  | write (t : Nat)
  /-- lines 195-196 -/
  | count (t : Nat)
  /-- lines 197-199, then the deferred release (line 166) -/
  | finish (t : Nat)

/-- Whether a goroutine at that position holds a slot of `slicingSemaphore`. -/
def PC.holdsSlot : PC → Bool
  | .running => true
  | .sliced => true
  | .wrote => true
  | .counted _ => true
  | _ => false

/-- Line 28: `make(chan struct{}, 2)`. -/
def semaphoreCapacity : Nat := 2

/-- The slots in use. -/
def slotsInUse (tasks : List Task) : Nat :=
  (tasks.filter (fun t => t.pc.holdsSlot)).length

/-- Lines 99-102: the sum of the file sizes. -/
def totalSize (files : List FileUpload) : Nat :=
  (files.map (fun f => f.size)).sum

section Machine

variable {F : Type}

/-- Lines 137-200 for the file of index `i`: directory, `c.SaveFile` (on
failure `continue`), scene record, `pano_path` of the first scene, launch of the
goroutine. -/
def createItem (env : Env) (project : Project) (i : Nat) (file : FileUpload) (sid : String)
    (s : State) : Project × State :=
  let scenePath := "uploads/" ++ project.id ++ "/" ++ sid
  let uploadPath := "./" ++ scenePath
  let fs1 := ensureDir s.world.fs uploadPath
  let filePath := env.join uploadPath "original.jpg"
  if env.saveFileFails filePath then
    (project, { s with world := { s.world with fs := fs1 } })
  else
    let fs2 : FS := { fs1 with files := (filePath, file.content) :: fs1.files }
    let scene : Scene :=
      { id := sid, projectID := project.id, name := "Scene " ++ toString (i + 1),
        panoPath := scenePath, status := "processing", displayOrder := i, size := file.size }
    let db1 := s.db.createScene scene
    let db2 := if i = 0 then db1.updateProjectPanoPath project.id scenePath else db1
    let project1 := if i = 0 then { project with panoPath := scenePath } else project
    let task : Task :=
      { sid := sid, pid := project.id, fpath := filePath, pc := .waiting, status := "" }
    (project1, { s with db := db2, world := { s.world with fs := fs2 },
                        tasks := s.tasks ++ [task] })

/-- One step of the system, `none` when the step is not enabled. -/
def step (o : Float64Ops F) (env : Env) (s : State) : Action → Option State
  | .submit pid userID name isPublic magicCode files =>
    if files.length ≠ 0 ∧ pid ∉ s.db.projects.map (fun p => p.id) ∧
        pid ∉ s.handlers.map (fun hd => hd.project.id) then
      let project : Project :=
        { id := pid, userID := userID, name := name, panoPath := "", isPublic := isPublic,
          magicCode := magicCode, size := totalSize files, status := "processing" }
      some { s with db := s.db.createProject project,
                    handlers := s.handlers ++
                      [{ project := project, files := files, next := 0, returned := none }] }
    else none
  | .create h sid =>
    match s.handlers[h]? with
    | none => none
    | some hd =>
      match hd.files[hd.next]? with
      | none => none
      | some file =>
        if hd.returned = none ∧ sid ∉ s.tasks.map (fun t => t.sid) then
          let r := createItem env hd.project hd.next file sid s
          some { r.2 with
            handlers := r.2.handlers.set h { hd with project := r.1, next := hd.next + 1 } }
        else none
  | .respond h =>
    match s.handlers[h]? with
    | none => none
    | some hd =>
      if hd.next = hd.files.length ∧ hd.returned = none then
        some { s with handlers := s.handlers.set h { hd with returned := some hd.project } }
      else none
  | .acquire t =>
    match s.tasks[t]? with
    | none => none
    | some tk =>
      if tk.pc = .waiting ∧ slotsInUse s.tasks < semaphoreCapacity then
        some { s with tasks := s.tasks.set t { tk with pc := .running } }
      else none
  | .slice t =>
    match s.tasks[t]? with
    | none => none
    | some tk =>
      if tk.pc = .running then
        let r := taskSlice o env tk.sid tk.pid tk.fpath s.world
        some { s with world := r.2,
                      tasks := s.tasks.set t { tk with pc := .sliced, status := taskStatus r.1 } }
      else none
  | .write t =>
    match s.tasks[t]? with
    | none => none
    | some tk =>
      if tk.pc = .sliced then
        some { s with db := taskWrite tk.sid tk.status s.db,
                      tasks := s.tasks.set t { tk with pc := .wrote } }
      else none
  | .count t =>
    match s.tasks[t]? with
    | none => none
    | some tk =>
      if tk.pc = .wrote then
        some { s with tasks := s.tasks.set t { tk with pc := .counted (taskCount tk.pid s.db) } }
      else none
  | .finish t =>
    match s.tasks[t]? with
    | none => none
    | some tk =>
      match tk.pc with
      | .counted n =>
        some { s with db := taskFinish tk.pid n s.db,
                      tasks := s.tasks.set t { tk with pc := .done } }
      | _ => none

/-- A sequence of steps. -/
def run (o : Float64Ops F) (env : Env) : State → List Action → Option State
  | s, [] => some s
  | s, a :: rest =>
    match step o env s a with
    | none => none
    | some s1 => run o env s1 rest

/-- The server before any upload: empty tables, an empty bucket, the given disk. -/
def initState (fs : FS) : State :=
  { db := { projects := [], scenes := [] },
    world := { fs := fs, r2 := { objects := [], calls := [] } },
    handlers := [], tasks := [] }

end Machine

end Handlers

/-! ## Specification-side definitions and concrete instances -/

namespace Pipeline

/-- The basis table of specification §4.1 step 2, face `0` first:
`(1,−v,−u)`, `(−1,−v,u)`, `(u,1,v)`, `(u,−1,−v)`, `(u,−v,1)`, `(−u,−v,−1)`. -/
def specBasis {F : Type} (o : Float64Ops F) (u v : F) : List (F × F × F) :=
  [ (o.ofInt 1, o.neg v, o.neg u),
    (o.ofInt (-1), o.neg v, u),
    (u, o.ofInt 1, v),
    (u, o.ofInt (-1), o.neg v),
    (u, o.neg v, o.ofInt 1),
    (o.neg u, o.neg v, o.ofInt (-1)) ]

/-- Specification §4.1 step 5 read literally: `n` is a nearest integer to `q`. -/
def IsNearestInt (q : ℚ) (n : Int) : Prop :=
  ∀ m : Int, |q - (n : ℚ)| ≤ |q - (m : ℚ)|

/-- The six writes `SlicePano` makes for a source `src`, in order: the path of
each face with the image saved there. -/
def faceWrites {F : Type} (o : Float64Ops F) (env : Env) (src : Image) (outputDir : String) :
    List (String × Image) :=
  faces.enum.map
    (fun f => (env.join outputDir (f.2 ++ ".jpg"), ExtractFace o src (f.1 : Int) (src.width / 4)))

/-- The value of the `float64` constant `math.Pi`, exactly. -/
def float64Pi : ℚ := 884279719003555 / 281474976710656

/-- A rational stand-in for `math.Atan` on `[-1, 1]`: exact at `0` and `±1`,
within `0.005` elsewhere. -/
def atanUnit (t : ℚ) : ℚ :=
  if t = 1 then float64Pi / 4
  else if t = -1 then -(float64Pi / 4)
  else t / (1 + 28 / 100 * t ^ 2)

/-- A rational stand-in for `math.Atan2(y, x)`, by reduction to `atanUnit`;
exact on the axes and the diagonals. -/
def atan2Approx (y x : ℚ) : ℚ :=
  if x = 0 ∧ y = 0 then 0
  else if |y| ≤ |x| then
    if 0 < x then atanUnit (y / x)
    else if 0 ≤ y then atanUnit (y / x) + float64Pi
    else atanUnit (y / x) - float64Pi
  else
    if 0 < y then float64Pi / 2 - atanUnit (x / y)
    else -(float64Pi / 2) - atanUnit (x / y)

/-- A rational stand-in for `math.Sqrt`: the integer square root at 20 binary digits. -/
def sqrtApprox (q : ℚ) : ℚ :=
  if q ≤ 0 then 0
  else (Nat.sqrt (q.num.toNat * q.den * 4 ^ 20) : ℚ) / ((q.den : ℚ) * 2 ^ 20)

/-- Exact arithmetic with the stand-ins above. -/
def demoOps : Float64Ops ℚ := exactOps atan2Approx sqrtApprox float64Pi

/-- A source whose pixel `(x, y)` is the opaque colour `(x, y, 0)`. -/
def gradient (w h : Nat) : Image :=
  ⟨w, h, fun x y => ⟨x.toNat, y.toNat, 0, 255⟩⟩

/-- The part of a path before its last `/` (`.` when there is none). -/
def demoDir (p : String) : String :=
  let r := (p.data.reverse.dropWhile (fun c => c != '/')).drop 1
  if r.isEmpty then "." else String.mk r.reverse

/-- The part of a path after its last `/`. -/
def demoBase (p : String) : String :=
  String.mk (p.data.reverse.takeWhile (fun c => c != '/')).reverse

/-- Path `a/b`, without a leading `./`. -/
def demoJoin (a b : String) : String :=
  let p := a ++ "/" ++ b
  match p.data with
  | '.' :: '/' :: rest => String.mk rest
  | _ => p

/-- Whether `p` is `d` or below `d`, both taken without a leading `./`. -/
def demoInside (d p : String) : Bool :=
  let strip := fun (l : List Char) =>
    match l with
    | '.' :: '/' :: rest => rest
    | _ => l
  strip d.data == strip p.data || (strip d.data ++ ['/']).isPrefixOf (strip p.data)

/-- A concrete world: slash-separated paths, a nearest-neighbour `Fill`, and
the given failures. -/
def demoEnv (openFails saveFails uploadFails : String → Bool) (hasR2 : Bool) : Env where
  join := demoJoin
  dir := demoDir
  base := demoBase
  inside := demoInside
  fill := fun img =>
    ⟨512, 512, fun x y => img.At (x * (img.width : Int) / 512) (y * (img.height : Int) / 512)⟩
  openFails := openFails
  saveFails := saveFails
  saveFileFails := fun _ => false
  uploadFails := uploadFails
  hasR2 := hasR2

/-- The local path of an uploaded source, as `UploadPano` lays it out. -/
def demoSource : String := "uploads/p1/s1/original.jpg"

/-- The output directory the task passes to `SlicePano` for `demoSource`. -/
def demoCube : String := "uploads/p1/s1/cubemap"

/-- A disk holding one `8 × 4` source. -/
def demoDisk : FS := { files := [(demoSource, gradient 8 4)], dirs := ["./uploads/p1/s1"] }

/-- A world where no operation fails, with a configured object store. -/
def quietEnv : Env := demoEnv (fun _ => false) (fun _ => false) (fun _ => false) true

/-- A world where the front face cannot be re-opened and the thumbnail cannot be saved. -/
def noThumbEnv : Env :=
  demoEnv (fun p => p == "uploads/p1/s1/cubemap/posz.jpg")
    (fun p => p == "uploads/p1/s1/thumbnail.jpg") (fun _ => false) true

end Pipeline

namespace Handlers

open Pipeline

/-! ## Invariant of the transition system -/

/-- Whether the goroutine has passed its item status write (line 192). -/
def PC.written : PC → Bool
  | .wrote => true
  | .counted _ => true
  | .done => true
  | _ => false

/-- The status the scene row of a task holds, given where the task stands. -/
def Task.dbStatus (t : Task) : String :=
  if t.pc.written then t.status else "processing"

/-- A scene row and the task launched for it agree. -/
def SceneOf (sc : Scene) (t : Task) : Prop :=
  sc.id = t.sid ∧ sc.projectID = t.pid ∧ sc.status = t.dbStatus

/-- Every project row with that identifier is `ready`. -/
def DB.Ready (db : DB) (pid : String) : Prop :=
  ∀ p ∈ db.projects, p.id = pid → p.status = "ready"

/-- The invariant of the transition system. -/
structure Inv (s : State) : Prop where
  rows : List.Forall₂ SceneOf s.db.scenes s.tasks
  fresh : (s.tasks.map (fun t => t.sid)).Nodup
  status : ∀ t ∈ s.tasks, t.pc ≠ .waiting → t.pc ≠ .running →
    t.status = "ready" ∨ t.status = "error"
  projects : ∀ p ∈ s.db.projects, p.status = "processing" ∨ p.status = "ready"
  owner : ∀ t ∈ s.tasks, ∃ hd ∈ s.handlers, hd.project.id = t.pid
  pending : ∀ pid : String, (∃ t ∈ s.tasks, t.pid = pid) →
    (∀ t ∈ s.tasks, t.pid = pid → t.pc.written = true) →
    s.db.Ready pid ∨ ∃ t ∈ s.tasks, t.pid = pid ∧ (t.pc = .wrote ∨ t.pc = .counted 0)

/-! ## A concrete batch -/

/-- An uploaded `8 × 4` panorama. -/
def demoFile : FileUpload := { content := gradient 8 4, size := 100 }

/-- A world where the source of scene `s1` cannot be decoded. -/
def brokenFirstEnv : Env :=
  demoEnv (fun p => p == "uploads/p1/s1/original.jpg") (fun _ => false) (fun _ => false) true

/-- An empty disk. -/
def emptyDisk : FS := { files := [], dirs := [] }

/-- A batch of three files, the tasks of the first two interleaved. -/
def demoBatch : List Action :=
  [ .submit "p1" 7 "tour" false "" [demoFile, demoFile, demoFile],
    .create 0 "s1", .create 0 "s2", .create 0 "s3", .respond 0,
    .acquire 0, .acquire 1, .slice 0, .slice 1, .write 1, .write 0,
    .count 0, .count 1, .finish 0, .finish 1,
    .acquire 2, .slice 2, .write 2, .count 2, .finish 2 ]

/-- The demo batch after the handler returned and the first task took a slot. -/
def demoRunning : State :=
  (run demoOps brokenFirstEnv (initState emptyDisk) (demoBatch.take 6)).getD (initState emptyDisk)

/-- A world whose object store rejects every upload. -/
def rejectingEnv : Env := demoEnv (fun _ => false) (fun _ => false) (fun _ => true) true

/-- One project with one scene, both `processing`. -/
def demoDB : DB :=
  { projects := [{ id := "p1", userID := 7, name := "tour", panoPath := "uploads/p1/s1",
                   isPublic := false, magicCode := "", size := 100, status := "processing" }],
    scenes := [{ id := "s1", projectID := "p1", name := "Scene 1", panoPath := "uploads/p1/s1",
                 status := "processing", displayOrder := 0, size := 100 }] }

/-- The demo disk and an empty bucket. -/
def demoWorld : World := { fs := demoDisk, r2 := { objects := [], calls := [] } }

/-- The state the demo batch ends in. -/
def demoFinal : State :=
  (run demoOps brokenFirstEnv (initState emptyDisk) demoBatch).getD (initState emptyDisk)

end Handlers

namespace Handlers

open Pipeline

/-! ## Semaphore -/

/-- The tasks inside `SlicePano`: holding a slot, slicing not yet done. -/
def insideSlicer (tasks : List Task) : Nat :=
  (tasks.filter (fun t => decide (t.pc = .running))).length

/-- The steps a task holding a slot still takes, up to its return. -/
def ownSteps (t : Nat) : PC → List Action
  | .running => [.slice t, .write t, .count t, .finish t]
  | .sliced => [.write t, .count t, .finish t]
  | .wrote => [.count t, .finish t]
  | .counted _ => [.finish t]
  | _ => []

end Handlers

namespace Handlers

open Pipeline

/-- The demo batch once the first two tasks hold both slots; the third waits. -/
def demoFull : State :=
  (run demoOps brokenFirstEnv (initState emptyDisk) (demoBatch.take 7)).getD (initState emptyDisk)

end Handlers

namespace Handlers

open Pipeline

/-! ## Aggregate status writes and further batches -/

/-- Whether the step is an aggregate status write for `pid` (line 198): the
return of a task of `pid` that counted zero. -/
def isReadyUpdate (pid : String) (s : State) : Action → Bool
  | .finish t =>
    match s.tasks[t]? with
    | some tk => decide (tk.pid = pid) && decide (tk.pc = .counted 0)
    | none => false
  | _ => false

/-- How many times a run performs the aggregate status write for `pid`. -/
def readyUpdates {F : Type} (o : Float64Ops F) (env : Env) (pid : String) :
    State → List Action → Nat
  | _, [] => 0
  | s, a :: rest =>
    match step o env s a with
    | none => 0
    | some s1 => (if isReadyUpdate pid s a then 1 else 0) + readyUpdates o env pid s1 rest

/-- Some project row with that identifier is `ready`. -/
def DB.SomeReady (db : DB) (pid : String) : Prop :=
  ∃ p ∈ db.projects, p.id = pid ∧ p.status = "ready"

/-- Two files, the task of the first run to its return before the second file
is handled. -/
def earlyBatch : List Action :=
  [ .submit "p1" 7 "tour" false "" [demoFile, demoFile],
    .create 0 "s1", .acquire 0, .slice 0, .write 0, .count 0, .finish 0,
    .create 0 "s2" ]

/-- The state of `earlyBatch` when the first task has returned. -/
def earlyReady : State :=
  (run demoOps quietEnv (initState emptyDisk) (earlyBatch.take 7)).getD (initState emptyDisk)

/-- The state of `earlyBatch` at its end. -/
def earlyFinal : State :=
  (run demoOps quietEnv (initState emptyDisk) earlyBatch).getD (initState emptyDisk)

/-- The state of `earlyBatch` when the first task has counted. -/
def earlyCounted : State :=
  (run demoOps quietEnv (initState emptyDisk) (earlyBatch.take 6)).getD (initState emptyDisk)

end Handlers

namespace Handlers

open Pipeline

/-- The object keys of one item, as specification §6 lists them: the original,
the six faces, the thumbnail. -/
def itemKeys (pid sid : String) : List String :=
  [ pid ++ "/" ++ sid ++ "/original.jpg",
    pid ++ "/" ++ sid ++ "/cubemap/posx.jpg",
    pid ++ "/" ++ sid ++ "/cubemap/negx.jpg",
    pid ++ "/" ++ sid ++ "/cubemap/posy.jpg",
    pid ++ "/" ++ sid ++ "/cubemap/negy.jpg",
    pid ++ "/" ++ sid ++ "/cubemap/posz.jpg",
    pid ++ "/" ++ sid ++ "/cubemap/negz.jpg",
    pid ++ "/" ++ sid ++ "/thumbnail.jpg" ]

/-- A world without object store where no operation fails. -/
def localEnv : Env := demoEnv (fun _ => false) (fun _ => false) (fun _ => false) false

end Handlers

namespace Handlers

open Pipeline

/-- A lower-case hexadecimal digit. -/
def isLowerHex (c : Char) : Bool :=
  c.isDigit || (decide ('a'.toNat ≤ c.toNat) && decide (c.toNat ≤ 'f'.toNat))

/-- The shape of `uuid.New().String()` (project.go, lines 112 and 137): 36
characters, `-` at positions 8, 13, 18 and 23, lower-case hexadecimal digits
elsewhere. -/
def isUUID (s : String) : Bool :=
  s.data.length == 36 &&
  s.data.enum.all (fun ic =>
    if ic.1 = 8 ∨ ic.1 = 13 ∨ ic.1 = 18 ∨ ic.1 = 23 then ic.2 == '-' else isLowerHex ic.2)

/-- The key `UploadMedia` stores a file under (project.go, line 544). -/
def mediaKey (newName : String) : String := "media/" ++ newName

/-- An S3 service with pages of 1000 keys where no call fails. -/
def r2Api : R2Api := { maxKeys := 1000, listFails := fun _ => false, deleteFails := fun _ => false }

/-- A first aggregate id. -/
def demoId : String := "123e4567-e89b-42d3-a456-426614174000"

/-- A second aggregate id, beginning like the first. -/
def otherId : String := "123e4567-e89b-42d3-a456-426614174001"

/-- A bucket of 1001 objects whose keys all begin with `p/`. -/
def bigBucket : Store :=
  { objects := (List.range 1001).map
      (fun i => (String.mk ('p' :: '/' :: List.replicate i 'x'), "image/jpeg", gradient 8 4)),
    calls := [] }

end Handlers

namespace Handlers

open Pipeline

/-! ## View throttling (`shouldIncrementView`, project.go lines 30-45) -/

/-- The smallest `time.Duration` (an `int64` count of nanoseconds). -/
def minDuration : Int := -(2 ^ 63)

/-- The largest `time.Duration`. -/
def maxDuration : Int := 2 ^ 63 - 1

/-- Go `t.Sub(u)` on instants given in nanoseconds: the difference, saturated to
the range of `time.Duration`. -/
def timeSub (t u : Int) : Int :=
  if t - u < minDuration then minDuration
  else if maxDuration < t - u then maxDuration
  else t - u

/-- Go `5*time.Minute`, in nanoseconds. -/
def fiveMinutes : Int := 5 * (60 * 1000000000)

/-- The package variable `viewCache` (a `sync.Map`): the instant stored under each key. -/
def ViewCache : Type := String → Option Int

/-- Go `viewCache.Store(key, t)`. -/
def ViewCache.store (cache : ViewCache) (key : String) (t : Int) : ViewCache :=
  fun k => if k = key then some t else cache k

/-- A cache holding nothing. -/
def ViewCache.empty : ViewCache := fun _ => none

/-- Line 34: `cacheKey := fmt.Sprintf("%s:%s", ip, projectID)`. -/
def cacheKey (ip projectID : String) : String :=
  ip ++ ":" ++ projectID

/-- Go `shouldIncrementView(ip, projectID)` called at the instant `now` (the value
of `time.Now()`, line 35): the result and the cache left. -/
def shouldIncrementView (cache : ViewCache) (ip projectID : String) (now : Int) :
    Bool × ViewCache :=
  match cache (cacheKey ip projectID) with
  | some lastTime =>
    if timeSub now lastTime < fiveMinutes then (false, cache)
    else (true, cache.store (cacheKey ip projectID) now)
  | none => (true, cache.store (cacheKey ip projectID) now)

end Handlers

namespace Handlers

open Pipeline

/-! ## Magic codes (`generateUniqueMagicCode`, `UploadPano`, `UpdateProject`) -/

/-- Go `h.DB.Model(&models.Project{}).Where("magic_code = ?", code).Count(&count)`
(project.go, line 52): the soft-deleted rows are not counted. -/
def DB.countMagicCode (db : DB) (code : String) : Nat :=
  (db.projects.filter (fun p => decide (p.magicCode = code))).length

/-- Go `generateUniqueMagicCode()` (project.go, lines 47-57).  The helper
`utils.GenerateMagicCode(4)` is not among the sources: the values its successive
calls return are the parameter `candidates`.  The result is the code returned, or
`none` when the loop is still running after the last candidate given. -/
def generateUniqueMagicCode (db : DB) : List String → Option String
  | [] => none
  | code :: rest =>
    if db.countMagicCode code = 0 then some code else generateUniqueMagicCode db rest

/-- The form values of a public upload and the candidates its code generation draws. -/
structure PublicUpload where
  pid : String
  userID : Nat
  name : String
  size : Nat
  candidates : List String

/-- Lines 119-128 of `UploadPano` when `is_public` is `true`: the project record. -/
def PublicUpload.row (u : PublicUpload) (magicCode : String) : Project :=
  { id := u.pid, userID := u.userID, name := u.name, panoPath := "", isPublic := true,
    magicCode := magicCode, size := u.size, status := "processing" }

/-- Lines 112-129 of `UploadPano` when `is_public` is `true`, for an allocation that
is registered: the code is generated, then the project row holding it is in the
table. -/
def createPublicProject (db : DB) (u : PublicUpload) : Option (String × DB) :=
  match generateUniqueMagicCode db u.candidates with
  | none => none
  | some code => some (code, db.insertProject (u.row code))

/-- Public uploads handled one after the other, each row created before the next code
is generated: the codes allocated, in order, and the table left. -/
def allocateAll (db : DB) : List PublicUpload → Option (List String × DB)
  | [] => some ([], db)
  | u :: rest =>
    match createPublicProject db u with
    | none => none
    | some (code, db1) =>
      match allocateAll db1 rest with
      | none => none
      | some (codes, db2) => some (code :: codes, db2)

/-- The body of an `UpdateProject` request (`UpdateRequest`, lines 310-314). -/
structure UpdateRequest where
  name : String
  isPublic : Bool
  isActive : Bool

/-- The table `projects` after an `UPDATE` of every column of the row of `p` that the
database accepted. -/
def DB.writeProject (db : DB) (p : Project) : DB :=
  { db with
    projects := List.map (fun q => if q.id = p.id then p else q)
      db.projects }

/-- Whether the database rejects the `UPDATE` of the row of `p`: another row,
soft-deleted or not, holds its `magic_code`. -/
def DB.rejectsUpdate (db : DB) (p : Project) : Bool :=
  (db.projects.filter (fun q => q.id != p.id) ++ db.deleted).any
    (fun q => q.magicCode == p.magicCode)

/-- Go `h.DB.Save(&project)` (project.go, line 331) for a project read from the
table, its error dropped: a rejected `UPDATE` leaves the table as it was. -/
def DB.saveProject (db : DB) (p : Project) : DB :=
  if db.rejectsUpdate p then db else db.writeProject p

/-- The magic code of the project `id`, when it exists. -/
def DB.magicCode (db : DB) (id : String) : Option String :=
  (db.projects.find? (fun p => decide (p.id = id))).map (fun p => p.magicCode)

/-- Go `UpdateProject` (project.go, lines 290-334) for the request of user `userID`
(an administrator when `isAdmin`, past the creative phase when `expired`) with the
parsed body `body` (`none` when `BodyParser` fails): the HTTP status and the table
left, or `none` when the code generation is still running after the last candidate. -/
def UpdateProject (id : String) (userID : Nat) (isAdmin expired : Bool)
    (body : Option UpdateRequest) (candidates : List String) (db : DB) : Option (Nat × DB) :=
  match db.projects.find? (fun p => decide (p.id = id)) with
  | none => some (404, db)
  | some project =>
    if !isAdmin && decide (project.userID ≠ userID) then some (403, db)
    else if !isAdmin && expired then some (403, db)
    else
      match body with
      | none => some (400, db)
      | some req =>
        let generated :=
          if req.isPublic && !project.isPublic && project.magicCode == "" then
            generateUniqueMagicCode db candidates
          else some project.magicCode
        match generated with
        | none => none
        | some code =>
          some (200, db.saveProject
            { project with name := req.name, magicCode := code, isPublic := req.isPublic,
                           isActive := req.isActive })

/-- A table of three projects: a private one without code, a private one holding a
code, a public one holding a code. -/
def codeDB : DB :=
  { projects :=
      [ { id := "p1", userID := 7, name := "a", panoPath := "", isPublic := false,
          magicCode := "", size := 1, status := "ready" },
        { id := "p2", userID := 7, name := "b", panoPath := "", isPublic := false,
          magicCode := "AB12", size := 1, status := "ready" },
        { id := "p3", userID := 7, name := "c", panoPath := "", isPublic := true,
          magicCode := "CD34", size := 1, status := "ready" } ],
    scenes := [] }

end Handlers

namespace Handlers

open Pipeline

/-- An S3 service that fails to delete the key `p/b` and nothing else. -/
def flakyApi : R2Api :=
  { maxKeys := 1000, listFails := fun _ => false, deleteFails := fun k => k == "p/b" }

/-- A bucket of four objects, three of them under `p/`. -/
def smallBucket : Store :=
  { objects := [("p/c", "image/jpeg", gradient 8 4), ("q/a", "image/jpeg", gradient 8 4),
      ("p/a", "image/jpeg", gradient 8 4), ("p/b", "image/jpeg", gradient 8 4)],
    calls := [] }

end Handlers

namespace Pipeline

/-! ## Sample coordinates of a destination pixel -/

section SampleCoordinates

variable {F : Type}

/-- Lines 19-43: the value of `srcX` for the destination pixel `(x, y)`. -/
def sampleX (o : Float64Ops F) (input : Image) (face : Int) (faceSize x y : Nat) : F :=
  srcXOf o (phiOf o (faceDirection o face (ndc o x faceSize) (ndc o y faceSize))) input.width

/-- Lines 19-44: the value of `srcY` for the destination pixel `(x, y)`. -/
def sampleY (o : Float64Ops F) (input : Image) (face : Int) (faceSize x y : Nat) : F :=
  srcYOf o (thetaOf o (faceDirection o face (ndc o x faceSize) (ndc o y faceSize)))
    input.height

end SampleCoordinates

end Pipeline

namespace Handlers

open Pipeline

/-- A table where the private project `p1` has no code and a soft-deleted project
still holds the code `EF56`. -/
def trashDB : DB :=
  { projects :=
      [ { id := "p1", userID := 7, name := "a", panoPath := "", isPublic := false,
          magicCode := "", size := 1, status := "ready" } ],
    scenes := [],
    deleted :=
      [ { id := "p0", userID := 7, name := "z", panoPath := "", isPublic := true,
          magicCode := "EF56", size := 1, status := "ready" } ] }

end Handlers

namespace Handlers

open Pipeline

end Handlers

namespace Handlers

open Pipeline

end Handlers

namespace Handlers

open Pipeline

/-- Two aggregates: the first of user 7, the second of user 8. -/
def ownerDB : DB :=
  { projects :=
      [ { id := demoId, userID := 7, name := "tour", panoPath := "uploads/" ++ demoId,
          isPublic := false, magicCode := "", size := 100, status := "ready" },
        { id := otherId, userID := 8, name := "other", panoPath := "uploads/" ++ otherId,
          isPublic := true, magicCode := "AB12", size := 100, status := "ready" } ],
    scenes := [] }

/-- A bucket holding the eight objects of one item of each of the two aggregates and
one media file. -/
def sharedBucket : Store :=
  { objects := (itemKeys demoId "s1" ++ itemKeys otherId "s1" ++ [mediaKey "logo.png"]).map
      (fun k => (k, "image/jpeg", gradient 8 4)),
    calls := [] }

end Handlers

/-! # Theorems -/

namespace Pipeline

/-! ## Images and loops -/

theorem Image.Set_width (img : Image) (x y : Int) (c : Color) :
    (img.Set x y c).width = img.width := by
  unfold Image.Set; split <;> rfl

theorem Image.Set_height (img : Image) (x y : Int) (c : Color) :
    (img.Set x y c).height = img.height := by
  unfold Image.Set; split <;> rfl

theorem Image.Set_inBounds (img : Image) (x y : Int) (c : Color) (i j : Int) :
    (img.Set x y c).inBounds i j = img.inBounds i j := by
  simp [Image.inBounds, Image.Set_width, Image.Set_height]

theorem Image.Set_At (img : Image) (x y : Int) (c : Color) (i j : Int) :
    (img.Set x y c).At i j =
      if i = x ∧ j = y ∧ img.inBounds x y = true then c else img.At i j := by
  unfold Image.At
  rw [Image.Set_inBounds]
  unfold Image.Set
  by_cases hb : img.inBounds x y = true
  · by_cases hij : i = x ∧ j = y
    · obtain ⟨rfl, rfl⟩ := hij
      simp [hb]
    · simp only [hb, if_true]
      have : ¬ (i = x ∧ j = y ∧ True) := by simpa using hij
      simp only [hij, if_false, and_true]
  · simp [hb]

/-- The inner loop over the columns of row `y`. -/
theorem forRange_row (c : Nat → Color) (y n : Nat) (img0 : Image) :
    (forRange n (fun x img => img.Set x y (c x)) img0).width = img0.width ∧
    (forRange n (fun x img => img.Set x y (c x)) img0).height = img0.height ∧
    ∀ i j : Nat, (forRange n (fun x img => img.Set x y (c x)) img0).At i j =
      if j = y ∧ i < n ∧ img0.inBounds i j = true then c i else img0.At i j := by
  induction n with
  | zero => simp [forRange]
  | succ k ih =>
    obtain ⟨hw, hh, hat⟩ := ih
    refine ⟨?_, ?_, ?_⟩
    · simp [forRange, Image.Set_width, hw]
    · simp [forRange, Image.Set_height, hh]
    · intro i j
      simp only [forRange]
      rw [Image.Set_At, hat]
      have hb : ∀ a b : Int, (forRange k (fun x img => img.Set x y (c x)) img0).inBounds a b
          = img0.inBounds a b := by
        intro a b; simp [Image.inBounds, hw, hh]
      rw [hb]
      by_cases hj : j = y
      · subst hj
        by_cases hik : i = k
        · subst hik
          by_cases hin : img0.inBounds i j = true
          · simp [hin]
          · simp [hin]
        · have : ¬ ((i : Int) = (k : Int)) := by exact_mod_cast hik
          have h2 : i < k + 1 ↔ i < k := by omega
          simp [this, h2]
      · have : ¬ ((j : Int) = (y : Int)) := by exact_mod_cast hj
        simp [this, hj]

/-- The two nested loops. -/
theorem forRange_grid (c : Nat → Nat → Color) (n m : Nat) (img0 : Image) :
    (forRange m (fun y img => forRange n (fun x img => img.Set x y (c x y)) img) img0).width
      = img0.width ∧
    (forRange m (fun y img => forRange n (fun x img => img.Set x y (c x y)) img) img0).height
      = img0.height ∧
    ∀ i j : Nat,
      (forRange m (fun y img => forRange n (fun x img => img.Set x y (c x y)) img) img0).At i j =
        if j < m ∧ i < n ∧ img0.inBounds i j = true then c i j else img0.At i j := by
  induction m with
  | zero => simp [forRange]
  | succ k ih =>
    obtain ⟨hw, hh, hat⟩ := ih
    have hrow := forRange_row (fun x => c x k) k n
      (forRange k (fun y img => forRange n (fun x img => img.Set x y (c x y)) img) img0)
    obtain ⟨rw1, rh1, rat⟩ := hrow
    refine ⟨?_, ?_, ?_⟩
    · simp only [forRange]; rw [rw1, hw]
    · simp only [forRange]; rw [rh1, hh]
    · intro i j
      simp only [forRange]
      rw [rat, hat]
      have hb : (forRange k (fun y img => forRange n (fun x img => img.Set x y (c x y)) img)
          img0).inBounds i j = img0.inBounds i j := by
        simp [Image.inBounds, hw, hh]
      rw [hb]
      by_cases hj : j = k
      · subst hj
        by_cases h1 : i < n ∧ img0.inBounds i j = true
        · simp [h1]
        · have h1' : ¬ (j < j + 1 ∧ i < n ∧ img0.inBounds i j = true) := fun h => h1 h.2
          have h1'' : ¬ (j < j ∧ i < n ∧ img0.inBounds i j = true) := fun h => h1 h.2
          have h1''' : ¬ (j = j ∧ i < n ∧ img0.inBounds i j = true) := fun h => h1 h.2
          rw [if_neg h1''', if_neg h1'', if_neg h1']
      · have h2 : j < k + 1 ↔ j < k := by omega
        simp [hj, h2]

/-- The image `ExtractFace` returns is `faceSize × faceSize`. -/
theorem ExtractFace_size {F : Type} (o : Float64Ops F) (input : Image) (face : Int)
    (faceSize : Nat) :
    (ExtractFace o input face faceSize).width = faceSize ∧
    (ExtractFace o input face faceSize).height = faceSize := by
  have h := forRange_grid (fun x y => sampleColor o input face faceSize x y) faceSize faceSize
    (NewRGBA faceSize faceSize)
  exact ⟨h.1, h.2.1⟩

/-- Every destination pixel holds the colour computed by the loop body for it. -/
theorem ExtractFace_At {F : Type} (o : Float64Ops F) (input : Image) (face : Int)
    (faceSize x y : Nat) (hx : x < faceSize) (hy : y < faceSize) :
    (ExtractFace o input face faceSize).At x y = sampleColor o input face faceSize x y := by
  have h := (forRange_grid (fun x y => sampleColor o input face faceSize x y) faceSize faceSize
    (NewRGBA faceSize faceSize)).2.2 x y
  unfold ExtractFace
  rw [h]
  have hb : (NewRGBA faceSize faceSize).inBounds x y = true := by
    simp [Image.inBounds, NewRGBA, hx, hy]
  simp [hx, hy, hb]

/-! ## The conversion `int(f)` on exact rationals -/

theorem goInt_of_nonneg (q : ℚ) (h : 0 ≤ q) : goInt q = ⌊q⌋ := by
  unfold goInt
  rw [Rat.floor_def]
  exact Int.tdiv_eq_ediv (Rat.num_nonneg.mpr h) (Int.ofNat_nonneg _)

theorem goInt_neg (q : ℚ) : goInt (-q) = -goInt q := by
  unfold goInt
  simp [Int.neg_tdiv]

theorem goInt_of_nonpos (q : ℚ) (h : q ≤ 0) : goInt q = ⌈q⌉ := by
  have h1 : goInt (-q) = ⌊-q⌋ := goInt_of_nonneg (-q) (by linarith)
  rw [goInt_neg] at h1
  rw [Int.floor_neg] at h1
  linarith

/-- The conversion `goInt` is truncation toward zero. -/
theorem goInt_trunc (q : ℚ) : goInt q = if 0 ≤ q then ⌊q⌋ else ⌈q⌉ := by
  split
  · next h => exact goInt_of_nonneg q h
  · next h => exact goInt_of_nonpos q (by linarith)

theorem goInt_natCast_div_two (n : Nat) :
    goInt ((1 / 2 : ℚ) * (n : ℚ)) = ((n / 2 : Nat) : Int) := by
  rw [goInt_of_nonneg _ (by positivity)]
  rw [Int.floor_eq_iff]
  have h := Nat.div_add_mod n 2
  have h2 : n % 2 < 2 := Nat.mod_lt _ (by norm_num)
  have hq : (n : ℚ) = 2 * ((n / 2 : Nat) : ℚ) + ((n % 2 : Nat) : ℚ) := by
    exact_mod_cast h.symm
  have h3 : ((n % 2 : Nat) : ℚ) < 2 := by exact_mod_cast h2
  have h4 : (0 : ℚ) ≤ ((n % 2 : Nat) : ℚ) := by positivity
  rw [Int.cast_natCast]
  constructor
  · linarith
  · linarith

/-! ## The stand-ins for `math.Atan2` and `math.Sqrt` at the points used below -/

theorem sqrtApprox_two_pos : 0 < sqrtApprox 2 := by
  unfold sqrtApprox
  rw [if_neg (by norm_num)]
  have h1 : (2 : ℚ).num = 2 := rfl
  have h3 : (2 : ℚ).den = 1 := rfl
  rw [h1, h3]
  apply div_pos
  · have : 0 < Nat.sqrt ((2 : Int).toNat * 1 * 4 ^ 20) := by
      apply Nat.sqrt_pos.mpr
      norm_num
    exact_mod_cast this
  · norm_num

theorem sqrtApprox_one : sqrtApprox 1 = 1 := by
  unfold sqrtApprox
  rw [if_neg (by norm_num)]
  have h1 : (1 : ℚ).num = 1 := rfl
  have h3 : (1 : ℚ).den = 1 := rfl
  rw [h1, h3]
  have h4 : (1 : Int).toNat * 1 * 4 ^ 20 = 2 ^ 20 * 2 ^ 20 := by norm_num
  rw [h4, Nat.sqrt_eq]
  norm_num

theorem atan2Approx_zero_pos (x : ℚ) (h : 0 < x) : atan2Approx 0 x = 0 := by
  unfold atan2Approx
  rw [if_neg (by intro h1; exact h.ne' h1.1), if_pos (by simp [abs_nonneg]), if_pos h]
  simp [atanUnit]

/-- Face 4, size 2, destination pixel `(0, 1)`: the direction is `(-1, 0, 1)`. -/
theorem demo_direction :
    faceDirection demoOps 4 (ndc demoOps 0 2) (ndc demoOps 1 2) = (-1, 0, 1) := by
  simp only [faceDirection, ndc, demoOps, exactOps]
  norm_num

/-- Face 4, size 2, destination pixel `(0, 1)`, source width 10: `srcX = 3.75`. -/
theorem demo_srcX :
    srcXOf demoOps
      (phiOf demoOps (faceDirection demoOps 4 (ndc demoOps 0 2) (ndc demoOps 1 2))) 10
      = 15 / 4 := by
  have hpi : float64Pi ≠ 0 := by unfold float64Pi; norm_num
  simp only [srcXOf, phiOf, faceDirection, ndc, demoOps, exactOps]
  norm_num [atan2Approx, atanUnit]
  field_simp
  ring

theorem srcY_front_left (atan2 : ℚ → ℚ → ℚ) (sqrt : ℚ → ℚ) (pi : ℚ) :
    srcYOf (exactOps atan2 sqrt pi)
      (thetaOf (exactOps atan2 sqrt pi) (faceDirection (exactOps atan2 sqrt pi) 4
        (ndc (exactOps atan2 sqrt pi) 0 2) (ndc (exactOps atan2 sqrt pi) 1 2))) 4
      = (1 / 2 - atan2 0 (sqrt 2) / pi) * 4 := by
  simp only [srcYOf, thetaOf, faceDirection, ndc, exactOps]
  norm_num

/-- Face 4, size 2, destination pixel `(0, 1)`, source height 4: `srcY = 2`. -/
theorem demo_srcY :
    srcYOf demoOps
      (thetaOf demoOps (faceDirection demoOps 4 (ndc demoOps 0 2) (ndc demoOps 1 2))) 4
      = 2 := by
  unfold demoOps
  rw [srcY_front_left, atan2Approx_zero_pos _ sqrtApprox_two_pos]
  norm_num

/-! ## Projector: claims C1 to C4 -/

/-- C1. For every face index `f` in `0..5` and every destination pixel `(x, y)`
with `x, y < s` (so `s ≥ 1`), the direction the `switch` of `ExtractFace`
yields for `u = 2x/s - 1`, `v = 2y/s - 1` is entry `f` of the specification's
basis table, and the pixel written at `(x, y)` is the source pixel sampled along
that direction.  It holds for every interpretation of the `float64` operations. -/
theorem ExtractFace_uses_spec_basis {F : Type} (o : Float64Ops F) (input : Image)
    (f s x y : Nat) (hf : f < 6) (hx : x < s) (hy : y < s) :
    ∃ d : F × F × F,
      (specBasis o (ndc o x s) (ndc o y s))[f]? = some d ∧
      faceDirection o (f : Int) (ndc o x s) (ndc o y s) = d ∧
      (ExtractFace o input (f : Int) s).At x y =
        input.At (o.toInt (srcXOf o (phiOf o d) input.width))
          (o.toInt (srcYOf o (thetaOf o d) input.height)) := by
  refine ⟨faceDirection o (f : Int) (ndc o x s) (ndc o y s), ?_, rfl, ?_⟩
  · have : f = 0 ∨ f = 1 ∨ f = 2 ∨ f = 3 ∨ f = 4 ∨ f = 5 := by omega
    rcases this with h | h | h | h | h | h <;> subst h <;> simp [specBasis, faceDirection]
  · rw [ExtractFace_At o input f s x y hx hy]
    rfl

/-- C1 at face 4 of size 2, destination pixel `(0, 1)`, a `10 × 4` source. -/
theorem ExtractFace_uses_spec_basis_witness :
    (4 < 6 ∧ 0 < 2 ∧ 1 < 2) ∧
    ∃ d : ℚ × ℚ × ℚ,
      (specBasis demoOps (ndc demoOps 0 2) (ndc demoOps 1 2))[4]? = some d ∧
      faceDirection demoOps ((4 : Nat) : Int) (ndc demoOps 0 2) (ndc demoOps 1 2) = d ∧
      (ExtractFace demoOps (gradient 10 4) ((4 : Nat) : Int) 2).At ((0 : Nat) : Int)
          ((1 : Nat) : Int) =
        (gradient 10 4).At (demoOps.toInt (srcXOf demoOps (phiOf demoOps d) (gradient 10 4).width))
          (demoOps.toInt (srcYOf demoOps (thetaOf demoOps d) (gradient 10 4).height)) :=
  ⟨by decide,
   ExtractFace_uses_spec_basis demoOps (gradient 10 4) 4 2 0 1 (by decide) (by decide)
     (by decide)⟩

/-- C2. For every source, face and destination pixel `(x, y)`, with
`(vx, vy, vz)` the direction computed for the pixel, the pixel written at
`(x, y)` is the source pixel at the integer conversion of
`srcX = (atan2(vx, vz)/(2π) + 0.5) * W` and
`srcY = (0.5 - atan2(vy, sqrt(vx² + vz²))/π) * H`.  It holds for every
interpretation of the `float64` operations. -/
theorem ExtractFace_sample_coordinates {F : Type} (o : Float64Ops F) (input : Image)
    (face : Int) (s x y : Nat) (hx : x < s) (hy : y < s) (vx vy vz : F)
    (hd : faceDirection o face (ndc o x s) (ndc o y s) = (vx, vy, vz)) :
    (ExtractFace o input face s).At x y =
      input.At
        (o.toInt (o.mul (o.add (o.div (o.atan2 vx vz) (o.mul (o.ofInt 2) o.pi)) o.half)
          (o.ofInt input.width)))
        (o.toInt (o.mul
          (o.sub o.half
            (o.div (o.atan2 vy (o.sqrt (o.add (o.mul vx vx) (o.mul vz vz)))) o.pi))
          (o.ofInt input.height))) := by
  rw [ExtractFace_At o input face s x y hx hy]
  simp only [sampleColor, hd, phiOf, thetaOf, srcXOf, srcYOf]

/-- C2 at face 4 of size 2, destination pixel `(0, 1)`, where the direction is `(-1, 0, 1)`. -/
theorem ExtractFace_sample_coordinates_witness :
    (0 < 2 ∧ 1 < 2 ∧
      faceDirection demoOps 4 (ndc demoOps 0 2) (ndc demoOps 1 2) = (-1, 0, 1)) ∧
    (ExtractFace demoOps (gradient 10 4) 4 2).At ((0 : Nat) : Int) ((1 : Nat) : Int) =
      (gradient 10 4).At
        (demoOps.toInt (demoOps.mul (demoOps.add (demoOps.div (demoOps.atan2 (-1) 1)
          (demoOps.mul (demoOps.ofInt 2) demoOps.pi)) demoOps.half)
          (demoOps.ofInt (gradient 10 4).width)))
        (demoOps.toInt (demoOps.mul
          (demoOps.sub demoOps.half
            (demoOps.div (demoOps.atan2 0 (demoOps.sqrt
              (demoOps.add (demoOps.mul (-1) (-1)) (demoOps.mul 1 1)))) demoOps.pi))
          (demoOps.ofInt (gradient 10 4).height))) :=
  ⟨⟨by decide, by decide, demo_direction⟩,
   ExtractFace_sample_coordinates demoOps (gradient 10 4) 4 2 0 1 (by decide) (by decide)
     (-1) 0 1 demo_direction⟩

/-- C3, refuted as stated.  Face 4 of size 2, destination pixel `(0, 1)`, a
`10 × 4` source: `srcX = 3.75`, the conversion gives column `3`, although `4`
is the nearest integer; the pixel written is the source pixel `(3, 2)`, which
differs from the source pixel `(4, 2)`. -/
theorem nearest_sampling_counterexample :
    srcXOf demoOps
      (phiOf demoOps (faceDirection demoOps 4 (ndc demoOps 0 2) (ndc demoOps 1 2))) 10
      = 15 / 4 ∧
    demoOps.toInt (15 / 4) = 3 ∧
    ¬ IsNearestInt (15 / 4) 3 ∧
    (ExtractFace demoOps (gradient 10 4) 4 2).At 0 1 = (gradient 10 4).At 3 2 ∧
    (gradient 10 4).At 3 2 ≠ (gradient 10 4).At 4 2 := by
  have h3 : goInt (15 / 4) = 3 := by
    rw [goInt_of_nonneg _ (by norm_num), Int.floor_eq_iff]; norm_num
  have h2 : goInt 2 = 2 := by
    rw [goInt_of_nonneg _ (by norm_num), Int.floor_eq_iff]; norm_num
  refine ⟨demo_srcX, h3, ?_, ?_, ?_⟩
  · intro h
    have := h 4
    norm_num [abs_of_pos, abs_of_neg] at this
  · have := ExtractFace_At demoOps (gradient 10 4) 4 2 0 1 (by norm_num) (by norm_num)
    simp only [Nat.cast_zero, Nat.cast_one] at this
    rw [this]
    simp only [sampleColor]
    have e1 : (gradient 10 4).width = 10 := rfl
    have e2 : (gradient 10 4).height = 4 := rfl
    rw [e1, e2, demo_srcX, demo_srcY]
    have e : ∀ q, demoOps.toInt q = goInt q := fun _ => rfl
    rw [e, e, h3, h2]
  · decide

/-- C3, amended.  In exact arithmetic, for every destination pixel `(x, y)` with
sample coordinates `(sx, sy)`, the pixel written is the source pixel whose
coordinates are `sx` and `sy` truncated toward zero: the floor of a non-negative
coordinate (the ceiling of a negative one), not the nearest integer. -/
theorem ExtractFace_samples_truncated (atan2 : ℚ → ℚ → ℚ) (sqrt : ℚ → ℚ) (pi : ℚ)
    (input : Image) (face : Int) (s x y : Nat) (hx : x < s) (hy : y < s) (sx sy : ℚ)
    (hsx : sx = srcXOf (exactOps atan2 sqrt pi)
      (phiOf (exactOps atan2 sqrt pi) (faceDirection (exactOps atan2 sqrt pi) face
        (ndc (exactOps atan2 sqrt pi) x s) (ndc (exactOps atan2 sqrt pi) y s))) input.width)
    (hsy : sy = srcYOf (exactOps atan2 sqrt pi)
      (thetaOf (exactOps atan2 sqrt pi) (faceDirection (exactOps atan2 sqrt pi) face
        (ndc (exactOps atan2 sqrt pi) x s) (ndc (exactOps atan2 sqrt pi) y s))) input.height) :
    (ExtractFace (exactOps atan2 sqrt pi) input face s).At x y =
      input.At (if 0 ≤ sx then ⌊sx⌋ else ⌈sx⌉) (if 0 ≤ sy then ⌊sy⌋ else ⌈sy⌉) := by
  rw [ExtractFace_At _ input face s x y hx hy, ← goInt_trunc, ← goInt_trunc, hsx, hsy]
  rfl

/-- C3 amended, at face 4 of size 2, destination pixel `(0, 1)`: coordinates `(3.75, 2)`. -/
theorem ExtractFace_samples_truncated_witness :
    (0 < 2 ∧ 1 < 2) ∧
    (ExtractFace (exactOps atan2Approx sqrtApprox float64Pi) (gradient 10 4) 4 2).At
        ((0 : Nat) : Int) ((1 : Nat) : Int) =
      (gradient 10 4).At (if (0 : ℚ) ≤ 15 / 4 then ⌊(15 / 4 : ℚ)⌋ else ⌈(15 / 4 : ℚ)⌉)
        (if (0 : ℚ) ≤ 2 then ⌊(2 : ℚ)⌋ else ⌈(2 : ℚ)⌉) :=
  ⟨by decide,
   ExtractFace_samples_truncated atan2Approx sqrtApprox float64Pi (gradient 10 4) 4 2 0 1
     (by decide) (by decide) (15 / 4) 2 demo_srcX.symm demo_srcY.symm⟩

/-- C4. In exact arithmetic, with `atan2(0, 1) = 0` and `sqrt(1) = 1` as
`math.Atan2` and `math.Sqrt` give, for every source and every positive even face
size `s` the centre pixel `(s/2, s/2)` of face 4 has `phi = 0` and `theta = 0`
and holds the source pixel `(floor(W/2), floor(H/2))`; a marker colour placed
there in the source is the colour of the face centre. -/
theorem front_face_centre (atan2 : ℚ → ℚ → ℚ) (sqrt : ℚ → ℚ) (pi : ℚ) (input : Image)
    (s : Nat) (hs : 0 < s) (heven : s % 2 = 0)
    (hatan : atan2 0 1 = 0) (hsqrt : sqrt 1 = 1) :
    phiOf (exactOps atan2 sqrt pi)
        (faceDirection (exactOps atan2 sqrt pi) 4
          (ndc (exactOps atan2 sqrt pi) (s / 2) s) (ndc (exactOps atan2 sqrt pi) (s / 2) s))
      = 0 ∧
    thetaOf (exactOps atan2 sqrt pi)
        (faceDirection (exactOps atan2 sqrt pi) 4
          (ndc (exactOps atan2 sqrt pi) (s / 2) s) (ndc (exactOps atan2 sqrt pi) (s / 2) s))
      = 0 ∧
    (ExtractFace (exactOps atan2 sqrt pi) input 4 s).At ((s / 2 : Nat) : Int)
        ((s / 2 : Nat) : Int)
      = input.At ((input.width / 2 : Nat) : Int) ((input.height / 2 : Nat) : Int) ∧
    ∀ marker : Color,
      input.At ((input.width / 2 : Nat) : Int) ((input.height / 2 : Nat) : Int) = marker →
      (ExtractFace (exactOps atan2 sqrt pi) input 4 s).At ((s / 2 : Nat) : Int)
        ((s / 2 : Nat) : Int) = marker := by
  have hs2 : s / 2 < s := Nat.div_lt_self hs (by norm_num)
  have hu : ndc (exactOps atan2 sqrt pi) (s / 2) s = 0 := by
    simp only [ndc, exactOps]
    have h2 : ((s / 2 : Nat) : ℚ) * 2 = (s : ℚ) := by
      have := Nat.div_add_mod s 2
      rw [heven] at this
      exact_mod_cast (by omega : (s / 2) * 2 = s)
    have hs0 : (s : ℚ) ≠ 0 := by exact_mod_cast hs.ne'
    rw [Int.cast_natCast, Int.cast_natCast]
    field_simp
    linarith
  have hphi : phiOf (exactOps atan2 sqrt pi)
        (faceDirection (exactOps atan2 sqrt pi) 4
          (ndc (exactOps atan2 sqrt pi) (s / 2) s) (ndc (exactOps atan2 sqrt pi) (s / 2) s))
      = 0 := by
    rw [hu]
    simp [faceDirection, phiOf, exactOps, hatan]
  have htheta : thetaOf (exactOps atan2 sqrt pi)
        (faceDirection (exactOps atan2 sqrt pi) 4
          (ndc (exactOps atan2 sqrt pi) (s / 2) s) (ndc (exactOps atan2 sqrt pi) (s / 2) s))
      = 0 := by
    rw [hu]
    simp [faceDirection, thetaOf, exactOps, hatan, hsqrt]
  have hpix : (ExtractFace (exactOps atan2 sqrt pi) input 4 s).At ((s / 2 : Nat) : Int)
        ((s / 2 : Nat) : Int)
      = input.At ((input.width / 2 : Nat) : Int) ((input.height / 2 : Nat) : Int) := by
    rw [ExtractFace_At _ input 4 s (s / 2) (s / 2) hs2 hs2]
    simp only [sampleColor]
    rw [hphi, htheta]
    have hX : srcXOf (exactOps atan2 sqrt pi) 0 input.width = (1 / 2 : ℚ) * input.width := by
      simp [srcXOf, exactOps]
    have hY : srcYOf (exactOps atan2 sqrt pi) 0 input.height = (1 / 2 : ℚ) * input.height := by
      simp [srcYOf, exactOps]
    rw [hX, hY]
    have e : ∀ q, (exactOps atan2 sqrt pi).toInt q = goInt q := fun _ => rfl
    rw [e, e, goInt_natCast_div_two, goInt_natCast_div_two]
  exact ⟨hphi, htheta, hpix, fun marker hm => hpix.trans hm⟩

/-- C4 on a `10 × 4` source and a face of size 2: the face centre `(1, 1)` is the
source pixel `(5, 2)`. -/
theorem front_face_centre_witness :
    (0 < 2 ∧ 2 % 2 = 0 ∧ atan2Approx 0 1 = 0 ∧ sqrtApprox 1 = 1) ∧
    (ExtractFace (exactOps atan2Approx sqrtApprox float64Pi) (gradient 10 4) 4 2).At
        ((2 / 2 : Nat) : Int) ((2 / 2 : Nat) : Int)
      = (gradient 10 4).At (((gradient 10 4).width / 2 : Nat) : Int)
          (((gradient 10 4).height / 2 : Nat) : Int) :=
  ⟨⟨by decide, by decide, atan2Approx_zero_pos 1 one_pos, sqrtApprox_one⟩,
   (front_face_centre atan2Approx sqrtApprox float64Pi (gradient 10 4) 2 (by decide)
     (by decide) (atan2Approx_zero_pos 1 one_pos) sqrtApprox_one).2.2.1⟩

/-! ## Slicer: claims C5 to C7 -/

section SlicerFacts

variable {F : Type}

/-- The face loop when no save fails. -/
theorem saveFaces_ok (o : Float64Ops F) (env : Env) (src : Image) (faceSize : Nat)
    (outputDir : String) (l : List (Nat × String)) :
    ∀ (paths : List String) (fs : FS),
    (∀ f ∈ l, env.saveFails (env.join outputDir (f.2 ++ ".jpg")) = false) →
    saveFaces o env src faceSize outputDir l paths fs =
      (.ok (paths ++ l.map (fun f => env.join outputDir (f.2 ++ ".jpg"))),
       { fs with files := (l.map (fun f => (env.join outputDir (f.2 ++ ".jpg"),
            ExtractFace o src (f.1 : Int) faceSize))).reverse ++ fs.files }) := by
  induction l with
  | nil => intro paths fs _; simp [saveFaces]
  | cons f rest ih =>
    intro paths fs h
    obtain ⟨i, name⟩ := f
    have h1 : env.saveFails (env.join outputDir (name ++ ".jpg")) = false :=
      h (i, name) (List.mem_cons_self _ _)
    have h2 : ∀ g ∈ rest, env.saveFails (env.join outputDir (g.2 ++ ".jpg")) = false :=
      fun g hg => h g (List.mem_cons_of_mem _ hg)
    simp only [saveFaces, imagingSave, h1]
    simp only [Bool.false_eq_true, if_false]
    rw [ih _ _ h2]
    simp

/-- The face loop when some save fails. -/
theorem saveFaces_error (o : Float64Ops F) (env : Env) (src : Image) (faceSize : Nat)
    (outputDir : String) (l : List (Nat × String)) :
    ∀ (paths : List String) (fs : FS),
    (∃ f ∈ l, env.saveFails (env.join outputDir (f.2 ++ ".jpg")) = true) →
    ∃ e fs1, saveFaces o env src faceSize outputDir l paths fs = (.error e, fs1) := by
  induction l with
  | nil => intro paths fs h; obtain ⟨f, hf, _⟩ := h; simp at hf
  | cons f rest ih =>
    intro paths fs h
    obtain ⟨i, name⟩ := f
    by_cases h1 : env.saveFails (env.join outputDir (name ++ ".jpg")) = true
    · exact ⟨Error.saveFailed (env.join outputDir (name ++ ".jpg")), fs,
        by simp [saveFaces, imagingSave, h1]⟩
    · have h1' : env.saveFails (env.join outputDir (name ++ ".jpg")) = false := by
        simpa using h1
      obtain ⟨g, hg, hgf⟩ := h
      have hrest : ∃ g ∈ rest, env.saveFails (env.join outputDir (g.2 ++ ".jpg")) = true := by
        rcases List.mem_cons.mp hg with heq | hmem
        · subst heq; simp [h1'] at hgf
        · exact ⟨g, hmem, hgf⟩
      simp only [saveFaces, imagingSave, h1']
      simp only [Bool.false_eq_true, if_false]
      exact ih _ _ hrest

theorem faces_enum_paths (env : Env) (outputDir : String) :
    faces.enum.map (fun f => env.join outputDir (f.2 ++ ".jpg")) =
      faces.map (fun n => env.join outputDir (n ++ ".jpg")) := by
  simp [faces, List.enum, List.enumFrom]

theorem mem_faces_enum_iff (P : String → Prop) :
    (∀ f ∈ faces.enum, P f.2) ↔ ∀ n ∈ faces, P n := by
  simp [faces, List.enum, List.enumFrom]

/-- Result of `SlicePano` when the source opens and every face can be saved. -/
theorem SlicePano_ok (o : Float64Ops F) (env : Env) (inputPath outputDir : String) (fs : FS)
    (src : Image) (hopen : imagingOpen env fs inputPath = .ok src)
    (hsave : ∀ n ∈ faces, env.saveFails (env.join outputDir (n ++ ".jpg")) = false) :
    ∃ thumb : List (String × Image), thumb.length ≤ 1 ∧
      (∀ w ∈ thumb, w.1 = env.join (env.dir outputDir) "thumbnail.jpg") ∧
      SlicePano o env inputPath outputDir fs =
        (.ok (faces.map (fun n => env.join outputDir (n ++ ".jpg"))),
         { files := thumb ++ (faceWrites o env src outputDir).reverse ++ fs.files,
           dirs := (ensureDir fs outputDir).dirs }) := by
  have hs := saveFaces_ok o env src (src.width / 4) outputDir faces.enum []
    (ensureDir fs outputDir) ((mem_faces_enum_iff _).mpr hsave)
  rw [faces_enum_paths] at hs
  have hfiles : (ensureDir fs outputDir).files = fs.files := by
    unfold ensureDir; split <;> rfl
  unfold SlicePano
  rw [hopen]
  simp only [hs, List.nil_append]
  cases hfront : imagingOpen env
      { files := (List.map (fun f => (env.join outputDir (f.2 ++ ".jpg"),
          ExtractFace o src (f.1 : Int) (src.width / 4))) faces.enum).reverse ++
            (ensureDir fs outputDir).files,
        dirs := (ensureDir fs outputDir).dirs } (env.join outputDir "posz.jpg") with
  | error e =>
    refine ⟨[], by simp, by simp, ?_⟩
    simp [faceWrites, hfiles]
  | ok frontImg =>
    by_cases hth : env.saveFails (env.join (env.dir outputDir) "thumbnail.jpg") = true
    · refine ⟨[], by simp, by simp, ?_⟩
      simp [imagingSave, hth, faceWrites, hfiles]
    · refine ⟨[(env.join (env.dir outputDir) "thumbnail.jpg", env.fill frontImg)],
        by simp, by simp, ?_⟩
      simp [imagingSave, hth, faceWrites, hfiles]

/-- Failure: `SlicePano` fails when some face cannot be saved. -/
theorem SlicePano_save_error (o : Float64Ops F) (env : Env) (inputPath outputDir : String)
    (fs : FS) (src : Image) (hopen : imagingOpen env fs inputPath = .ok src)
    (hsave : ∃ n ∈ faces, env.saveFails (env.join outputDir (n ++ ".jpg")) = true) :
    ∃ e, (SlicePano o env inputPath outputDir fs).1 = .error e := by
  have hex : ∃ f ∈ faces.enum, env.saveFails (env.join outputDir (f.2 ++ ".jpg")) = true := by
    by_contra hcon
    push_neg at hcon
    have h2 := (mem_faces_enum_iff
      (fun n => env.saveFails (env.join outputDir (n ++ ".jpg")) = false)).mp
      (fun f hf => by simpa using hcon f hf)
    obtain ⟨n, hn, hnf⟩ := hsave
    rw [h2 n hn] at hnf
    exact Bool.false_ne_true hnf
  obtain ⟨e, fs1, he⟩ := saveFaces_error o env src (src.width / 4) outputDir faces.enum []
    (ensureDir fs outputDir) hex
  refine ⟨e, ?_⟩
  unfold SlicePano
  rw [hopen]
  simp only [he]

/-- Failure: `SlicePano` fails when the source cannot be opened. -/
theorem SlicePano_open_error (o : Float64Ops F) (env : Env) (inputPath outputDir : String)
    (fs : FS) (e : Error) (hopen : imagingOpen env fs inputPath = .error e) :
    SlicePano o env inputPath outputDir fs = (.error e, fs) := by
  unfold SlicePano
  rw [hopen]

/-- A successful `SlicePano` saved every face. -/
theorem SlicePano_ok_saves (o : Float64Ops F) (env : Env) (inputPath outputDir : String)
    (fs : FS) (src : Image) (paths : List String)
    (hopen : imagingOpen env fs inputPath = .ok src)
    (hok : (SlicePano o env inputPath outputDir fs).1 = .ok paths) :
    ∀ n ∈ faces, env.saveFails (env.join outputDir (n ++ ".jpg")) = false := by
  intro n hn
  by_contra hcon
  have ht : env.saveFails (env.join outputDir (n ++ ".jpg")) = true := by simpa using hcon
  obtain ⟨e, he⟩ := SlicePano_save_error o env inputPath outputDir fs src hopen ⟨n, hn, ht⟩
  rw [he] at hok
  cases hok

theorem faceWrites_getElem (o : Float64Ops F) (env : Env) (src : Image) (outputDir : String)
    (i : Nat) (name : String) (h : faces[i]? = some name) :
    (faceWrites o env src outputDir)[i]? =
      some (env.join outputDir (name ++ ".jpg"), ExtractFace o src (i : Int) (src.width / 4)) := by
  have hi : i < 6 := by
    by_contra hc
    have : faces[i]? = none := by
      apply List.getElem?_eq_none
      simp [faces]; omega
    rw [this] at h; cases h
  have : i = 0 ∨ i = 1 ∨ i = 2 ∨ i = 3 ∨ i = 4 ∨ i = 5 := by omega
  rcases this with h0 | h0 | h0 | h0 | h0 | h0 <;> subst h0 <;>
    simp [faces] at h <;> subst h <;> simp [faceWrites, faces, List.enum, List.enumFrom]

/-- C5. For every source `src` that `SlicePano` opens, a successful `SlicePano`
saves six face images, each `ExtractFace src i (W / 4)` for a face index `i`
and `W` the source width (natural-number division, the floor), and each a
square of exactly `W / 4` by `W / 4` pixels; beyond them it writes at most
the thumbnail. -/
theorem SlicePano_face_size (o : Float64Ops F) (env : Env) (inputPath outputDir : String)
    (fs : FS) (src : Image) (paths : List String)
    (hopen : imagingOpen env fs inputPath = .ok src)
    (hok : (SlicePano o env inputPath outputDir fs).1 = .ok paths) :
    ∃ thumb : List (String × Image), thumb.length ≤ 1 ∧
      (SlicePano o env inputPath outputDir fs).2.files =
        thumb ++ (faceWrites o env src outputDir).reverse ++ fs.files ∧
      (faceWrites o env src outputDir).length = 6 ∧
      ∀ w ∈ faceWrites o env src outputDir,
        (∃ i : Nat, i < 6 ∧ w.2 = ExtractFace o src (i : Int) (src.width / 4)) ∧
        w.2.width = src.width / 4 ∧ w.2.height = src.width / 4 := by
  obtain ⟨thumb, hlen, _, heq⟩ := SlicePano_ok o env inputPath outputDir fs src hopen
    (SlicePano_ok_saves o env inputPath outputDir fs src paths hopen hok)
  refine ⟨thumb, hlen, by rw [heq], by simp [faceWrites, faces], ?_⟩
  intro w hw
  simp only [faceWrites, List.mem_map] at hw
  obtain ⟨f, hf, rfl⟩ := hw
  refine ⟨⟨f.1, ?_, rfl⟩, (ExtractFace_size o src _ _).1, (ExtractFace_size o src _ _).2⟩
  simp [faces, List.enum, List.enumFrom] at hf
  rcases hf with h | h | h | h | h | h <;> subst h <;> simp

/-- C6. For every successful `SlicePano(inputPath, outputDir)` the returned list
has exactly six paths, the `i`-th being `outputDir` joined with the `i`-th name of
`posx, negx, posy, negy, posz, negz` plus `.jpg`, and the files written are, in
order, `ExtractFace src i (W / 4)` at the `i`-th path for `i = 0..5` (followed by
at most the thumbnail). -/
theorem SlicePano_paths (o : Float64Ops F) (env : Env) (inputPath outputDir : String)
    (fs : FS) (src : Image) (paths : List String)
    (hopen : imagingOpen env fs inputPath = .ok src)
    (hok : (SlicePano o env inputPath outputDir fs).1 = .ok paths) :
    faces = ["posx", "negx", "posy", "negy", "posz", "negz"] ∧
    paths.length = 6 ∧
    (∀ (i : Nat) (name : String), faces[i]? = some name →
      paths[i]? = some (env.join outputDir (name ++ ".jpg"))) ∧
    ∃ thumb : List (String × Image), thumb.length ≤ 1 ∧
      (SlicePano o env inputPath outputDir fs).2.files =
        thumb ++ (List.zip paths (List.map
          (fun i : Nat => ExtractFace o src (i : Int) (src.width / 4)) (List.range 6))).reverse
          ++ fs.files := by
  obtain ⟨thumb, hlen, _, heq⟩ := SlicePano_ok o env inputPath outputDir fs src hopen
    (SlicePano_ok_saves o env inputPath outputDir fs src paths hopen hok)
  rw [heq] at hok
  have hp : paths = faces.map (fun n => env.join outputDir (n ++ ".jpg")) := by
    simp only [Except.ok.injEq] at hok
    exact hok.symm
  refine ⟨rfl, by rw [hp]; simp [faces], ?_, thumb, hlen, ?_⟩
  · intro i name hi
    rw [hp, List.getElem?_map, hi]
    rfl
  · rw [heq, hp]
    simp [faceWrites, faces, List.enum, List.enumFrom, List.range, List.range.loop]

/-- C7. `SlicePano` returns an error if and only if opening the source fails or
saving one of the six faces fails; in every other case, whatever happens when
`posz.jpg` is re-opened and the thumbnail saved, it returns the six paths. -/
theorem SlicePano_error_iff (o : Float64Ops F) (env : Env) (inputPath outputDir : String)
    (fs : FS) :
    ((∃ e, (SlicePano o env inputPath outputDir fs).1 = .error e) ↔
      ((∃ e, imagingOpen env fs inputPath = .error e) ∨
        ∃ n ∈ faces, env.saveFails (env.join outputDir (n ++ ".jpg")) = true)) ∧
    ((¬ ∃ e, (SlicePano o env inputPath outputDir fs).1 = .error e) →
      (SlicePano o env inputPath outputDir fs).1 =
        .ok (faces.map (fun n => env.join outputDir (n ++ ".jpg")))) := by
  cases hopen : imagingOpen env fs inputPath with
  | error e =>
    have h := SlicePano_open_error o env inputPath outputDir fs e hopen
    refine ⟨⟨fun _ => Or.inl ⟨e, rfl⟩, fun _ => ⟨e, by rw [h]⟩⟩, ?_⟩
    intro hne
    exact absurd ⟨e, by rw [h]⟩ hne
  | ok src =>
    by_cases hsave : ∃ n ∈ faces, env.saveFails (env.join outputDir (n ++ ".jpg")) = true
    · have h := SlicePano_save_error o env inputPath outputDir fs src hopen hsave
      exact ⟨⟨fun _ => Or.inr hsave, fun _ => h⟩, fun hne => absurd h hne⟩
    · have hall : ∀ n ∈ faces, env.saveFails (env.join outputDir (n ++ ".jpg")) = false := by
        intro n hn
        by_contra hc
        exact hsave ⟨n, hn, by simpa using hc⟩
      obtain ⟨thumb, _, _, heq⟩ := SlicePano_ok o env inputPath outputDir fs src hopen hall
      refine ⟨⟨?_, ?_⟩, fun _ => by rw [heq]⟩
      · rintro ⟨e, he⟩
        rw [heq] at he
        cases he
      · rintro (⟨e, he⟩ | h)
        · cases he
        · exact absurd h hsave

/-- C5 on the demo disk: the six faces of an `8 × 4` source are `2 × 2`. -/
theorem SlicePano_face_size_witness :
    (imagingOpen quietEnv demoDisk demoSource = .ok (gradient 8 4) ∧
      (SlicePano demoOps quietEnv demoSource demoCube demoDisk).1 =
        .ok ["uploads/p1/s1/cubemap/posx.jpg", "uploads/p1/s1/cubemap/negx.jpg",
          "uploads/p1/s1/cubemap/posy.jpg", "uploads/p1/s1/cubemap/negy.jpg",
          "uploads/p1/s1/cubemap/posz.jpg", "uploads/p1/s1/cubemap/negz.jpg"]) ∧
    ∃ thumb : List (String × Image), thumb.length ≤ 1 ∧
      (SlicePano demoOps quietEnv demoSource demoCube demoDisk).2.files =
        thumb ++ (faceWrites demoOps quietEnv (gradient 8 4) demoCube).reverse
          ++ demoDisk.files ∧
      (faceWrites demoOps quietEnv (gradient 8 4) demoCube).length = 6 ∧
      ∀ w ∈ faceWrites demoOps quietEnv (gradient 8 4) demoCube,
        (∃ i : Nat, i < 6 ∧ w.2 = ExtractFace demoOps (gradient 8 4) (i : Int)
          ((gradient 8 4).width / 4)) ∧
        w.2.width = (gradient 8 4).width / 4 ∧ w.2.height = (gradient 8 4).width / 4 :=
  ⟨⟨rfl, rfl⟩,
   SlicePano_face_size demoOps quietEnv demoSource demoCube demoDisk (gradient 8 4) _ rfl rfl⟩

/-- C6 on the demo disk: the third path returned is that of `posy`. -/
theorem SlicePano_paths_witness :
    (imagingOpen quietEnv demoDisk demoSource = .ok (gradient 8 4) ∧
      (SlicePano demoOps quietEnv demoSource demoCube demoDisk).1 =
        .ok ["uploads/p1/s1/cubemap/posx.jpg", "uploads/p1/s1/cubemap/negx.jpg",
          "uploads/p1/s1/cubemap/posy.jpg", "uploads/p1/s1/cubemap/negy.jpg",
          "uploads/p1/s1/cubemap/posz.jpg", "uploads/p1/s1/cubemap/negz.jpg"]) ∧
    (["uploads/p1/s1/cubemap/posx.jpg", "uploads/p1/s1/cubemap/negx.jpg",
        "uploads/p1/s1/cubemap/posy.jpg", "uploads/p1/s1/cubemap/negy.jpg",
        "uploads/p1/s1/cubemap/posz.jpg", "uploads/p1/s1/cubemap/negz.jpg"] : List String)[2]?
      = some (quietEnv.join demoCube ("posy" ++ ".jpg")) :=
  ⟨⟨rfl, rfl⟩,
   (SlicePano_paths demoOps quietEnv demoSource demoCube demoDisk (gradient 8 4) _ rfl
     rfl).2.2.1 2 "posy" rfl⟩

/-- C7 in a world where `posz.jpg` cannot be re-opened and the thumbnail cannot be
saved: no error, the six paths are returned. -/
theorem SlicePano_error_iff_witness :
    noThumbEnv.openFails (noThumbEnv.join demoCube "posz.jpg") = true ∧
    noThumbEnv.saveFails (noThumbEnv.join (noThumbEnv.dir demoCube) "thumbnail.jpg") = true ∧
    (SlicePano demoOps noThumbEnv demoSource demoCube demoDisk).1 =
      .ok (faces.map (fun n => noThumbEnv.join demoCube (n ++ ".jpg"))) :=
  ⟨by decide, by decide,
   (SlicePano_error_iff demoOps noThumbEnv demoSource demoCube demoDisk).2
     (fun h => by
       obtain ⟨e, he⟩ := h
       have hok : (SlicePano demoOps noThumbEnv demoSource demoCube demoDisk).1 =
           .ok (faces.map (fun n => noThumbEnv.join demoCube (n ++ ".jpg"))) := rfl
       rw [hok] at he
       cases he)⟩

end SlicerFacts

end Pipeline

namespace Handlers

open Pipeline

/-! ### Lists -/

theorem mem_set_cases {α : Type} (l : List α) (n : Nat) (a b : α) (h : a ∈ l.set n b) :
    a ∈ l ∨ a = b := List.mem_or_eq_of_mem_set h

theorem self_mem_set {α : Type} : ∀ (l : List α) (n : Nat) (x b : α),
    l[n]? = some x → b ∈ l.set n b := by
  intro l
  induction l with
  | nil => intro n x b h; simp at h
  | cons y ys ih =>
    intro n x b h
    cases n with
    | zero => simp
    | succ k =>
      simp only [List.set_cons_succ, List.mem_cons]
      right
      exact ih k x b (by simpa using h)

theorem mem_set_of_mem {α : Type} : ∀ (l : List α) (n : Nat) (x a b : α),
    l[n]? = some x → a ∈ l → a = x ∨ a ∈ l.set n b := by
  intro l
  induction l with
  | nil => intro n x a b h; simp at h
  | cons y ys ih =>
    intro n x a b h ha
    cases n with
    | zero =>
      simp only [List.getElem?_cons_zero, Option.some.injEq] at h
      rcases List.mem_cons.mp ha with h1 | h1
      · left; rw [h1, h]
      · right; simp [h1]
    | succ k =>
      rcases List.mem_cons.mp ha with h1 | h1
      · right; simp [h1]
      · rcases ih k x a b (by simpa using h) h1 with h2 | h2
        · left; exact h2
        · right; simp [h2]

theorem mem_of_getElem? {α : Type} (l : List α) (n : Nat) (x : α) (h : l[n]? = some x) :
    x ∈ l := by
  rw [List.getElem?_eq_some] at h
  obtain ⟨hn, rfl⟩ := h
  exact List.getElem_mem _

/-! ### Scene rows against tasks -/

theorem rows_set_same : ∀ (scs : List Scene) (tks : List Task) (t : Nat) (tk tk1 : Task),
    List.Forall₂ SceneOf scs tks → tks[t]? = some tk →
    tk1.sid = tk.sid → tk1.pid = tk.pid → tk1.dbStatus = tk.dbStatus →
    List.Forall₂ SceneOf scs (tks.set t tk1) := by
  intro scs tks t tk tk1 h
  induction h generalizing t with
  | nil => intro ht; simp at ht
  | cons hR _ ih =>
    intro ht h1 h2 h3
    cases t with
    | zero =>
      simp only [List.getElem?_cons_zero, Option.some.injEq] at ht
      subst ht
      simp only [List.set_cons_zero]
      refine List.Forall₂.cons ?_ ‹_›
      exact ⟨hR.1.trans h1.symm, hR.2.1.trans h2.symm, hR.2.2.trans h3.symm⟩
    | succ k =>
      simp only [List.set_cons_succ]
      exact List.Forall₂.cons hR (ih k (by simpa using ht) h1 h2 h3)

theorem rows_untouched : ∀ (scs : List Scene) (tks : List Task) (sid st : String),
    List.Forall₂ SceneOf scs tks → sid ∉ tks.map (fun t => t.sid) →
    scs.map (fun sc => if sc.id = sid then { sc with status := st } else sc) = scs := by
  intro scs tks sid st h
  induction h with
  | nil => intro _; rfl
  | cons hR _ ih =>
    intro hn
    simp only [List.map_cons, List.mem_cons, not_or] at hn
    simp only [List.map_cons]
    rw [ih hn.2, if_neg]
    rw [hR.1]
    exact fun h => hn.1 h.symm

theorem rows_write : ∀ (scs : List Scene) (tks : List Task) (t : Nat) (tk tk1 : Task)
    (st : String),
    List.Forall₂ SceneOf scs tks → (tks.map (fun t => t.sid)).Nodup → tks[t]? = some tk →
    tk1.sid = tk.sid → tk1.pid = tk.pid → tk1.dbStatus = st →
    List.Forall₂ SceneOf
      (scs.map (fun sc => if sc.id = tk.sid then { sc with status := st } else sc))
      (tks.set t tk1) := by
  intro scs tks t tk tk1 st h
  induction h generalizing t with
  | nil => intro _ ht; simp at ht
  | @cons sc tk0 scs0 tks0 hR hrest ih =>
    intro hnd ht h1 h2 h3
    simp only [List.map_cons, List.nodup_cons] at hnd
    cases t with
    | zero =>
      simp only [List.getElem?_cons_zero, Option.some.injEq] at ht
      subst ht
      simp only [List.set_cons_zero, List.map_cons]
      rw [rows_untouched scs0 tks0 tk0.sid st hrest hnd.1, if_pos hR.1]
      exact List.Forall₂.cons ⟨hR.1.trans h1.symm, hR.2.1.trans h2.symm, h3.symm⟩ hrest
    | succ k =>
      have hk : tks0[k]? = some tk := by simpa using ht
      have hmem : tk.sid ∈ tks0.map (fun t => t.sid) :=
        List.mem_map.mpr ⟨tk, by
          rw [List.getElem?_eq_some] at hk
          obtain ⟨hn, rfl⟩ := hk
          exact List.getElem_mem _, rfl⟩
      have hne : sc.id ≠ tk.sid := by
        rw [hR.1]
        intro heq
        exact hnd.1 (heq ▸ hmem)
      simp only [List.set_cons_succ, List.map_cons]
      rw [if_neg hne]
      exact List.Forall₂.cons hR (ih k hnd.2 hk h1 h2 h3)

theorem rows_append (scs : List Scene) (tks : List Task) (sc : Scene) (tk : Task)
    (h : List.Forall₂ SceneOf scs tks) (hR : SceneOf sc tk) :
    List.Forall₂ SceneOf (scs ++ [sc]) (tks ++ [tk]) :=
  List.rel_append h (List.Forall₂.cons hR List.Forall₂.nil)

/-- The count of line 196 is zero once every task of the aggregate has written
a terminal status. -/
theorem count_zero (pid : String) : ∀ (scs : List Scene) (tks : List Task),
    List.Forall₂ SceneOf scs tks →
    (∀ t ∈ tks, t.pid = pid → t.pc.written = true ∧ t.status ≠ "processing") →
    (scs.filter (fun sc => decide (sc.projectID = pid ∧ sc.status = "processing"))).length = 0 := by
  intro scs tks h
  induction h with
  | nil => intro _; rfl
  | @cons sc tk0 scs0 tks0 hR _ ih =>
    intro hall
    have hrest := ih (fun t ht => hall t (List.mem_cons_of_mem _ ht))
    have hhead : ¬ (sc.projectID = pid ∧ sc.status = "processing") := by
      rintro ⟨hp, hs⟩
      have := hall tk0 (List.mem_cons_self _ _) (hR.2.1 ▸ hp)
      rw [hR.2.2] at hs
      unfold Task.dbStatus at hs
      rw [if_pos this.1] at hs
      exact this.2 hs
    rw [List.filter_cons_of_neg (by simpa using hhead)]
    exact hrest

/-- The scene row of a task holds the status the task's position implies. -/
theorem sceneStatus_of_rows : ∀ (scs : List Scene) (tks : List Task) (t : Task),
    List.Forall₂ SceneOf scs tks → (tks.map (fun t => t.sid)).Nodup → t ∈ tks →
    (scs.find? (fun sc => decide (sc.id = t.sid))).map (fun sc => sc.status)
      = some t.dbStatus := by
  intro scs tks t h
  induction h with
  | nil => intro _ ht; simp at ht
  | @cons sc tk0 scs0 tks0 hR hrest ih =>
    intro hnd ht
    simp only [List.map_cons, List.nodup_cons] at hnd
    rcases List.mem_cons.mp ht with heq | hmem
    · subst heq
      rw [List.find?_cons_of_pos _ (by simpa using hR.1)]
      simp [hR.2.2]
    · have hne : sc.id ≠ t.sid := by
        rw [hR.1]
        intro heq
        exact hnd.1 (heq ▸ List.mem_map.mpr ⟨t, hmem, rfl⟩)
      rw [List.find?_cons_of_neg _ (by simpa using hne)]
      exact ih hnd.2 hmem

theorem map_sid_set : ∀ (tks : List Task) (t : Nat) (tk tk1 : Task),
    tks[t]? = some tk → tk1.sid = tk.sid →
    (tks.set t tk1).map (fun t => t.sid) = tks.map (fun t => t.sid) := by
  intro tks
  induction tks with
  | nil => intro t tk tk1 h; simp at h
  | cons x xs ih =>
    intro t tk tk1 h h1
    cases t with
    | zero =>
      simp only [List.getElem?_cons_zero, Option.some.injEq] at h
      subst h
      simp [h1]
    | succ k =>
      simp only [List.set_cons_succ, List.map_cons]
      rw [ih k tk tk1 (by simpa using h) h1]

section MachineFacts

variable {F : Type}

/-! ### The invariant is kept -/

theorem init_inv (fs : FS) : Inv (initState fs) where
  rows := List.Forall₂.nil
  fresh := List.nodup_nil
  status := by intro t ht; simp [initState] at ht
  projects := by intro p hp; simp [initState] at hp
  owner := by intro t ht; simp [initState] at ht
  pending := by
    intro pid h
    obtain ⟨t, ht, _⟩ := h
    simp [initState] at ht

theorem Ready_updateProjectStatus (db : DB) (pid q : String) (h : db.Ready q) :
    (db.updateProjectStatus pid "ready").Ready q := by
  intro p hp hq
  simp only [DB.updateProjectStatus, List.mem_map] at hp
  obtain ⟨p0, hp0, rfl⟩ := hp
  by_cases hid : p0.id = pid
  · simp [hid]
  · simp only [hid, if_false] at hq ⊢
    exact h p0 hp0 hq

theorem Ready_updateProjectStatus_self (db : DB) (pid : String) :
    (db.updateProjectStatus pid "ready").Ready pid := by
  intro p hp hq
  simp only [DB.updateProjectStatus, List.mem_map] at hp
  obtain ⟨p0, hp0, rfl⟩ := hp
  by_cases hid : p0.id = pid
  · simp [hid]
  · simp only [hid, if_false] at hq

/-- A task step that moves task `t` without touching the tables, to a position
that is not yet past the item status write. -/
theorem inv_move_unwritten (s : State) (t : Nat) (tk tk1 : Task) (w : World)
    (hinv : Inv s) (ht : s.tasks[t]? = some tk)
    (hsid : tk1.sid = tk.sid) (hpid : tk1.pid = tk.pid)
    (hw0 : tk.pc.written = false) (hw1 : tk1.pc.written = false)
    (hst : tk1.pc ≠ .waiting → tk1.pc ≠ .running → tk1.status = "ready" ∨ tk1.status = "error") :
    Inv { s with world := w, tasks := s.tasks.set t tk1 } where
  rows := rows_set_same _ _ t tk tk1 hinv.rows ht hsid hpid
    (by simp [Task.dbStatus, hw0, hw1])
  fresh := by
    show ((s.tasks.set t tk1).map (fun t => t.sid)).Nodup
    rw [map_sid_set _ t tk tk1 ht hsid]; exact hinv.fresh
  status := by
    intro x hx
    rcases mem_set_cases _ _ _ _ hx with h | h
    · exact hinv.status x h
    · subst h; exact hst
  projects := hinv.projects
  owner := by
    intro x hx
    rcases mem_set_cases _ _ _ _ hx with h | h
    · exact hinv.owner x h
    · subst h; rw [hpid]; exact hinv.owner tk (mem_of_getElem? _ _ _ ht)
  pending := by
    intro pid hex hall
    have hmem1 : tk1 ∈ s.tasks.set t tk1 := self_mem_set _ _ _ _ ht
    have hne : tk.pid ≠ pid := by
      intro heq
      have := hall tk1 hmem1 (hpid.trans heq)
      rw [hw1] at this
      exact Bool.false_ne_true this
    have hex0 : ∃ x ∈ s.tasks, x.pid = pid := by
      obtain ⟨x, hx, hxp⟩ := hex
      rcases mem_set_cases _ _ _ _ hx with h | h
      · exact ⟨x, h, hxp⟩
      · subst h; exact absurd (hpid.symm.trans hxp) hne
    have hall0 : ∀ x ∈ s.tasks, x.pid = pid → x.pc.written = true := by
      intro x hx hxp
      rcases mem_set_of_mem _ t tk x tk1 ht hx with h | h
      · subst h; exact absurd hxp hne
      · exact hall x h hxp
    rcases hinv.pending pid hex0 hall0 with h | ⟨x, hx, hxp, hxc⟩
    · exact Or.inl h
    · right
      rcases mem_set_of_mem _ t tk x tk1 ht hx with h | h
      · subst h; exact absurd hxp hne
      · exact ⟨x, h, hxp, hxc⟩


/-- The item status write (line 192). -/
theorem inv_write (s : State) (t : Nat) (tk : Task) (hinv : Inv s)
    (ht : s.tasks[t]? = some tk) (hpc : tk.pc = .sliced) :
    Inv { s with db := taskWrite tk.sid tk.status s.db,
                 tasks := s.tasks.set t { tk with pc := .wrote } } where
  rows := rows_write _ _ t tk { tk with pc := .wrote } tk.status hinv.rows hinv.fresh ht rfl rfl
    (by simp [Task.dbStatus, PC.written])
  fresh := by
    show ((s.tasks.set t { tk with pc := .wrote }).map (fun t => t.sid)).Nodup
    rw [map_sid_set _ t tk { tk with pc := .wrote } ht rfl]; exact hinv.fresh
  status := by
    intro x hx
    rcases mem_set_cases _ _ _ _ hx with h | h
    · exact hinv.status x h
    · subst h
      intro _ _
      exact hinv.status tk (mem_of_getElem? _ _ _ ht) (by rw [hpc]; simp) (by rw [hpc]; simp)
  projects := hinv.projects
  owner := by
    intro x hx
    rcases mem_set_cases _ _ _ _ hx with h | h
    · exact hinv.owner x h
    · subst h; exact hinv.owner tk (mem_of_getElem? _ _ _ ht)
  pending := by
    intro pid hex hall
    have hmem1 : ({ tk with pc := .wrote } : Task) ∈ s.tasks.set t { tk with pc := .wrote } :=
      self_mem_set _ _ _ _ ht
    by_cases hp : tk.pid = pid
    · exact Or.inr ⟨_, hmem1, hp, Or.inl rfl⟩
    · have hex0 : ∃ x ∈ s.tasks, x.pid = pid := by
        obtain ⟨x, hx, hxp⟩ := hex
        rcases mem_set_cases _ _ _ _ hx with h | h
        · exact ⟨x, h, hxp⟩
        · subst h; exact absurd hxp hp
      have hall0 : ∀ x ∈ s.tasks, x.pid = pid → x.pc.written = true := by
        intro x hx hxp
        rcases mem_set_of_mem _ t tk x { tk with pc := .wrote } ht hx with h | h
        · subst h; exact absurd hxp hp
        · exact hall x h hxp
      rcases hinv.pending pid hex0 hall0 with h | ⟨x, hx, hxp, hxc⟩
      · exact Or.inl h
      · right
        rcases mem_set_of_mem _ t tk x { tk with pc := .wrote } ht hx with h | h
        · subst h; exact absurd hxp hp
        · exact ⟨x, h, hxp, hxc⟩

/-- The count of the items still processing (lines 195-196). -/
theorem inv_count (s : State) (t : Nat) (tk : Task) (hinv : Inv s)
    (ht : s.tasks[t]? = some tk) (hpc : tk.pc = .wrote) :
    Inv { s with tasks := s.tasks.set t { tk with pc := .counted (taskCount tk.pid s.db) } } where
  rows := rows_set_same _ _ t tk _ hinv.rows ht rfl rfl
    (by simp [Task.dbStatus, PC.written, hpc])
  fresh := by
    show ((s.tasks.set t _).map (fun t => t.sid)).Nodup
    rw [map_sid_set _ t tk { tk with pc := .counted (taskCount tk.pid s.db) } ht rfl]
    exact hinv.fresh
  status := by
    intro x hx
    rcases mem_set_cases _ _ _ _ hx with h | h
    · exact hinv.status x h
    · subst h
      intro _ _
      exact hinv.status tk (mem_of_getElem? _ _ _ ht) (by rw [hpc]; simp) (by rw [hpc]; simp)
  projects := hinv.projects
  owner := by
    intro x hx
    rcases mem_set_cases _ _ _ _ hx with h | h
    · exact hinv.owner x h
    · subst h; exact hinv.owner tk (mem_of_getElem? _ _ _ ht)
  pending := by
    intro pid hex hall
    have hmem1 := self_mem_set s.tasks t tk
      { tk with pc := .counted (taskCount tk.pid s.db) } ht
    have hall0 : ∀ x ∈ s.tasks, x.pid = pid → x.pc.written = true := by
      intro x hx hxp
      rcases mem_set_of_mem _ t tk x
        { tk with pc := .counted (taskCount tk.pid s.db) } ht hx with h | h
      · subst h; rw [hpc]; rfl
      · exact hall x h hxp
    by_cases hp : tk.pid = pid
    · right
      refine ⟨_, hmem1, hp, Or.inr ?_⟩
      have hz : taskCount tk.pid s.db = 0 := by
        unfold taskCount DB.countProcessing
        apply count_zero tk.pid _ _ hinv.rows
        intro x hx hxp
        have hw := hall0 x hx (hxp.trans hp)
        refine ⟨hw, ?_⟩
        have hs := hinv.status x hx (by intro h; rw [h] at hw; cases hw)
          (by intro h; rw [h] at hw; cases hw)
        rcases hs with h | h <;> rw [h] <;> decide
      show PC.counted (taskCount tk.pid s.db) = PC.counted 0
      rw [hz]
    · have hex0 : ∃ x ∈ s.tasks, x.pid = pid := by
        obtain ⟨x, hx, hxp⟩ := hex
        rcases mem_set_cases _ _ _ _ hx with h | h
        · exact ⟨x, h, hxp⟩
        · subst h; exact absurd hxp hp
      rcases hinv.pending pid hex0 hall0 with h | ⟨x, hx, hxp, hxc⟩
      · exact Or.inl h
      · right
        rcases mem_set_of_mem _ t tk x
          { tk with pc := .counted (taskCount tk.pid s.db) } ht hx with h | h
        · subst h; exact absurd hxp hp
        · exact ⟨x, h, hxp, hxc⟩

/-- The aggregate status write and the return (lines 197-200). -/
theorem inv_finish (s : State) (t : Nat) (tk : Task) (n : Nat) (hinv : Inv s)
    (ht : s.tasks[t]? = some tk) (hpc : tk.pc = .counted n) :
    Inv { s with db := taskFinish tk.pid n s.db,
                 tasks := s.tasks.set t { tk with pc := .done } } where
  rows := by
    have h := rows_set_same _ _ t tk { tk with pc := .done } hinv.rows ht rfl rfl
      (by simp [Task.dbStatus, PC.written, hpc])
    have hsc : (taskFinish tk.pid n s.db).scenes = s.db.scenes := by
      unfold taskFinish; split <;> rfl
    show List.Forall₂ SceneOf (taskFinish tk.pid n s.db).scenes _
    rw [hsc]; exact h
  fresh := by
    show ((s.tasks.set t _).map (fun t => t.sid)).Nodup
    rw [map_sid_set _ t tk { tk with pc := .done } ht rfl]; exact hinv.fresh
  status := by
    intro x hx
    rcases mem_set_cases _ _ _ _ hx with h | h
    · exact hinv.status x h
    · subst h
      intro _ _
      exact hinv.status tk (mem_of_getElem? _ _ _ ht) (by rw [hpc]; simp) (by rw [hpc]; simp)
  projects := by
    intro p hp
    change p ∈ (taskFinish tk.pid n s.db).projects at hp
    unfold taskFinish at hp
    split at hp
    · simp only [DB.updateProjectStatus, List.mem_map] at hp
      obtain ⟨p0, hp0, rfl⟩ := hp
      by_cases hid : p0.id = tk.pid
      · simp [hid]
      · simp only [hid, if_false]; exact hinv.projects p0 hp0
    · exact hinv.projects p hp
  owner := by
    intro x hx
    rcases mem_set_cases _ _ _ _ hx with h | h
    · exact hinv.owner x h
    · subst h; exact hinv.owner tk (mem_of_getElem? _ _ _ ht)
  pending := by
    intro pid hex hall
    have hready : ∀ q, s.db.Ready q → (taskFinish tk.pid n s.db).Ready q := by
      intro q hq
      unfold taskFinish
      split
      · exact Ready_updateProjectStatus _ _ _ hq
      · exact hq
    have hall0 : ∀ x ∈ s.tasks, x.pid = pid → x.pc.written = true := by
      intro x hx hxp
      rcases mem_set_of_mem _ t tk x { tk with pc := .done } ht hx with h | h
      · subst h; rw [hpc]; rfl
      · exact hall x h hxp
    have hex0 : ∃ x ∈ s.tasks, x.pid = pid := by
      obtain ⟨x, hx, hxp⟩ := hex
      rcases mem_set_cases _ _ _ _ hx with h | h
      · exact ⟨x, h, hxp⟩
      · subst h; exact ⟨tk, mem_of_getElem? _ _ _ ht, hxp⟩
    rcases hinv.pending pid hex0 hall0 with h | ⟨x, hx, hxp, hxc⟩
    · exact Or.inl (hready pid h)
    · rcases mem_set_of_mem _ t tk x { tk with pc := .done } ht hx with h | h
      · subst h
        left
        have hn : n = 0 := by
          rw [hpc] at hxc
          rcases hxc with h | h
          · cases h
          · injection h
        subst hn
        rw [← hxp]
        show (taskFinish x.pid 0 s.db).Ready x.pid
        unfold taskFinish
        rw [if_pos rfl]
        exact Ready_updateProjectStatus_self _ _
      · exact Or.inr ⟨x, h, hxp, hxc⟩

/-- Replacing a handler by one for the same project keeps the invariant. -/
theorem inv_set_handler (s : State) (h : Nat) (hd hd1 : Handler) (hinv : Inv s)
    (hh : s.handlers[h]? = some hd) (hid : hd1.project.id = hd.project.id) :
    Inv { s with handlers := s.handlers.set h hd1 } where
  rows := hinv.rows
  fresh := hinv.fresh
  status := hinv.status
  projects := hinv.projects
  owner := by
    intro x hx
    obtain ⟨hd0, hhd0, hq⟩ := hinv.owner x hx
    rcases mem_set_of_mem _ h hd hd0 hd1 hh hhd0 with h1 | h1
    · subst h1
      exact ⟨hd1, self_mem_set _ h hd0 hd1 hh, hid.trans hq⟩
    · exact ⟨hd0, h1, hq⟩
  pending := hinv.pending

/-- A row of the table after `Create` was there before or is the row created. -/
theorem mem_createProject (db : DB) (p q : Project)
    (h : q ∈ (db.createProject p).projects) : q ∈ db.projects ∨ q = p := by
  unfold DB.createProject at h
  split at h
  · exact Or.inl h
  · simp only [DB.insertProject, List.mem_append, List.mem_singleton] at h
    exact h

/-- `Create` removes no row. -/
theorem mem_createProject_of_mem (db : DB) (p q : Project) (h : q ∈ db.projects) :
    q ∈ (db.createProject p).projects := by
  unfold DB.createProject
  split
  · exact h
  · simp [DB.insertProject, h]

/-- `Create` leaves the scene rows alone. -/
theorem createProject_scenes (db : DB) (p : Project) :
    (db.createProject p).scenes = db.scenes := by
  unfold DB.createProject
  split <;> rfl

/-- Lines 112-133. -/
theorem inv_submit (s : State) (project : Project) (files : List FileUpload) (hinv : Inv s)
    (hst : project.status = "processing")
    (hfresh : project.id ∉ s.handlers.map (fun hd => hd.project.id)) :
    Inv { s with db := s.db.createProject project,
                 handlers := s.handlers ++
                   [{ project := project, files := files, next := 0, returned := none }] } where
  rows := by
    show List.Forall₂ SceneOf (s.db.createProject project).scenes s.tasks
    rw [createProject_scenes]; exact hinv.rows
  fresh := hinv.fresh
  status := hinv.status
  projects := by
    intro p hp
    rcases mem_createProject _ _ _ hp with h | h
    · exact hinv.projects p h
    · subst h; exact Or.inl hst
  owner := by
    intro t ht
    obtain ⟨hd, hhd, hq⟩ := hinv.owner t ht
    exact ⟨hd, by simp [hhd], hq⟩
  pending := by
    intro pid hex hall
    rcases hinv.pending pid hex hall with h | h
    · left
      intro p hp hq
      rcases mem_createProject _ _ _ hp with h1 | h1
      · exact h p h1 hq
      · subst h1
        exfalso
        obtain ⟨x, hx, hxp⟩ := hex
        obtain ⟨hd, hhd, hq2⟩ := hinv.owner x hx
        apply hfresh
        rw [hq, ← hxp, ← hq2]
        exact List.mem_map.mpr ⟨hd, hhd, rfl⟩
    · exact Or.inr h

theorem Ready_updateProjectPanoPath (db : DB) (pid path q : String) (h : db.Ready q) :
    (db.updateProjectPanoPath pid path).Ready q := by
  intro p hp hq
  simp only [DB.updateProjectPanoPath, List.mem_map] at hp
  obtain ⟨p0, hp0, rfl⟩ := hp
  by_cases hid : p0.id = pid
  · simp only [hid, if_true] at hq ⊢
    exact h p0 hp0 (hid.trans hq)
  · simp only [hid, if_false] at hq ⊢
    exact h p0 hp0 hq

/-- One iteration of the handler loop (lines 137-200). -/
theorem inv_createItem (env : Env) (project : Project) (i : Nat) (file : FileUpload)
    (sid : String) (s : State) (hinv : Inv s)
    (hproj : ∃ hd ∈ s.handlers, hd.project.id = project.id)
    (hfresh : sid ∉ s.tasks.map (fun t => t.sid)) :
    Inv (createItem env project i file sid s).2 ∧
    (createItem env project i file sid s).1.id = project.id ∧
    (createItem env project i file sid s).2.handlers = s.handlers := by
  unfold createItem
  by_cases hsave : env.saveFileFails (env.join ("./" ++ ("uploads/" ++ project.id ++ "/" ++ sid))
      "original.jpg") = true
  · simp only [hsave, if_true]
    exact ⟨⟨hinv.rows, hinv.fresh, hinv.status, hinv.projects, hinv.owner,
      hinv.pending⟩, trivial, trivial⟩
  · simp only [hsave, Bool.false_eq_true, if_false]
    have hscenes : ∀ db : DB, (if i = 0 then
        db.updateProjectPanoPath project.id ("uploads/" ++ project.id ++ "/" ++ sid)
        else db).scenes = db.scenes := by
      intro db; split <;> rfl
    have hprojs : ∀ (db : DB) (q : Project), q ∈ (if i = 0 then
        db.updateProjectPanoPath project.id ("uploads/" ++ project.id ++ "/" ++ sid)
        else db).projects → ∃ p ∈ db.projects, p.id = q.id ∧ p.status = q.status := by
      intro db q hq
      split at hq
      · simp only [DB.updateProjectPanoPath, List.mem_map] at hq
        obtain ⟨p0, hp0, rfl⟩ := hq
        refine ⟨p0, hp0, ?_⟩
        split <;> simp
      · exact ⟨q, hq, rfl, rfl⟩
    have hprojs2 : ∀ (db : DB) (p : Project), p ∈ db.projects → ∃ q ∈ (if i = 0 then
        db.updateProjectPanoPath project.id ("uploads/" ++ project.id ++ "/" ++ sid)
        else db).projects, q.id = p.id := by
      intro db p hp
      split
      · refine ⟨if p.id = project.id then
          { p with panoPath := "uploads/" ++ project.id ++ "/" ++ sid } else p, ?_, ?_⟩
        · simp only [DB.updateProjectPanoPath, List.mem_map]
          exact ⟨p, hp, rfl⟩
        · split <;> rfl
      · exact ⟨p, hp, rfl⟩
    refine ⟨?_, by split <;> rfl, trivial⟩
    refine ⟨?_, ?_, ?_, ?_, ?_, ?_⟩
    · show List.Forall₂ SceneOf (if i = 0 then _ else _ : DB).scenes _
      rw [hscenes]
      exact rows_append _ _ _ _ hinv.rows ⟨rfl, rfl, rfl⟩
    · show ((s.tasks ++ [_]).map (fun t : Task => t.sid)).Nodup
      rw [List.map_append, List.nodup_append]
      refine ⟨hinv.fresh, by simp, ?_⟩
      intro a ha hb
      simp only [List.map_cons, List.map_nil, List.mem_singleton] at hb
      subst hb
      exact hfresh ha
    · intro x hx
      change x ∈ s.tasks ++ [_] at hx
      simp only [List.mem_append, List.mem_singleton] at hx
      rcases hx with h | h
      · exact hinv.status x h
      · subst h; intro h1; exact absurd rfl h1
    · intro q hq
      obtain ⟨p, hp, _, hps⟩ := hprojs _ q hq
      simp only [DB.createScene] at hp
      rw [← hps]
      exact hinv.projects p hp
    · intro x hx
      change x ∈ s.tasks ++ [_] at hx
      simp only [List.mem_append, List.mem_singleton] at hx
      rcases hx with h | h
      · exact hinv.owner x h
      · subst h
        exact hproj
    · intro pid hex hall
      change ∀ x ∈ s.tasks ++ [_], _ at hall
      have hne : project.id ≠ pid := by
        intro heq
        have := hall (⟨sid, project.id,
          env.join ("./" ++ ("uploads/" ++ project.id ++ "/" ++ sid)) "original.jpg",
          PC.waiting, ""⟩ : Task) (by simp) heq
        cases this
      have hex0 : ∃ x ∈ s.tasks, x.pid = pid := by
        obtain ⟨x, hx, hxp⟩ := hex
        change x ∈ s.tasks ++ [_] at hx
        simp only [List.mem_append, List.mem_singleton] at hx
        rcases hx with h | h
        · exact ⟨x, h, hxp⟩
        · subst h; exact absurd hxp hne
      have hall0 : ∀ x ∈ s.tasks, x.pid = pid → x.pc.written = true :=
        fun x hx hxp => hall x (by simp [hx]) hxp
      rcases hinv.pending pid hex0 hall0 with h | ⟨x, hx, hxp, hxc⟩
      · left
        intro q hq hqid
        obtain ⟨p, hp, hpid, hps⟩ := hprojs _ q hq
        simp only [DB.createScene] at hp
        rw [← hps]
        exact h p hp (hpid.trans hqid)
      · right
        refine ⟨x, ?_, hxp, hxc⟩
        show x ∈ s.tasks ++ [_]
        simp [hx]

/-- Every step keeps the invariant. -/
theorem step_inv (o : Float64Ops F) (env : Env) (s s1 : State) (a : Action) (hinv : Inv s)
    (h : step o env s a = some s1) : Inv s1 := by
  cases a with
  | submit pid userID name isPublic magicCode files =>
    simp only [step] at h
    split at h
    · next hg =>
      simp only [Option.some.injEq] at h
      subst h
      exact inv_submit s _ files hinv rfl hg.2.2
    · cases h
  | create hidx sid =>
    simp only [step] at h
    split at h
    · cases h
    · next hd hhd =>
      split at h
      · cases h
      · next file hfile =>
        split at h
        · next hg =>
          simp only [Option.some.injEq] at h
          subst h
          obtain ⟨hi, hid, hhs⟩ := inv_createItem env hd.project hd.next file sid s hinv
            ⟨hd, mem_of_getElem? _ _ _ hhd, rfl⟩ hg.2
          exact inv_set_handler _ hidx hd _ hi (by rw [hhs]; exact hhd) hid
        · cases h
  | respond hidx =>
    simp only [step] at h
    split at h
    · cases h
    · next hd hhd =>
      split at h
      · simp only [Option.some.injEq] at h
        subst h
        exact inv_set_handler s hidx hd _ hinv hhd rfl
      · cases h
  | acquire t =>
    simp only [step] at h
    split at h
    · cases h
    · next tk htk =>
      split at h
      · next hg =>
        simp only [Option.some.injEq] at h
        subst h
        exact inv_move_unwritten s t tk { tk with pc := .running } s.world hinv htk rfl rfl
          (by rw [hg.1]; rfl) rfl (fun _ h2 => absurd rfl h2)
      · cases h
  | slice t =>
    simp only [step] at h
    split at h
    · cases h
    · next tk htk =>
      split at h
      · next hg =>
        simp only [Option.some.injEq] at h
        subst h
        refine inv_move_unwritten s t tk _ _ hinv htk rfl rfl (by rw [hg]; rfl) rfl ?_
        intro _ _
        show taskStatus _ = "ready" ∨ taskStatus _ = "error"
        unfold taskStatus
        split <;> simp
      · cases h
  | write t =>
    simp only [step] at h
    split at h
    · cases h
    · next tk htk =>
      split at h
      · next hg =>
        simp only [Option.some.injEq] at h
        subst h
        exact inv_write s t tk hinv htk hg
      · cases h
  | count t =>
    simp only [step] at h
    split at h
    · cases h
    · next tk htk =>
      split at h
      · next hg =>
        simp only [Option.some.injEq] at h
        subst h
        exact inv_count s t tk hinv htk hg
      · cases h
  | finish t =>
    simp only [step] at h
    split at h
    · cases h
    · next tk htk =>
      split at h
      · next n hg =>
        simp only [Option.some.injEq] at h
        subst h
        exact inv_finish s t tk n hinv htk hg
      · cases h

/-- Every run keeps the invariant. -/
theorem run_inv (o : Float64Ops F) (env : Env) (acts : List Action) :
    ∀ (s s1 : State), Inv s → run o env s acts = some s1 → Inv s1 := by
  induction acts with
  | nil =>
    intro s s1 hinv h
    simp only [run, Option.some.injEq] at h
    subst h; exact hinv
  | cons a rest ih =>
    intro s s1 hinv h
    simp only [run] at h
    split at h
    · cases h
    · next s2 hs2 => exact ih s2 s1 (step_inv o env s s2 a hinv hs2) h

/-- What holds of an aggregate whose project row is in the table: in every state
reached by any interleaving of handler and task steps, for every aggregate `pid`
with a project row, at least one item created and all of whose tasks have completed,
the aggregate status is `ready`, whatever the number of its items that ended in
`error` (each item holds the terminal status its task computed, `ready` or
`error`); and no project status is ever anything but `processing` or `ready`. -/
theorem ready_when_row_exists (o : Float64Ops F) (env : Env) (fs : FS)
    (acts : List Action) (s : State) (hrun : run o env (initState fs) acts = some s)
    (pid : String) (hrow : ∃ p ∈ s.db.projects, p.id = pid)
    (hex : ∃ t ∈ s.tasks, t.pid = pid)
    (hdone : ∀ t ∈ s.tasks, t.pid = pid → t.pc = .done) :
    s.db.projectStatus pid = some "ready" ∧
    (∀ p ∈ s.db.projects, p.status = "processing" ∨ p.status = "ready") ∧
    (∀ t ∈ s.tasks, t.pid = pid →
      s.db.sceneStatus t.sid = some t.status ∧ (t.status = "ready" ∨ t.status = "error")) := by
  have hinv := run_inv o env acts _ s (init_inv fs) hrun
  refine ⟨?_, hinv.projects, ?_⟩
  · have hready : s.db.Ready pid := by
      rcases hinv.pending pid hex (fun t ht hp => by rw [hdone t ht hp]; rfl) with h | h
      · exact h
      · obtain ⟨x, hx, hxp, hxc⟩ := h
        rw [hdone x hx hxp] at hxc
        rcases hxc with h | h <;> cases h
    obtain ⟨p, hp, hpid⟩ := hrow
    unfold DB.projectStatus
    cases hfind : s.db.projects.find? (fun p => decide (p.id = pid)) with
    | none =>
      rw [List.find?_eq_none] at hfind
      have := hfind p hp
      simp [hpid] at this
    | some q =>
      have hq := List.find?_some hfind
      have hqm := List.mem_of_find?_eq_some hfind
      simp only [decide_eq_true_eq] at hq
      simp [hready q hqm hq]
  · intro t ht hp
    have h1 := sceneStatus_of_rows _ _ t hinv.rows hinv.fresh ht
    have hd := hdone t ht hp
    refine ⟨?_, hinv.status t ht (by rw [hd]; simp) (by rw [hd]; simp)⟩
    unfold DB.sceneStatus
    rw [h1]
    simp [Task.dbStatus, hd, PC.written]

/-! ### Claims C8 to C10 -/

theorem getElem?_set_self {α : Type} : ∀ (l : List α) (n : Nat) (x b : α),
    l[n]? = some x → (l.set n b)[n]? = some b := by
  intro l
  induction l with
  | nil => intro n x b h; simp at h
  | cons y ys ih =>
    intro n x b h
    cases n with
    | zero => simp
    | succ k =>
      simp only [List.set_cons_succ, List.getElem?_cons_succ]
      exact ih k x b (by simpa using h)

/-- The result of `SlicePano` is the task's `(facePaths, err)`, whatever the uploads do. -/
theorem taskSlice_result (o : Float64Ops F) (env : Env) (sid pid fpath : String) (w : World) :
    (taskSlice o env sid pid fpath w).1 =
      (SlicePano o env fpath (env.join (env.dir fpath) "cubemap") w.fs).1 := by
  simp only [taskSlice]
  generalize SlicePano o env fpath (env.join (env.dir fpath) "cubemap") w.fs = r
  obtain ⟨r, fs1⟩ := r
  cases r with
  | error e => rfl
  | ok paths =>
    simp only
    split <;> rfl

/-- The status a task computes is `error` exactly when `SlicePano` failed: no
upload result enters it. -/
theorem runTask_status (o : Float64Ops F) (env : Env) (sid pid fpath : String) (db : DB)
    (w : World) :
    (runTask o env sid pid fpath db w).1 =
      taskStatus (SlicePano o env fpath (env.join (env.dir fpath) "cubemap") w.fs).1 := by
  simp only [runTask, taskSlice_result]

theorem sceneStatus_updateSceneStatus (db : DB) (sid st : String)
    (h : db.sceneStatus sid ≠ none) :
    (db.updateSceneStatus sid st).sceneStatus sid = some st := by
  unfold DB.sceneStatus DB.updateSceneStatus at *
  simp only
  generalize db.scenes = scs at h ⊢
  induction scs with
  | nil => simp at h
  | cons sc rest ih =>
    by_cases hid : sc.id = sid
    · simp [List.find?_cons, hid]
    · have h1 : (List.find? (fun sc => decide (sc.id = sid)) rest).map (fun sc => sc.status)
          ≠ none := by
        rw [List.find?_cons_of_neg _ (by simpa using hid)] at h
        exact h
      simp only [List.map_cons, hid, if_false]
      rw [List.find?_cons_of_neg _ (by simpa using hid)]
      exact ih h1

/-- C9. For every task holding a slot whose `SlicePano` returns an error, the
task goes on through all its steps: it records `status = "error"`, writes it
to the item (every scene row with the task's `sid` then holds `error`), counts and
finishes; no step hands anything to a handler: the `UploadPano` calls and their
responses are unchanged. -/
theorem slice_failure_absorbed (o : Float64Ops F) (env : Env) (s : State) (t : Nat)
    (tk : Task) (e : Error) (ht : s.tasks[t]? = some tk) (hpc : tk.pc = .running)
    (hfail : (SlicePano o env tk.fpath (env.join (env.dir tk.fpath) "cubemap") s.world.fs).1
      = .error e) :
    ∃ s1 s2 s3 s4 : State,
      step o env s (.slice t) = some s1 ∧ step o env s1 (.write t) = some s2 ∧
      step o env s2 (.count t) = some s3 ∧ step o env s3 (.finish t) = some s4 ∧
      s1.tasks[t]? = some { tk with pc := .sliced, status := "error" } ∧
      s2.db = s.db.updateSceneStatus tk.sid "error" ∧
      (∀ sc ∈ s2.db.scenes, sc.id = tk.sid → sc.status = "error") ∧
      (s.db.sceneStatus tk.sid ≠ none → s2.db.sceneStatus tk.sid = some "error") ∧
      s4.tasks[t]? = some { tk with pc := .done, status := "error" } ∧
      s1.handlers = s.handlers ∧ s2.handlers = s.handlers ∧ s3.handlers = s.handlers ∧
      s4.handlers = s.handlers := by
  have hst : taskStatus (taskSlice o env tk.sid tk.pid tk.fpath s.world).1 = "error" := by
    rw [taskSlice_result, hfail]; rfl
  let tk1 : Task := { tk with pc := .sliced, status := "error" }
  let tk2 : Task := { tk with pc := .wrote, status := "error" }
  let tk3 : Task := { tk with pc := .counted (taskCount tk.pid (taskWrite tk.sid "error" s.db)),
                              status := "error" }
  let tk4 : Task := { tk with pc := .done, status := "error" }
  let s1 : State := { s with world := (taskSlice o env tk.sid tk.pid tk.fpath s.world).2,
                             tasks := s.tasks.set t tk1 }
  let s2 : State := { s1 with db := taskWrite tk.sid "error" s.db, tasks := s1.tasks.set t tk2 }
  let s3 : State := { s2 with tasks := s2.tasks.set t tk3 }
  let s4 : State := { s3 with
    db := taskFinish tk.pid (taskCount tk.pid (taskWrite tk.sid "error" s.db)) s3.db,
    tasks := s3.tasks.set t tk4 }
  have ht1 : s1.tasks[t]? = some tk1 := getElem?_set_self s.tasks t tk tk1 ht
  have ht2 : s2.tasks[t]? = some tk2 := getElem?_set_self s1.tasks t tk1 tk2 ht1
  have ht3 : s3.tasks[t]? = some tk3 := getElem?_set_self s2.tasks t tk2 tk3 ht2
  have ht4 : s4.tasks[t]? = some tk4 := getElem?_set_self s3.tasks t tk3 tk4 ht3
  have h1 : step o env s (.slice t) = some s1 := by
    simp only [step, ht, hpc, if_true, hst, s1, tk1]
  have h2 : step o env s1 (.write t) = some s2 := by
    simp only [step, ht1, tk1, if_true, s2, tk2]
  have h3 : step o env s2 (.count t) = some s3 := by
    simp only [step, ht2, tk2, if_true, s3, tk3, s2, s1]
  have h4 : step o env s3 (.finish t) = some s4 := by
    simp only [step, ht3, tk3, s4, tk4, s3, s2, s1]
  refine ⟨s1, s2, s3, s4, h1, h2, h3, h4, ht1, rfl, ?_, ?_, ht4, rfl, rfl, rfl, rfl⟩
  · intro sc hsc hid
    change sc ∈ (s.db.updateSceneStatus tk.sid "error").scenes at hsc
    simp only [DB.updateSceneStatus, List.mem_map] at hsc
    obtain ⟨sc0, _, rfl⟩ := hsc
    by_cases h0 : sc0.id = tk.sid
    · simp [h0]
    · simp only [h0, if_false] at hid
  · intro hne
    exact sceneStatus_updateSceneStatus s.db tk.sid "error" hne


/-- C9 on the demo batch, whose first source cannot be decoded. -/
theorem slice_failure_absorbed_witness :
    (demoRunning.tasks[0]? = some ⟨"s1", "p1", "uploads/p1/s1/original.jpg", .running, ""⟩ ∧
      (SlicePano demoOps brokenFirstEnv "uploads/p1/s1/original.jpg"
        (brokenFirstEnv.join (brokenFirstEnv.dir "uploads/p1/s1/original.jpg") "cubemap")
        demoRunning.world.fs).1 = .error (.openFailed "uploads/p1/s1/original.jpg")) ∧
    ∃ s1 s2 : State,
      step demoOps brokenFirstEnv demoRunning (.slice 0) = some s1 ∧
      step demoOps brokenFirstEnv s1 (.write 0) = some s2 ∧
      s2.db.sceneStatus "s1" = some "error" ∧ s2.handlers = demoRunning.handlers := by
  have ht : demoRunning.tasks[0]? =
      some ⟨"s1", "p1", "uploads/p1/s1/original.jpg", .running, ""⟩ := by decide
  have hfail : (SlicePano demoOps brokenFirstEnv "uploads/p1/s1/original.jpg"
        (brokenFirstEnv.join (brokenFirstEnv.dir "uploads/p1/s1/original.jpg") "cubemap")
        demoRunning.world.fs).1 = .error (.openFailed "uploads/p1/s1/original.jpg") := by rfl
  obtain ⟨s1, s2, _, _, h1, h2, _, _, _, _, _, hsc, _, _, hh, _⟩ :=
    slice_failure_absorbed demoOps brokenFirstEnv demoRunning 0 _ _ ht rfl hfail
  exact ⟨⟨ht, hfail⟩, s1, s2, h1, h2, hsc (by decide), hh⟩

/-- C8 evaluated: slicing succeeds, every upload is rejected, and the item
still ends `ready`, with nothing stored remotely and the local files removed. -/
theorem upload_failure_item_ready :
    (SlicePano demoOps rejectingEnv demoSource demoCube demoWorld.fs).1 =
      .ok ["uploads/p1/s1/cubemap/posx.jpg", "uploads/p1/s1/cubemap/negx.jpg",
        "uploads/p1/s1/cubemap/posy.jpg", "uploads/p1/s1/cubemap/negy.jpg",
        "uploads/p1/s1/cubemap/posz.jpg", "uploads/p1/s1/cubemap/negz.jpg"] ∧
    rejectingEnv.hasR2 = true ∧
    rejectingEnv.uploadFails "p1/s1/original.jpg" = true ∧
    (runTask demoOps rejectingEnv "s1" "p1" demoSource demoDB demoWorld).1 = "ready" ∧
    (runTask demoOps rejectingEnv "s1" "p1" demoSource demoDB demoWorld).2.1.sceneStatus "s1"
      = some "ready" ∧
    (runTask demoOps rejectingEnv "s1" "p1" demoSource demoDB demoWorld).2.2.r2.objects.length
      = 0 ∧
    ((runTask demoOps rejectingEnv "s1" "p1" demoSource demoDB demoWorld).2.2.r2.calls.map
        (fun c => c.1)).reverse =
      ["p1/s1/original.jpg", "p1/s1/cubemap/posx.jpg", "p1/s1/cubemap/negx.jpg",
        "p1/s1/cubemap/posy.jpg", "p1/s1/cubemap/negy.jpg", "p1/s1/cubemap/posz.jpg",
        "p1/s1/cubemap/negz.jpg", "p1/s1/thumbnail.jpg"] ∧
    (runTask demoOps rejectingEnv "s1" "p1" demoSource demoDB demoWorld).2.2.fs.files.length
      = 0 := by
  refine ⟨rfl, rfl, rfl, ?_, ?_, ?_, ?_, ?_⟩ <;> decide

/-- The demo batch runs to `demoFinal`. -/
theorem demo_run : run demoOps brokenFirstEnv (initState emptyDisk) demoBatch = some demoFinal := by
  rfl

/-- Three items with one slice failure and two successes, the project row in the
table: the aggregate ends `ready`, the items `error, ready, ready`. -/
theorem ready_when_row_exists_demo :
    run demoOps brokenFirstEnv (initState emptyDisk) demoBatch = some demoFinal ∧
    (∃ p ∈ demoFinal.db.projects, p.id = "p1") ∧
    (∃ t ∈ demoFinal.tasks, t.pid = "p1") ∧
    (∀ t ∈ demoFinal.tasks, t.pid = "p1" → t.pc = .done) ∧
    demoFinal.db.projectStatus "p1" = some "ready" ∧
    demoFinal.db.scenes.map (fun sc => sc.status) = ["error", "ready", "ready"] :=
  ⟨demo_run, by decide, by decide, by decide,
   (ready_when_row_exists demoOps brokenFirstEnv emptyDisk demoBatch demoFinal
      demo_run "p1" (by decide) (by decide) (by decide)).1, by decide⟩

end MachineFacts

end Handlers

namespace Handlers

open Pipeline

section SemaphoreFacts

variable {F : Type}

/-! ### The semaphore: claim C14 -/

theorem slots_set : ∀ (l : List Task) (t : Nat) (x b : Task), l[t]? = some x →
    slotsInUse (l.set t b) + (if x.pc.holdsSlot then 1 else 0) =
      slotsInUse l + (if b.pc.holdsSlot then 1 else 0) := by
  intro l
  induction l with
  | nil => intro t x b h; simp at h
  | cons y ys ih =>
    intro t x b h
    cases t with
    | zero =>
      simp only [List.getElem?_cons_zero, Option.some.injEq] at h
      subst h
      by_cases hx : y.pc.holdsSlot = true <;> by_cases hb : b.pc.holdsSlot = true <;>
        simp [slotsInUse, List.filter_cons, hx, hb]
    | succ k =>
      have := ih k x b (by simpa using h)
      simp only [slotsInUse, List.set_cons_succ, List.filter_cons] at this ⊢
      by_cases hy : y.pc.holdsSlot = true
      · simp only [hy, if_true, List.length_cons]; omega
      · simp only [hy, Bool.false_eq_true, if_false]; omega

theorem slots_append_waiting (l : List Task) (x : Task) (h : x.pc.holdsSlot = false) :
    slotsInUse (l ++ [x]) = slotsInUse l := by
  simp [slotsInUse, List.filter_append, h]

theorem createItem_tasks (env : Env) (project : Project) (i : Nat) (file : FileUpload)
    (sid : String) (s : State) :
    (createItem env project i file sid s).2.tasks = s.tasks ∨
    ∃ x : Task, x.pc = .waiting ∧ x.sid = sid ∧ x.pid = project.id ∧
      (createItem env project i file sid s).2.tasks = s.tasks ++ [x] := by
  unfold createItem
  by_cases hsave : env.saveFileFails (env.join ("./" ++ ("uploads/" ++ project.id ++ "/" ++ sid))
      "original.jpg") = true
  · left; simp only [hsave, if_true]
  · right
    simp only [hsave, Bool.false_eq_true, if_false]
    exact ⟨_, rfl, rfl, rfl, rfl⟩

/-- The slots in use after a step. -/
theorem step_slots (o : Float64Ops F) (env : Env) (s s1 : State) (a : Action)
    (h : step o env s a = some s1) (hle : slotsInUse s.tasks ≤ semaphoreCapacity) :
    slotsInUse s1.tasks ≤ semaphoreCapacity := by
  cases a with
  | submit pid userID name isPublic magicCode files =>
    simp only [step] at h
    split at h
    · simp only [Option.some.injEq] at h; subst h; exact hle
    · cases h
  | create hidx sid =>
    simp only [step] at h
    split at h
    · cases h
    · next hd hhd =>
      split at h
      · cases h
      · next file hfile =>
        split at h
        · simp only [Option.some.injEq] at h
          subst h
          show slotsInUse (createItem env hd.project hd.next file sid s).2.tasks ≤ _
          rcases createItem_tasks env hd.project hd.next file sid s with h1 | ⟨x, hx, _, _, h1⟩
          · rw [h1]; exact hle
          · rw [h1, slots_append_waiting _ _ (by rw [hx]; rfl)]; exact hle
        · cases h
  | respond hidx =>
    simp only [step] at h
    split at h
    · cases h
    · split at h
      · simp only [Option.some.injEq] at h; subst h; exact hle
      · cases h
  | acquire t =>
    simp only [step] at h
    split at h
    · cases h
    · next tk htk =>
      split at h
      · next hg =>
        simp only [Option.some.injEq] at h
        subst h
        have := slots_set s.tasks t tk { tk with pc := .running } htk
        simp only [hg.1, PC.holdsSlot] at this
        have h2 := hg.2
        simp only [Bool.false_eq_true, if_false, if_true] at this
        show slotsInUse (s.tasks.set t { tk with pc := .running }) ≤ semaphoreCapacity
        omega
      · cases h
  | slice t =>
    simp only [step] at h
    split at h
    · cases h
    · next tk htk =>
      split at h
      · next hg =>
        simp only [Option.some.injEq] at h
        subst h
        have := slots_set s.tasks t tk
          { tk with pc := .sliced,
                    status := taskStatus (taskSlice o env tk.sid tk.pid tk.fpath s.world).1 } htk
        simp only [hg, PC.holdsSlot, if_true] at this
        show slotsInUse (s.tasks.set t _) ≤ semaphoreCapacity
        omega
      · cases h
  | write t =>
    simp only [step] at h
    split at h
    · cases h
    · next tk htk =>
      split at h
      · next hg =>
        simp only [Option.some.injEq] at h
        subst h
        have := slots_set s.tasks t tk { tk with pc := .wrote } htk
        simp only [hg, PC.holdsSlot, if_true] at this
        show slotsInUse (s.tasks.set t _) ≤ semaphoreCapacity
        omega
      · cases h
  | count t =>
    simp only [step] at h
    split at h
    · cases h
    · next tk htk =>
      split at h
      · next hg =>
        simp only [Option.some.injEq] at h
        subst h
        have := slots_set s.tasks t tk { tk with pc := .counted (taskCount tk.pid s.db) } htk
        simp only [hg, PC.holdsSlot, if_true] at this
        show slotsInUse (s.tasks.set t _) ≤ semaphoreCapacity
        omega
      · cases h
  | finish t =>
    simp only [step] at h
    split at h
    · cases h
    · next tk htk =>
      split at h
      · next n hg =>
        simp only [Option.some.injEq] at h
        subst h
        have := slots_set s.tasks t tk { tk with pc := .done } htk
        simp only [hg, PC.holdsSlot, if_true, Bool.false_eq_true, if_false] at this
        show slotsInUse (s.tasks.set t _) ≤ semaphoreCapacity
        omega
      · cases h

theorem run_slots (o : Float64Ops F) (env : Env) (acts : List Action) :
    ∀ (s s1 : State), run o env s acts = some s1 →
      slotsInUse s.tasks ≤ semaphoreCapacity → slotsInUse s1.tasks ≤ semaphoreCapacity := by
  induction acts with
  | nil =>
    intro s s1 h hle
    simp only [run, Option.some.injEq] at h
    subst h; exact hle
  | cons a rest ih =>
    intro s s1 h hle
    simp only [run] at h
    split at h
    · cases h
    · next s2 hs2 => exact ih s2 s1 h (step_slots o env s s2 a hs2 hle)

theorem insideSlicer_le_slots (l : List Task) : insideSlicer l ≤ slotsInUse l := by
  induction l with
  | nil => simp [insideSlicer, slotsInUse]
  | cons x xs ih =>
    simp only [insideSlicer, slotsInUse] at ih ⊢
    by_cases h : x.pc = .running
    · rw [List.filter_cons_of_pos (by simpa using h),
        List.filter_cons_of_pos (by rw [h]; rfl)]
      simp only [List.length_cons]; omega
    · rw [List.filter_cons_of_neg (by simpa using h)]
      by_cases hy : x.pc.holdsSlot = true
      · rw [List.filter_cons_of_pos (p := fun t : Task => t.pc.holdsSlot) hy]
        simp only [List.length_cons]; omega
      · rw [List.filter_cons_of_neg (p := fun t : Task => t.pc.holdsSlot) hy]; exact ih

/-- The return of a task (lines 197-200 and the deferred release). -/
theorem release_counted (o : Float64Ops F) (env : Env) (s : State) (t : Nat) (tk : Task)
    (n : Nat) (ht : s.tasks[t]? = some tk) (hpc : tk.pc = .counted n) :
    ∃ s1, run o env s [.finish t] = some s1 ∧
      s1.tasks[t]? = some { tk with pc := .done } ∧
      slotsInUse s1.tasks + 1 = slotsInUse s.tasks := by
  refine ⟨{ s with db := taskFinish tk.pid n s.db,
                   tasks := s.tasks.set t { tk with pc := .done } }, ?_, ?_, ?_⟩
  · simp only [run, step, ht, hpc]
  · exact getElem?_set_self _ _ _ _ ht
  · have := slots_set s.tasks t tk { tk with pc := .done } ht
    simp only [hpc, PC.holdsSlot, if_true, Bool.false_eq_true, if_false] at this
    show slotsInUse (s.tasks.set t _) + 1 = _
    omega

theorem release_wrote (o : Float64Ops F) (env : Env) (s : State) (t : Nat) (tk : Task)
    (ht : s.tasks[t]? = some tk) (hpc : tk.pc = .wrote) :
    ∃ s1, run o env s [.count t, .finish t] = some s1 ∧
      s1.tasks[t]? = some { tk with pc := .done } ∧
      slotsInUse s1.tasks + 1 = slotsInUse s.tasks := by
  let tk1 : Task := { tk with pc := .counted (taskCount tk.pid s.db) }
  let s0 : State := { s with tasks := s.tasks.set t tk1 }
  have h0 : step o env s (.count t) = some s0 := by
    simp only [step, ht, hpc, if_true, s0, tk1]
  have ht0 : s0.tasks[t]? = some tk1 := getElem?_set_self _ _ _ _ ht
  obtain ⟨s1, h1, h2, h3⟩ := release_counted o env s0 t tk1 _ ht0 rfl
  refine ⟨s1, ?_, h2, ?_⟩
  · simp only [run, h0]
    exact h1
  · have := slots_set s.tasks t tk tk1 ht
    simp only [hpc, tk1, PC.holdsSlot, if_true] at this
    have h4 : slotsInUse s0.tasks = slotsInUse s.tasks := by
      show slotsInUse (s.tasks.set t tk1) = _
      simp only [tk1]; omega
    omega

theorem release_sliced (o : Float64Ops F) (env : Env) (s : State) (t : Nat) (tk : Task)
    (ht : s.tasks[t]? = some tk) (hpc : tk.pc = .sliced) :
    ∃ s1, run o env s [.write t, .count t, .finish t] = some s1 ∧
      s1.tasks[t]? = some { tk with pc := .done } ∧
      slotsInUse s1.tasks + 1 = slotsInUse s.tasks := by
  let tk1 : Task := { tk with pc := .wrote }
  let s0 : State := { s with db := taskWrite tk.sid tk.status s.db, tasks := s.tasks.set t tk1 }
  have h0 : step o env s (.write t) = some s0 := by
    simp only [step, ht, hpc, if_true, s0, tk1]
  have ht0 : s0.tasks[t]? = some tk1 := getElem?_set_self _ _ _ _ ht
  obtain ⟨s1, h1, h2, h3⟩ := release_wrote o env s0 t tk1 ht0 rfl
  refine ⟨s1, ?_, h2, ?_⟩
  · simp only [run, h0]
    exact h1
  · have := slots_set s.tasks t tk tk1 ht
    simp only [hpc, tk1, PC.holdsSlot, if_true] at this
    have h4 : slotsInUse s0.tasks = slotsInUse s.tasks := by
      show slotsInUse (s.tasks.set t tk1) = _
      simp only [tk1]; omega
    omega

theorem release_running (o : Float64Ops F) (env : Env) (s : State) (t : Nat) (tk : Task)
    (ht : s.tasks[t]? = some tk) (hpc : tk.pc = .running) :
    ∃ s1, run o env s [.slice t, .write t, .count t, .finish t] = some s1 ∧
      s1.tasks[t]? = some (⟨tk.sid, tk.pid, tk.fpath, .done,
        taskStatus (taskSlice o env tk.sid tk.pid tk.fpath s.world).1⟩ : Task) ∧
      slotsInUse s1.tasks + 1 = slotsInUse s.tasks := by
  let tk1 : Task := ⟨tk.sid, tk.pid, tk.fpath, .sliced,
    taskStatus (taskSlice o env tk.sid tk.pid tk.fpath s.world).1⟩
  let s0 : State := ⟨s.db, (taskSlice o env tk.sid tk.pid tk.fpath s.world).2, s.handlers,
    s.tasks.set t tk1⟩
  have h0 : step o env s (.slice t) = some s0 := by
    simp only [step, ht, hpc, if_true, s0, tk1]
  have ht0 : s0.tasks[t]? = some tk1 := getElem?_set_self _ _ _ _ ht
  obtain ⟨s1, h1, h2, h3⟩ := release_sliced o env s0 t tk1 ht0 rfl
  refine ⟨s1, ?_, h2, ?_⟩
  · simp only [run, h0]
    exact h1
  · have := slots_set s.tasks t tk tk1 ht
    simp only [hpc, tk1, PC.holdsSlot, if_true] at this
    have h4 : slotsInUse s0.tasks = slotsInUse s.tasks := by
      show slotsInUse (s.tasks.set t tk1) = _
      simp only [tk1]; omega
    omega

/-- A task holding a slot runs to its return by its own steps, whatever the
slicing gave, and its return frees one slot. -/
theorem release_of_holds (o : Float64Ops F) (env : Env) (s : State) (t : Nat) (tk : Task)
    (ht : s.tasks[t]? = some tk) (hh : tk.pc.holdsSlot = true) :
    ∃ s1 tk1, run o env s (ownSteps t tk.pc) = some s1 ∧
      s1.tasks[t]? = some tk1 ∧ tk1.pc = .done ∧ tk1.sid = tk.sid ∧
      slotsInUse s1.tasks + 1 = slotsInUse s.tasks := by
  cases hpc : tk.pc with
  | waiting => rw [hpc] at hh; cases hh
  | done => rw [hpc] at hh; cases hh
  | running =>
    obtain ⟨s1, h1, h2, h3⟩ := release_running o env s t tk ht hpc
    exact ⟨s1, _, h1, h2, rfl, rfl, h3⟩
  | sliced =>
    obtain ⟨s1, h1, h2, h3⟩ := release_sliced o env s t tk ht hpc
    exact ⟨s1, _, h1, h2, rfl, rfl, h3⟩
  | wrote =>
    obtain ⟨s1, h1, h2, h3⟩ := release_wrote o env s t tk ht hpc
    exact ⟨s1, _, h1, h2, rfl, rfl, h3⟩
  | counted n =>
    obtain ⟨s1, h1, h2, h3⟩ := release_counted o env s t tk n ht hpc
    exact ⟨s1, _, h1, h2, rfl, rfl, h3⟩

/-- A task that returned is never moved again: it takes no slot a second time. -/
theorem done_is_final (o : Float64Ops F) (env : Env) (s s1 : State) (a : Action) (t : Nat)
    (tk : Task) (h : step o env s a = some s1) (ht : s.tasks[t]? = some tk)
    (hpc : tk.pc = .done) : s1.tasks[t]? = some tk := by
  have hset : ∀ (k : Nat) (x b : Task), s.tasks[k]? = some x → x.pc ≠ .done →
      (s.tasks.set k b)[t]? = some tk := by
    intro k x b hk hx
    have hne : k ≠ t := by
      intro he
      subst he
      rw [ht] at hk
      simp only [Option.some.injEq] at hk
      subst hk
      exact hx hpc
    rw [List.getElem?_set_ne hne]; exact ht
  cases a with
  | submit pid userID name isPublic magicCode files =>
    simp only [step] at h
    split at h
    · simp only [Option.some.injEq] at h; subst h; exact ht
    · cases h
  | create hidx sid =>
    simp only [step] at h
    split at h
    · cases h
    · next hd hhd =>
      split at h
      · cases h
      · next file hfile =>
        split at h
        · simp only [Option.some.injEq] at h
          subst h
          show (createItem env hd.project hd.next file sid s).2.tasks[t]? = some tk
          rcases createItem_tasks env hd.project hd.next file sid s with h1 | ⟨x, _, _, _, h1⟩
          · rw [h1]; exact ht
          · rw [h1, List.getElem?_append_left]
            · exact ht
            · by_contra hc
              rw [List.getElem?_eq_none (by omega)] at ht
              cases ht
        · cases h
  | respond hidx =>
    simp only [step] at h
    split at h
    · cases h
    · split at h
      · simp only [Option.some.injEq] at h; subst h; exact ht
      · cases h
  | acquire k =>
    simp only [step] at h
    split at h
    · cases h
    · next x hx =>
      split at h
      · next hg =>
        simp only [Option.some.injEq] at h
        subst h
        exact hset k x _ hx (by rw [hg.1]; simp)
      · cases h
  | slice k =>
    simp only [step] at h
    split at h
    · cases h
    · next x hx =>
      split at h
      · next hg =>
        simp only [Option.some.injEq] at h
        subst h
        exact hset k x _ hx (by rw [hg]; simp)
      · cases h
  | write k =>
    simp only [step] at h
    split at h
    · cases h
    · next x hx =>
      split at h
      · next hg =>
        simp only [Option.some.injEq] at h
        subst h
        exact hset k x _ hx (by rw [hg]; simp)
      · cases h
  | count k =>
    simp only [step] at h
    split at h
    · cases h
    · next x hx =>
      split at h
      · next hg =>
        simp only [Option.some.injEq] at h
        subst h
        exact hset k x _ hx (by rw [hg]; simp)
      · cases h
  | finish k =>
    simp only [step] at h
    split at h
    · cases h
    · next x hx =>
      split at h
      · next n hg =>
        simp only [Option.some.injEq] at h
        subst h
        exact hset k x _ hx (by rw [hg]; simp)
      · cases h

end SemaphoreFacts

end Handlers

namespace Handlers

open Pipeline

section SemaphoreClaim

variable {F : Type}

/-- C14. In every reachable state, whatever the submissions made, at most 2 tasks
are between acquiring and releasing the semaphore, hence at most 2 are inside
`SlicePano`, and no task can acquire while both slots are taken; every task
holding a slot runs by its own steps to its return, whatever its slicing gave,
and the return frees exactly one slot; a task that returned is never moved
again, so it releases once. -/
theorem semaphore_bound (o : Float64Ops F) (env : Env) (fs : FS) (acts : List Action)
    (s : State) (hrun : run o env (initState fs) acts = some s) :
    semaphoreCapacity = 2 ∧
    slotsInUse s.tasks ≤ 2 ∧
    insideSlicer s.tasks ≤ 2 ∧
    (slotsInUse s.tasks = 2 → ∀ t, step o env s (.acquire t) = none) ∧
    (∀ (t : Nat) (tk : Task), s.tasks[t]? = some tk → tk.pc.holdsSlot = true →
      ∃ s1 tk1, run o env s (ownSteps t tk.pc) = some s1 ∧
        s1.tasks[t]? = some tk1 ∧ tk1.pc = .done ∧ tk1.sid = tk.sid ∧
        slotsInUse s1.tasks + 1 = slotsInUse s.tasks) ∧
    (∀ (a : Action) (s1 : State) (t : Nat) (tk : Task), step o env s a = some s1 →
      s.tasks[t]? = some tk → tk.pc = .done → s1.tasks[t]? = some tk) := by
  have hle : slotsInUse s.tasks ≤ semaphoreCapacity :=
    run_slots o env acts _ s hrun (by simp [initState, slotsInUse])
  refine ⟨rfl, hle, le_trans (insideSlicer_le_slots _) hle, ?_,
    fun t tk ht hh => release_of_holds o env s t tk ht hh,
    fun a s1 t tk h ht hpc => done_is_final o env s s1 a t tk h ht hpc⟩
  intro hfull t
  simp only [step]
  split
  · rfl
  · rw [if_neg]
    rintro ⟨_, h2⟩
    rw [hfull] at h2
    exact absurd h2 (by decide)


/-- C14 on the demo batch with both slots taken: the third task cannot acquire. -/
theorem semaphore_bound_witness :
    run demoOps brokenFirstEnv (initState emptyDisk) (demoBatch.take 7) = some demoFull ∧
    slotsInUse demoFull.tasks = 2 ∧ insideSlicer demoFull.tasks ≤ 2 ∧
    step demoOps brokenFirstEnv demoFull (.acquire 2) = none := by
  have hrun : run demoOps brokenFirstEnv (initState emptyDisk) (demoBatch.take 7)
      = some demoFull := rfl
  have h := semaphore_bound demoOps brokenFirstEnv emptyDisk (demoBatch.take 7) demoFull hrun
  have h2 : slotsInUse demoFull.tasks = 2 := by decide
  exact ⟨hrun, h2, h.2.2.1, h.2.2.2.1 h2 2⟩

end SemaphoreClaim

end Handlers

namespace Handlers

open Pipeline

section AggregateFacts

variable {F : Type}

/-! ### Aggregate status: claims C11 to C13 -/

/-- A step that is no aggregate status write for `pid` makes no row of `pid` ready. -/
theorem step_no_update (o : Float64Ops F) (env : Env) (pid : String) (s s1 : State)
    (a : Action) (h : step o env s a = some s1) (hno : isReadyUpdate pid s a = false)
    (hnot : ¬ s.db.SomeReady pid) : ¬ s1.db.SomeReady pid := by
  cases a with
  | submit pid0 userID name isPublic magicCode files =>
    simp only [step] at h
    split at h
    · simp only [Option.some.injEq] at h
      subst h
      rintro ⟨p, hp, hid, hst⟩
      rcases mem_createProject _ _ _ hp with hp | hp
      · exact hnot ⟨p, hp, hid, hst⟩
      · subst hp; simp at hst
    · cases h
  | create hidx sid =>
    simp only [step] at h
    split at h
    · cases h
    · next hd hhd =>
      split at h
      · cases h
      · next file hfile =>
        split at h
        · simp only [Option.some.injEq] at h
          subst h
          rintro ⟨p, hp, hid, hst⟩
          apply hnot
          change p ∈ (createItem env hd.project hd.next file sid s).2.db.projects at hp
          unfold createItem at hp
          by_cases hsave : env.saveFileFails (env.join ("./" ++ ("uploads/" ++ hd.project.id
              ++ "/" ++ sid)) "original.jpg") = true
          · simp only [hsave, if_true] at hp
            exact ⟨p, hp, hid, hst⟩
          · simp only [hsave, Bool.false_eq_true, if_false] at hp
            split at hp
            · simp only [DB.updateProjectPanoPath, DB.createScene, List.mem_map] at hp
              obtain ⟨p0, hp0, rfl⟩ := hp
              refine ⟨p0, hp0, ?_, ?_⟩
              · split at hid <;> exact hid
              · split at hst <;> exact hst
            · exact ⟨p, hp, hid, hst⟩
        · cases h
  | respond hidx =>
    simp only [step] at h
    split at h
    · cases h
    · split at h
      · simp only [Option.some.injEq] at h; subst h; exact hnot
      · cases h
  | acquire t =>
    simp only [step] at h
    split at h
    · cases h
    · split at h
      · simp only [Option.some.injEq] at h; subst h; exact hnot
      · cases h
  | slice t =>
    simp only [step] at h
    split at h
    · cases h
    · split at h
      · simp only [Option.some.injEq] at h; subst h; exact hnot
      · cases h
  | write t =>
    simp only [step] at h
    split at h
    · cases h
    · split at h
      · simp only [Option.some.injEq] at h; subst h; exact hnot
      · cases h
  | count t =>
    simp only [step] at h
    split at h
    · cases h
    · split at h
      · simp only [Option.some.injEq] at h; subst h; exact hnot
      · cases h
  | finish t =>
    simp only [step] at h
    split at h
    · cases h
    · next tk htk =>
      split at h
      · next n hg =>
        simp only [Option.some.injEq] at h
        subst h
        simp only [isReadyUpdate, htk, hg] at hno
        rintro ⟨p, hp, hid, hst⟩
        change p ∈ (taskFinish tk.pid n s.db).projects at hp
        unfold taskFinish at hp
        split at hp
        · next hn =>
          subst hn
          simp only [DB.updateProjectStatus, List.mem_map] at hp
          obtain ⟨p0, hp0, rfl⟩ := hp
          by_cases h0 : p0.id = tk.pid
          · simp only [h0, if_true] at hid
            simp [hid] at hno
          · simp only [h0, if_false] at hid hst
            exact hnot ⟨p0, hp0, hid, hst⟩
        · exact hnot ⟨p, hp, hid, hst⟩
      · cases h

/-- A run that makes a row of `pid` ready holds an aggregate status write for `pid`. -/
theorem readyUpdates_pos (o : Float64Ops F) (env : Env) (pid : String) (acts : List Action) :
    ∀ (s s1 : State), run o env s acts = some s1 → ¬ s.db.SomeReady pid →
      s1.db.SomeReady pid → 1 ≤ readyUpdates o env pid s acts := by
  induction acts with
  | nil =>
    intro s s1 h hnot hr
    simp only [run, Option.some.injEq] at h
    subst h
    exact absurd hr hnot
  | cons a rest ih =>
    intro s s1 h hnot hr
    simp only [run] at h
    split at h
    · cases h
    · next s2 hs2 =>
      simp only [readyUpdates, hs2]
      by_cases hup : isReadyUpdate pid s a = true
      · simp [hup]
      · have := ih s2 s1 h (step_no_update o env pid s s2 a hs2 (by simpa using hup) hnot) hr
        omega

theorem projectStatus_append (db : DB) (p : Project) (pid st : String)
    (h : db.projectStatus pid = some st) : (db.createProject p).projectStatus pid = some st := by
  unfold DB.createProject
  split
  · exact h
  · unfold DB.projectStatus DB.insertProject at *
    simp only [List.find?_append]
    cases hf : List.find? (fun p => decide (p.id = pid)) db.projects with
    | none => rw [hf] at h; simp at h
    | some q => rw [hf] at h; simpa using h

/-- The status of a project across `Create`: as it was, or that of the row created
when the project had none. -/
theorem projectStatus_createProject (db : DB) (p : Project) (pid : String) :
    (db.createProject p).projectStatus pid = db.projectStatus pid ∨
    (db.projectStatus pid = none ∧ (db.createProject p).projectStatus pid = some p.status) := by
  cases hst : db.projectStatus pid with
  | some st => left; exact projectStatus_append _ _ _ _ hst
  | none =>
    unfold DB.createProject
    split
    · left; exact hst
    · unfold DB.projectStatus at hst ⊢
      simp only [DB.insertProject, List.find?_append]
      cases hf : List.find? (fun p => decide (p.id = pid)) db.projects with
      | some q => rw [hf] at hst; simp at hst
      | none =>
        by_cases hp : p.id = pid
        · right; simp [hp]
        · left; simp [hp]

theorem projectStatus_updatePanoPath (db : DB) (pid0 path pid : String) :
    (db.updateProjectPanoPath pid0 path).projectStatus pid = db.projectStatus pid := by
  unfold DB.projectStatus DB.updateProjectPanoPath
  simp only
  induction db.projects with
  | nil => rfl
  | cons p ps ih =>
    simp only [List.map_cons]
    by_cases hp : p.id = pid
    · rw [List.find?_cons_of_pos, List.find?_cons_of_pos]
      · split <;> rfl
      · simpa using hp
      · split <;> simpa using hp
    · rw [List.find?_cons_of_neg, List.find?_cons_of_neg]
      · exact ih
      · simpa using hp
      · split <;> simpa using hp

theorem projectStatus_updateStatus_ne (db : DB) (pid0 pid : String) (h : pid0 ≠ pid) :
    (db.updateProjectStatus pid0 "ready").projectStatus pid = db.projectStatus pid := by
  unfold DB.projectStatus DB.updateProjectStatus
  simp only
  induction db.projects with
  | nil => rfl
  | cons p ps ih =>
    simp only [List.map_cons]
    by_cases hp : p.id = pid
    · have hne : p.id ≠ pid0 := fun he => h (he.symm.trans hp)
      rw [if_neg hne, List.find?_cons_of_pos _ (by simpa using hp),
        List.find?_cons_of_pos _ (by simpa using hp)]
    · rw [List.find?_cons_of_neg, List.find?_cons_of_neg]
      · exact ih
      · simpa using hp
      · split <;> simpa using hp

theorem projectStatus_updateStatus_ready (db : DB) (pid0 pid : String)
    (h : db.projectStatus pid = some "ready") :
    (db.updateProjectStatus pid0 "ready").projectStatus pid = some "ready" := by
  unfold DB.projectStatus DB.updateProjectStatus at *
  simp only at h ⊢
  generalize db.projects = l at h ⊢
  induction l with
  | nil => simp at h
  | cons p ps ih =>
    simp only [List.map_cons]
    by_cases hp : p.id = pid
    · rw [List.find?_cons_of_pos _ (by simpa using hp)] at h
      rw [List.find?_cons_of_pos _ (by split <;> simpa using hp)]
      split
      · rfl
      · exact h
    · rw [List.find?_cons_of_neg _ (by simpa using hp)] at h
      rw [List.find?_cons_of_neg _ (by split <;> simpa using hp)]
      exact ih h

theorem createItem_projectStatus (env : Env) (project : Project) (i : Nat) (file : FileUpload)
    (sid : String) (s : State) (pid : String) :
    (createItem env project i file sid s).2.db.projectStatus pid = s.db.projectStatus pid := by
  unfold createItem
  by_cases hsave : env.saveFileFails (env.join ("./" ++ ("uploads/" ++ project.id ++ "/" ++ sid))
      "original.jpg") = true
  · simp only [hsave, if_true]
  · simp only [hsave, Bool.false_eq_true, if_false]
    split
    · rw [projectStatus_updatePanoPath]; rfl
    · rfl

/-- The status of a project across one step: it changes only at the return of a
task of that project which counted zero, and then to `ready`. -/
theorem step_projectStatus (o : Float64Ops F) (env : Env) (s s1 : State) (a : Action)
    (pid : String) (h : step o env s a = some s1) :
    s1.db.projectStatus pid = s.db.projectStatus pid ∨
    (s.db.projectStatus pid = none ∧ s1.db.projectStatus pid = some "processing") ∨
    (s1.db.projectStatus pid = some "ready" ∧
      ∃ t tk, a = .finish t ∧ s.tasks[t]? = some tk ∧ tk.pid = pid ∧ tk.pc = .counted 0) := by
  cases a with
  | submit pid0 userID name isPublic magicCode files =>
    simp only [step] at h
    split at h
    · simp only [Option.some.injEq] at h
      subst h
      rcases projectStatus_createProject s.db _ pid with h1 | ⟨h1, h2⟩
      · left; exact h1
      · right; left; exact ⟨h1, h2⟩
    · cases h
  | create hidx sid =>
    simp only [step] at h
    split at h
    · cases h
    · next hd hhd =>
      split at h
      · cases h
      · next file hfile =>
        split at h
        · simp only [Option.some.injEq] at h
          subst h
          left
          exact createItem_projectStatus env hd.project hd.next file sid s pid
        · cases h
  | respond hidx =>
    simp only [step] at h
    split at h
    · cases h
    · split at h
      · simp only [Option.some.injEq] at h; subst h; exact Or.inl rfl
      · cases h
  | acquire t =>
    simp only [step] at h
    split at h
    · cases h
    · split at h
      · simp only [Option.some.injEq] at h; subst h; exact Or.inl rfl
      · cases h
  | slice t =>
    simp only [step] at h
    split at h
    · cases h
    · split at h
      · simp only [Option.some.injEq] at h; subst h; exact Or.inl rfl
      · cases h
  | write t =>
    simp only [step] at h
    split at h
    · cases h
    · split at h
      · simp only [Option.some.injEq] at h; subst h; exact Or.inl rfl
      · cases h
  | count t =>
    simp only [step] at h
    split at h
    · cases h
    · split at h
      · simp only [Option.some.injEq] at h; subst h; exact Or.inl rfl
      · cases h
  | finish t =>
    simp only [step] at h
    split at h
    · cases h
    · next tk htk =>
      split at h
      · next n hg =>
        simp only [Option.some.injEq] at h
        subst h
        show (taskFinish tk.pid n s.db).projectStatus pid = _ ∨ _
        unfold taskFinish
        by_cases hn : n = 0
        · subst hn
          rw [if_pos rfl]
          by_cases hp : tk.pid = pid
          · cases hst : s.db.projectStatus pid with
            | none =>
              left
              unfold DB.projectStatus at hst ⊢
              unfold DB.updateProjectStatus
              simp only at hst ⊢
              rw [Option.map_eq_none'] at hst ⊢
              rw [List.find?_eq_none] at hst ⊢
              intro q hq
              simp only [List.mem_map] at hq
              obtain ⟨q0, hq0, rfl⟩ := hq
              have := hst q0 hq0
              split <;> simpa using this
            | some st =>
              right; right
              refine ⟨?_, t, tk, rfl, htk, hp, hg⟩
              unfold DB.projectStatus at hst ⊢
              unfold DB.updateProjectStatus
              simp only at hst ⊢
              rw [hp]
              generalize s.db.projects = ps at hst
              induction ps with
              | nil => simp at hst
              | cons q qs ih =>
                simp only [List.map_cons]
                by_cases hq : q.id = pid
                · rw [if_pos hq, List.find?_cons_of_pos _ (by simpa using hq)]
                  rfl
                · rw [List.find?_cons_of_neg _ (by simpa using hq)] at hst
                  rw [if_neg hq, List.find?_cons_of_neg _ (by simpa using hq)]
                  exact ih hst
          · left; exact projectStatus_updateStatus_ne _ _ _ hp
        · rw [if_neg hn]; exact Or.inl rfl
      · cases h

/-- Once `ready`, a project stays `ready` along every run. -/
theorem ready_stays (o : Float64Ops F) (env : Env) (pid : String) (acts : List Action) :
    ∀ (s s1 : State), run o env s acts = some s1 → s.db.projectStatus pid = some "ready" →
      s1.db.projectStatus pid = some "ready" := by
  induction acts with
  | nil =>
    intro s s1 h hr
    simp only [run, Option.some.injEq] at h
    subst h; exact hr
  | cons a rest ih =>
    intro s s1 h hr
    simp only [run] at h
    split at h
    · cases h
    · next s2 hs2 =>
      apply ih s2 s1 h
      rcases step_projectStatus o env s s2 a pid hs2 with h1 | ⟨h1, _⟩ | ⟨h1, _⟩
      · rw [h1]; exact hr
      · rw [hr] at h1; cases h1
      · exact h1

theorem countProcessing_eq_zero (db : DB) (pid : String) :
    db.countProcessing pid = 0 ↔
      ∀ sc ∈ db.scenes, sc.projectID = pid → sc.status ≠ "processing" := by
  unfold DB.countProcessing
  rw [List.length_eq_zero, List.filter_eq_nil_iff]
  constructor
  · intro h sc hsc hp hs
    exact h sc hsc (by simp [hp, hs])
  · intro h sc hsc hc
    simp only [decide_eq_true_eq] at hc
    exact h sc hsc hc.1 hc.2

/-- C11, amended.  From every state: the aggregate status becomes `ready` only by
the return of a task of that aggregate which counted zero; the count a task
takes is the number of scene rows of the aggregate holding `processing` at that
moment (files not yet handled, or whose save failed, have no row and are not
counted), so it is zero exactly when no recorded item is processing; and once
`ready` the status stays `ready` along every run. -/
theorem ready_only_by_zero_count (o : Float64Ops F) (env : Env) (s : State) (pid : String) :
    (∀ (a : Action) (s1 : State), step o env s a = some s1 →
      s.db.projectStatus pid ≠ some "ready" → s1.db.projectStatus pid = some "ready" →
      ∃ t tk, a = .finish t ∧ s.tasks[t]? = some tk ∧ tk.pid = pid ∧ tk.pc = .counted 0) ∧
    (∀ (t : Nat) (tk : Task) (s1 : State), s.tasks[t]? = some tk →
      step o env s (.count t) = some s1 →
      ∃ tk1, s1.tasks[t]? = some tk1 ∧ tk1.pc = .counted (s.db.countProcessing tk.pid) ∧
        (tk1.pc = .counted 0 ↔
          ∀ sc ∈ s.db.scenes, sc.projectID = tk.pid → sc.status ≠ "processing")) ∧
    (∀ (acts : List Action) (s1 : State), run o env s acts = some s1 →
      s.db.projectStatus pid = some "ready" → s1.db.projectStatus pid = some "ready") := by
  refine ⟨?_, ?_, fun acts s1 h hr => ready_stays o env pid acts s s1 h hr⟩
  · intro a s1 h hn hr
    rcases step_projectStatus o env s s1 a pid h with h1 | ⟨_, h1⟩ | ⟨_, h1⟩
    · rw [h1] at hr; exact absurd hr hn
    · rw [hr] at h1; simp at h1
    · exact h1
  · intro t tk s1 ht h
    simp only [step, ht] at h
    split at h
    · simp only [Option.some.injEq] at h
      subst h
      refine ⟨_, getElem?_set_self _ _ _ _ ht, rfl, ?_⟩
      show PC.counted (taskCount tk.pid s.db) = PC.counted 0 ↔ _
      rw [← countProcessing_eq_zero]
      unfold taskCount
      constructor
      · intro h; injection h
      · intro h; rw [h]
    · cases h


/-- C11, refuted as stated.  Two files: the task of the first returns before the
handler handles the second, and the aggregate is `ready` while one file still
has no item; then the second item is created and is `processing` under a
`ready` aggregate. -/
theorem ready_before_batch_complete :
    run demoOps quietEnv (initState emptyDisk) (earlyBatch.take 7) = some earlyReady ∧
    earlyReady.db.projectStatus "p1" = some "ready" ∧
    earlyReady.handlers.map (fun hd => (hd.project.id, hd.files.length, hd.next)) = [("p1", 2, 1)] ∧
    earlyReady.db.scenes.map (fun sc => sc.id) = ["s1"] ∧
    run demoOps quietEnv (initState emptyDisk) earlyBatch = some earlyFinal ∧
    earlyFinal.db.projectStatus "p1" = some "ready" ∧
    earlyFinal.db.sceneStatus "s2" = some "processing" := by
  refine ⟨rfl, ?_, ?_, ?_, rfl, ?_, ?_⟩ <;> decide

/-- C11 amended, at the step that makes the aggregate of `earlyBatch` ready. -/
theorem ready_only_by_zero_count_witness :
    step demoOps quietEnv earlyCounted (.finish 0) = some earlyReady ∧
    earlyCounted.db.projectStatus "p1" ≠ some "ready" ∧
    earlyReady.db.projectStatus "p1" = some "ready" ∧
    ∃ t tk, Action.finish 0 = .finish t ∧ earlyCounted.tasks[t]? = some tk ∧ tk.pid = "p1" ∧
      tk.pc = .counted 0 :=
  ⟨rfl, by decide, by decide,
   (ready_only_by_zero_count demoOps quietEnv earlyCounted "p1").1 (.finish 0) earlyReady rfl
     (by decide) (by decide)⟩

end AggregateFacts

end Handlers

namespace Handlers

open Pipeline

section TaskFacts

variable {F : Type}

/-- The face loop only adds files. -/
theorem saveFaces_files (o : Float64Ops F) (env : Env) (src : Image) (faceSize : Nat)
    (outputDir : String) (l : List (Nat × String)) :
    ∀ (paths : List String) (fs : FS),
    (∃ added, (saveFaces o env src faceSize outputDir l paths fs).2.files = added ++ fs.files) ∧
    (saveFaces o env src faceSize outputDir l paths fs).2.dirs = fs.dirs := by
  induction l with
  | nil => intro paths fs; exact ⟨⟨[], rfl⟩, rfl⟩
  | cons f rest ih =>
    intro paths fs
    obtain ⟨i, name⟩ := f
    simp only [saveFaces, imagingSave]
    by_cases h1 : env.saveFails (env.join outputDir (name ++ ".jpg")) = true
    · simp only [h1, if_true]
      exact ⟨⟨[], rfl⟩, trivial⟩
    · simp only [h1, Bool.false_eq_true, if_false]
      obtain ⟨⟨added, ha⟩, hd⟩ := ih (paths ++ [env.join outputDir (name ++ ".jpg")])
        { fs with files := (env.join outputDir (name ++ ".jpg"),
            ExtractFace o src (i : Int) faceSize) :: fs.files }
      refine ⟨⟨added ++ [(env.join outputDir (name ++ ".jpg"),
        ExtractFace o src (i : Int) faceSize)], ?_⟩, hd⟩
      rw [ha]; simp

/-- Whatever its outcome, `SlicePano` removes nothing: it only adds files and
at most the output directory. -/
theorem SlicePano_files (o : Float64Ops F) (env : Env) (inputPath outputDir : String)
    (fs : FS) :
    (∃ added, (SlicePano o env inputPath outputDir fs).2.files = added ++ fs.files) ∧
    (∀ d ∈ fs.dirs, d ∈ (SlicePano o env inputPath outputDir fs).2.dirs) := by
  unfold SlicePano
  cases hopen : imagingOpen env fs inputPath with
  | error e => exact ⟨⟨[], rfl⟩, fun d hd => hd⟩
  | ok src =>
    simp only
    have hfiles : (ensureDir fs outputDir).files = fs.files := by
      unfold ensureDir; split <;> rfl
    have hdirs : ∀ d ∈ fs.dirs, d ∈ (ensureDir fs outputDir).dirs := by
      intro d hd
      unfold ensureDir
      split
      · exact hd
      · exact List.mem_cons_of_mem _ hd
    obtain ⟨⟨added, ha⟩, hd⟩ := saveFaces_files o env src (src.width / 4) outputDir faces.enum []
      (ensureDir fs outputDir)
    rw [hfiles] at ha
    rcases hres : saveFaces o env src (src.width / 4) outputDir faces.enum []
      (ensureDir fs outputDir) with ⟨r, fs2⟩
    rw [hres] at ha hd
    simp only at ha hd
    cases r with
    | error e =>
      simp only
      exact ⟨⟨added, ha⟩, fun d h => by rw [hd]; exact hdirs d h⟩
    | ok paths =>
      simp only
      cases hfront : imagingOpen env fs2 (env.join outputDir "posz.jpg") with
      | error e =>
        simp only
        exact ⟨⟨added, ha⟩, fun d h => by rw [hd]; exact hdirs d h⟩
      | ok frontImg =>
        simp only [imagingSave]
        by_cases hth : env.saveFails (env.join (env.dir outputDir) "thumbnail.jpg") = true
        · simp only [hth, if_true]
          exact ⟨⟨added, ha⟩, fun d h => by rw [hd]; exact hdirs d h⟩
        · simp only [hth, Bool.false_eq_true, if_false]
          refine ⟨⟨(env.join (env.dir outputDir) "thumbnail.jpg", env.fill frontImg) :: added,
            by rw [ha]; rfl⟩, fun d h => by rw [hd]; exact hdirs d h⟩

/-- One `UploadFile` call logs itself and changes nothing else of the log. -/
theorem UploadFile_calls (env : Env) (key filePath contentType : String) (fs : FS)
    (st : Store) :
    (UploadFile env key filePath contentType fs st).2.calls
      = (key, filePath, contentType) :: st.calls := by
  unfold UploadFile
  simp only
  split
  · rfl
  · split <;> rfl

/-- The calls the loop over the face paths makes, in order. -/
theorem uploadFaces_calls (env : Env) (pid sid : String) (fs : FS) (l : List String) :
    ∀ st : Store, (uploadFaces env pid sid fs l st).calls =
      (l.map (fun fp => (pid ++ "/" ++ sid ++ "/cubemap/" ++ env.base fp, fp, "image/jpeg"))).reverse
        ++ st.calls := by
  induction l with
  | nil => intro st; rfl
  | cons fp rest ih =>
    intro st
    simp only [uploadFaces]
    rw [ih, UploadFile_calls]
    simp

/-- The world a task leaves when slicing succeeded and an object store is
configured. -/
theorem taskSlice_ok_r2 (o : Float64Ops F) (env : Env) (sid pid fpath : String) (w : World)
    (paths : List String) (hr2 : env.hasR2 = true)
    (hok : (SlicePano o env fpath (env.join (env.dir fpath) "cubemap") w.fs).1 = .ok paths) :
    taskSlice o env sid pid fpath w =
      (.ok paths, uploadAndCleanup env sid pid fpath (env.join (env.dir fpath) "cubemap") paths
        { w with fs := (SlicePano o env fpath (env.join (env.dir fpath) "cubemap") w.fs).2 }) := by
  simp only [taskSlice]
  rcases hres : SlicePano o env fpath (env.join (env.dir fpath) "cubemap") w.fs with ⟨r, fs1⟩
  rw [hres] at hok
  simp only at hok
  subst hok
  simp only [hr2, if_true]

/-- The world a task leaves when slicing failed. -/
theorem taskSlice_error (o : Float64Ops F) (env : Env) (sid pid fpath : String) (w : World)
    (e : Error)
    (hfail : (SlicePano o env fpath (env.join (env.dir fpath) "cubemap") w.fs).1 = .error e) :
    taskSlice o env sid pid fpath w =
      (.error e,
        { w with fs := (SlicePano o env fpath (env.join (env.dir fpath) "cubemap") w.fs).2 }) := by
  simp only [taskSlice]
  rcases hres : SlicePano o env fpath (env.join (env.dir fpath) "cubemap") w.fs with ⟨r, fs1⟩
  rw [hres] at hfail
  simp only at hfail
  subst hfail
  rfl

/-- The world a task leaves when no object store is configured. -/
theorem taskSlice_local (o : Float64Ops F) (env : Env) (sid pid fpath : String) (w : World)
    (hr2 : env.hasR2 = false) :
    (taskSlice o env sid pid fpath w).2 =
      { w with fs := (SlicePano o env fpath (env.join (env.dir fpath) "cubemap") w.fs).2 } := by
  simp only [taskSlice]
  rcases hres : SlicePano o env fpath (env.join (env.dir fpath) "cubemap") w.fs with ⟨r, fs1⟩
  cases r with
  | error e => rfl
  | ok paths => simp only [hr2, Bool.false_eq_true, if_false]

/-- The paths a successful `SlicePano` returns. -/
theorem SlicePano_ok_paths (o : Float64Ops F) (env : Env) (inputPath outputDir : String)
    (fs : FS) (paths : List String)
    (hok : (SlicePano o env inputPath outputDir fs).1 = .ok paths) :
    paths = faces.map (fun n => env.join outputDir (n ++ ".jpg")) ∧
    ∃ src, imagingOpen env fs inputPath = .ok src := by
  cases hopen : imagingOpen env fs inputPath with
  | error e =>
    rw [SlicePano_open_error o env inputPath outputDir fs e hopen] at hok
    cases hok
  | ok src =>
    obtain ⟨thumb, _, _, heq⟩ := SlicePano_ok o env inputPath outputDir fs src hopen
      (SlicePano_ok_saves o env inputPath outputDir fs src paths hopen hok)
    rw [heq] at hok
    simp only [Except.ok.injEq] at hok
    exact ⟨hok.symm, src, rfl⟩

/-- The files left by `os.RemoveAll(d)`. -/
theorem removeAll_spec (env : Env) (d : String) (fs : FS) :
    (∀ f ∈ (removeAll env d fs).files, env.inside d f.1 = false) ∧
    (∀ p ∈ (removeAll env d fs).dirs, env.inside d p = false) := by
  constructor
  · intro f hf
    simp only [removeAll, List.mem_filter] at hf
    simpa using hf.2
  · intro p hp
    simp only [removeAll, List.mem_filter] at hp
    simpa using hp.2

/-- The world at the item status write is the one the slicing phase left. -/
theorem world_at_status_write (o : Float64Ops F) (env : Env) (s : State) (t : Nat) (tk : Task)
    (ht : s.tasks[t]? = some tk) (hpc : tk.pc = .running) :
    ∃ s1 s2, step o env s (.slice t) = some s1 ∧ step o env s1 (.write t) = some s2 ∧
      s2.world = (taskSlice o env tk.sid tk.pid tk.fpath s.world).2 := by
  let tk1 : Task := ⟨tk.sid, tk.pid, tk.fpath, .sliced,
    taskStatus (taskSlice o env tk.sid tk.pid tk.fpath s.world).1⟩
  let s1 : State := ⟨s.db, (taskSlice o env tk.sid tk.pid tk.fpath s.world).2, s.handlers,
    s.tasks.set t tk1⟩
  have h1 : step o env s (.slice t) = some s1 := by
    simp only [step, ht, hpc, if_true, s1, tk1]
  have ht1 : s1.tasks[t]? = some tk1 := getElem?_set_self _ _ _ _ ht
  refine ⟨s1, ⟨taskWrite tk1.sid tk1.status s1.db, s1.world, s1.handlers,
    s1.tasks.set t ⟨tk1.sid, tk1.pid, tk1.fpath, .wrote, tk1.status⟩⟩, h1, ?_, rfl⟩
  simp only [step, ht1, tk1, if_true]

/-- C15 (amended): with an object store configured, a task whose slicing succeeded
reaches the status write with status `ready` and with no file and no directory left
inside the item's working directory `dir fpath`; a task whose slicing failed reaches
it with status `error` and every file that was on disk still there (the removal sits
inside the success branch). The world at the status write of the transition system
is the one `runTask` returns. -/
theorem workdir_removed_when_sliced (o : Float64Ops F) (env : Env) (sid pid fpath : String)
    (db : DB) (w : World) (hr2 : env.hasR2 = true) :
    (∀ paths, (SlicePano o env fpath (env.join (env.dir fpath) "cubemap") w.fs).1 = .ok paths →
      (runTask o env sid pid fpath db w).1 = "ready" ∧
      (∀ f ∈ (runTask o env sid pid fpath db w).2.2.fs.files,
        env.inside (env.dir fpath) f.1 = false) ∧
      (∀ d ∈ (runTask o env sid pid fpath db w).2.2.fs.dirs,
        env.inside (env.dir fpath) d = false)) ∧
    (∀ e, (SlicePano o env fpath (env.join (env.dir fpath) "cubemap") w.fs).1 = .error e →
      (runTask o env sid pid fpath db w).1 = "error" ∧
      ∀ f ∈ w.fs.files, f ∈ (runTask o env sid pid fpath db w).2.2.fs.files) ∧
    (∀ (s : State) (t : Nat) (st : String), s.world = w →
      s.tasks[t]? = some ⟨sid, pid, fpath, .running, st⟩ →
      ∃ s1 s2, step o env s (.slice t) = some s1 ∧ step o env s1 (.write t) = some s2 ∧
        s2.world = (runTask o env sid pid fpath db w).2.2) := by
  refine ⟨?_, ?_, ?_⟩
  rotate_left 2
  · intro s t st hw ht
    obtain ⟨s1, s2, h1, h2, h3⟩ := world_at_status_write o env s t _ ht rfl
    refine ⟨s1, s2, h1, h2, ?_⟩
    rw [h3, hw]
    rfl
  · intro paths hok
    have h := taskSlice_ok_r2 o env sid pid fpath w paths hr2 hok
    simp only [runTask, h, taskStatus, uploadAndCleanup]
    exact ⟨trivial, (removeAll_spec env (env.dir fpath) _).1,
      (removeAll_spec env (env.dir fpath) _).2⟩
  · intro e hfail
    have h := taskSlice_error o env sid pid fpath w e hfail
    simp only [runTask, h, taskStatus]
    refine ⟨trivial, ?_⟩
    intro f hf
    obtain ⟨⟨added, ha⟩, _⟩ := SlicePano_files o env fpath (env.join (env.dir fpath) "cubemap") w.fs
    rw [ha]
    exact List.mem_append_right _ hf

/-- C16: without an object store the task uploads nothing (the store and its call
log are unchanged) and removes nothing (every earlier file and directory is still on
disk; after a successful slicing the disk is the old one plus the six faces and at
most one thumbnail), and it still writes the item status decided by the slicing
result and then runs the aggregate check on the database so updated. -/
theorem local_only_task (o : Float64Ops F) (env : Env) (sid pid fpath : String)
    (db : DB) (w : World) (hr2 : env.hasR2 = false) :
    (runTask o env sid pid fpath db w).2.2.r2 = w.r2 ∧
    (∃ added, (runTask o env sid pid fpath db w).2.2.fs.files = added ++ w.fs.files) ∧
    (∀ d ∈ w.fs.dirs, d ∈ (runTask o env sid pid fpath db w).2.2.fs.dirs) ∧
    (∀ src paths, imagingOpen env w.fs fpath = .ok src →
      (SlicePano o env fpath (env.join (env.dir fpath) "cubemap") w.fs).1 = .ok paths →
      ∃ thumb : List (String × Image), thumb.length ≤ 1 ∧
        (runTask o env sid pid fpath db w).2.2.fs.files =
          thumb ++ (faceWrites o env src (env.join (env.dir fpath) "cubemap")).reverse
            ++ w.fs.files) ∧
    (runTask o env sid pid fpath db w).1 =
      taskStatus (SlicePano o env fpath (env.join (env.dir fpath) "cubemap") w.fs).1 ∧
    (runTask o env sid pid fpath db w).2.1 =
      taskFinish pid
        (taskCount pid (taskWrite sid (runTask o env sid pid fpath db w).1 db))
        (taskWrite sid (runTask o env sid pid fpath db w).1 db) := by
  have hw := taskSlice_local o env sid pid fpath w hr2
  have hfiles := SlicePano_files o env fpath (env.join (env.dir fpath) "cubemap") w.fs
  refine ⟨?_, ?_, ?_, ?_, ?_, rfl⟩
  · simp only [runTask, hw]
  · simp only [runTask, hw]; exact hfiles.1
  · simp only [runTask, hw]; exact hfiles.2
  · intro src paths hopen hok
    obtain ⟨thumb, hlen, _, heq⟩ := SlicePano_ok o env fpath (env.join (env.dir fpath) "cubemap")
      w.fs src hopen (SlicePano_ok_saves o env fpath _ w.fs src paths hopen hok)
    refine ⟨thumb, hlen, ?_⟩
    simp only [runTask, hw, heq]
  · simp only [runTask, taskSlice_result]


/-- C15 counterexample: an object store is configured, the source of the item cannot
be decoded, the task ends with status `error`, and the working directory
`uploads/p1/s1` with the original inside it is still on disk. -/
theorem failed_slice_keeps_workdir :
    brokenFirstEnv.hasR2 = true ∧
    (runTask demoOps brokenFirstEnv "s1" "p1" demoSource demoDB demoWorld).1 = "error" ∧
    (runTask demoOps brokenFirstEnv "s1" "p1" demoSource demoDB demoWorld).2.2.fs.files.map
      (fun f => f.1) = [demoSource] ∧
    (runTask demoOps brokenFirstEnv "s1" "p1" demoSource demoDB demoWorld).2.2.fs.dirs
      = ["./uploads/p1/s1"] ∧
    brokenFirstEnv.inside (brokenFirstEnv.dir demoSource) demoSource = true := by
  refine ⟨rfl, rfl, rfl, rfl, rfl⟩

/-- C15 (amended) in the world where nothing fails, for item `s1` of aggregate `p1`. -/
theorem workdir_removed_when_sliced_witness :
    quietEnv.hasR2 = true ∧
    ((∀ paths, (SlicePano demoOps quietEnv demoSource
        (quietEnv.join (quietEnv.dir demoSource) "cubemap") demoWorld.fs).1 = .ok paths →
      (runTask demoOps quietEnv "s1" "p1" demoSource demoDB demoWorld).1 = "ready" ∧
      (∀ f ∈ (runTask demoOps quietEnv "s1" "p1" demoSource demoDB demoWorld).2.2.fs.files,
        quietEnv.inside (quietEnv.dir demoSource) f.1 = false) ∧
      (∀ d ∈ (runTask demoOps quietEnv "s1" "p1" demoSource demoDB demoWorld).2.2.fs.dirs,
        quietEnv.inside (quietEnv.dir demoSource) d = false)) ∧
    (∀ e, (SlicePano demoOps quietEnv demoSource
        (quietEnv.join (quietEnv.dir demoSource) "cubemap") demoWorld.fs).1 = .error e →
      (runTask demoOps quietEnv "s1" "p1" demoSource demoDB demoWorld).1 = "error" ∧
      ∀ f ∈ demoWorld.fs.files,
        f ∈ (runTask demoOps quietEnv "s1" "p1" demoSource demoDB demoWorld).2.2.fs.files) ∧
    (∀ (s : State) (t : Nat) (st : String), s.world = demoWorld →
      s.tasks[t]? = some ⟨"s1", "p1", demoSource, .running, st⟩ →
      ∃ s1 s2, step demoOps quietEnv s (.slice t) = some s1 ∧
        step demoOps quietEnv s1 (.write t) = some s2 ∧
        s2.world = (runTask demoOps quietEnv "s1" "p1" demoSource demoDB demoWorld).2.2)) :=
  ⟨rfl, workdir_removed_when_sliced demoOps quietEnv "s1" "p1" demoSource demoDB demoWorld rfl⟩

/-- C16 in the world without object store, for item `s1` of aggregate `p1`. -/
theorem local_only_task_witness :
    localEnv.hasR2 = false ∧
    (runTask demoOps localEnv "s1" "p1" demoSource demoDB demoWorld).2.2.r2 = demoWorld.r2 ∧
    (runTask demoOps localEnv "s1" "p1" demoSource demoDB demoWorld).1 =
      taskStatus (SlicePano demoOps localEnv demoSource
        (localEnv.join (localEnv.dir demoSource) "cubemap") demoWorld.fs).1 :=
  ⟨rfl, (local_only_task demoOps localEnv "s1" "p1" demoSource demoDB demoWorld rfl).1,
    (local_only_task demoOps localEnv "s1" "p1" demoSource demoDB demoWorld rfl).2.2.2.2.1⟩

end TaskFacts

end Handlers

namespace Handlers

open Pipeline

section LayoutFacts

variable {F : Type}

/-- One `UploadFile` call stores at most its own object, under its key and content type. -/
theorem UploadFile_objects (env : Env) (key filePath contentType : String) (fs : FS)
    (st : Store) :
    ∀ ob ∈ (UploadFile env key filePath contentType fs st).2.objects,
      ob ∈ st.objects ∨ (ob.1 = key ∧ ob.2.1 = contentType) := by
  intro ob hob
  unfold UploadFile at hob
  simp only at hob
  split at hob
  · exact Or.inl hob
  · split at hob
    · exact Or.inl hob
    · simp only [List.mem_cons] at hob
      rcases hob with h | h
      · right; subst h; exact ⟨rfl, rfl⟩
      · exact Or.inl h

/-- The objects the loop over the face paths stores. -/
theorem uploadFaces_objects (env : Env) (pid sid : String) (fs : FS) (l : List String) :
    ∀ st : Store, ∀ ob ∈ (uploadFaces env pid sid fs l st).objects,
      ob ∈ st.objects ∨
      ((∃ fp ∈ l, ob.1 = pid ++ "/" ++ sid ++ "/cubemap/" ++ env.base fp) ∧
        ob.2.1 = "image/jpeg") := by
  induction l with
  | nil => intro st ob hob; exact Or.inl hob
  | cons fp rest ih =>
    intro st ob hob
    simp only [uploadFaces] at hob
    rcases ih _ ob hob with h | ⟨⟨fp2, hfp2, hk⟩, hct⟩
    · rcases UploadFile_objects env _ _ _ fs st ob h with h2 | ⟨hk, hct⟩
      · exact Or.inl h2
      · exact Or.inr ⟨⟨fp, List.mem_cons_self _ _, hk⟩, hct⟩
    · exact Or.inr ⟨⟨fp2, List.mem_cons_of_mem _ hfp2, hk⟩, hct⟩

/-- C18: the handler saves the source of item `sid` of aggregate `pid` at
`uploads/pid/sid/original.jpg` and hands that path to the task; the task slices into
`uploads/pid/sid/cubemap`, so the face paths are `uploads/pid/sid/cubemap/<face>.jpg`;
the thumbnail `SlicePano` writes is at `uploads/pid/sid/thumbnail.jpg` (the parent of
the output directory joined with `thumbnail.jpg`), which is the path of the task's
last upload call.  The path library is assumed to join and split these particular
paths as plain `/`-separated components. -/
theorem local_layout (o : Float64Ops F) (env : Env) (pid sid : String)
    (hsrc : env.join ("./" ++ ("uploads/" ++ pid ++ "/" ++ sid)) "original.jpg"
      = "uploads/" ++ pid ++ "/" ++ sid ++ "/original.jpg")
    (hdir : env.dir ("uploads/" ++ pid ++ "/" ++ sid ++ "/original.jpg")
      = "uploads/" ++ pid ++ "/" ++ sid)
    (hcube : env.join ("uploads/" ++ pid ++ "/" ++ sid) "cubemap"
      = "uploads/" ++ pid ++ "/" ++ sid ++ "/cubemap")
    (hface : ∀ n ∈ faces, env.join ("uploads/" ++ pid ++ "/" ++ sid ++ "/cubemap") (n ++ ".jpg")
      = "uploads/" ++ pid ++ "/" ++ sid ++ "/cubemap/" ++ n ++ ".jpg")
    (hup : env.dir ("uploads/" ++ pid ++ "/" ++ sid ++ "/cubemap")
      = "uploads/" ++ pid ++ "/" ++ sid)
    (hthumb : env.join ("uploads/" ++ pid ++ "/" ++ sid) "thumbnail.jpg"
      = "uploads/" ++ pid ++ "/" ++ sid ++ "/thumbnail.jpg") :
    (∀ (project : Project) (i : Nat) (file : FileUpload) (s : State), project.id = pid →
      env.saveFileFails ("uploads/" ++ pid ++ "/" ++ sid ++ "/original.jpg") = false →
      (createItem env project i file sid s).2.world.fs.files =
        ("uploads/" ++ pid ++ "/" ++ sid ++ "/original.jpg", file.content) :: s.world.fs.files ∧
      (createItem env project i file sid s).2.tasks = s.tasks ++
        [⟨sid, pid, "uploads/" ++ pid ++ "/" ++ sid ++ "/original.jpg", .waiting, ""⟩]) ∧
    (∀ w : World,
      (taskSlice o env sid pid ("uploads/" ++ pid ++ "/" ++ sid ++ "/original.jpg") w).1 =
        (SlicePano o env ("uploads/" ++ pid ++ "/" ++ sid ++ "/original.jpg")
          ("uploads/" ++ pid ++ "/" ++ sid ++ "/cubemap") w.fs).1) ∧
    (∀ (fs : FS) (paths : List String),
      (SlicePano o env ("uploads/" ++ pid ++ "/" ++ sid ++ "/original.jpg")
        ("uploads/" ++ pid ++ "/" ++ sid ++ "/cubemap") fs).1 = .ok paths →
      paths = faces.map (fun n => "uploads/" ++ pid ++ "/" ++ sid ++ "/cubemap/" ++ n ++ ".jpg") ∧
      ∃ (src : Image) (thumb : List (String × Image)), thumb.length ≤ 1 ∧
        (∀ t ∈ thumb, t.1 = "uploads/" ++ pid ++ "/" ++ sid ++ "/thumbnail.jpg") ∧
        (SlicePano o env ("uploads/" ++ pid ++ "/" ++ sid ++ "/original.jpg")
          ("uploads/" ++ pid ++ "/" ++ sid ++ "/cubemap") fs).2.files =
          thumb ++ (faceWrites o env src ("uploads/" ++ pid ++ "/" ++ sid ++ "/cubemap")).reverse
            ++ fs.files ∧
        (faceWrites o env src ("uploads/" ++ pid ++ "/" ++ sid ++ "/cubemap")).map (fun f => f.1) =
          faces.map (fun n => "uploads/" ++ pid ++ "/" ++ sid ++ "/cubemap/" ++ n ++ ".jpg")) ∧
    (∀ (w : World) (paths : List String), env.hasR2 = true →
      (SlicePano o env ("uploads/" ++ pid ++ "/" ++ sid ++ "/original.jpg")
        ("uploads/" ++ pid ++ "/" ++ sid ++ "/cubemap") w.fs).1 = .ok paths →
      (taskSlice o env sid pid ("uploads/" ++ pid ++ "/" ++ sid ++ "/original.jpg") w).2.r2.calls.head?
        = some (pid ++ "/" ++ sid ++ "/thumbnail.jpg",
            "uploads/" ++ pid ++ "/" ++ sid ++ "/thumbnail.jpg", "image/jpeg")) := by
  have hmap : (faces.map fun n => env.join ("uploads/" ++ pid ++ "/" ++ sid ++ "/cubemap")
      (n ++ ".jpg")) =
      faces.map (fun n => "uploads/" ++ pid ++ "/" ++ sid ++ "/cubemap/" ++ n ++ ".jpg") :=
    List.map_congr_left hface
  refine ⟨?_, ?_, ?_, ?_⟩
  · intro project i file s hpid hsave
    subst hpid
    have hfiles : (ensureDir s.world.fs ("./" ++ ("uploads/" ++ project.id ++ "/" ++ sid))).files
        = s.world.fs.files := by
      unfold ensureDir; split <;> rfl
    simp only [createItem, hsrc, hsave, Bool.false_eq_true, if_false, hfiles]
    exact ⟨trivial, trivial⟩
  · intro w
    rw [taskSlice_result, hdir, hcube]
  · intro fs paths hok
    obtain ⟨hp, src, hopen⟩ := SlicePano_ok_paths o env _ _ fs paths hok
    obtain ⟨thumb, hlen, hth, heq⟩ := SlicePano_ok o env _ _ fs src hopen
      (SlicePano_ok_saves o env _ _ fs src paths hopen hok)
    refine ⟨hp.trans hmap, src, thumb, hlen, ?_, ?_, ?_⟩
    · intro t ht
      rw [hth t ht, hup, hthumb]
    · rw [heq]
    · have h6 := hface
      simp only [faces, List.mem_cons, List.mem_singleton, List.not_mem_nil, or_false,
        forall_eq_or_imp, forall_eq] at h6
      obtain ⟨a1, a2, a3, a4, a5, a6⟩ := h6
      simp only [faceWrites, faces, List.enum, List.enumFrom, List.map, a1, a2, a3, a4, a5, a6]
  · intro w paths hr2 hok
    have hok2 : (SlicePano o env ("uploads/" ++ pid ++ "/" ++ sid ++ "/original.jpg")
        (env.join (env.dir ("uploads/" ++ pid ++ "/" ++ sid ++ "/original.jpg")) "cubemap")
        w.fs).1 = .ok paths := by
      rw [hdir, hcube]; exact hok
    rw [taskSlice_ok_r2 o env sid pid _ w paths hr2 hok2]
    simp only [uploadAndCleanup, UploadFile_calls, List.head?_cons, hdir, hcube, hup, hthumb]


/-- C18 with the demo path functions, for item `s1` of aggregate `p1`. -/
theorem local_layout_witness :
    (quietEnv.join ("./" ++ ("uploads/" ++ "p1" ++ "/" ++ "s1")) "original.jpg"
        = "uploads/" ++ "p1" ++ "/" ++ "s1" ++ "/original.jpg" ∧
      quietEnv.dir ("uploads/" ++ "p1" ++ "/" ++ "s1" ++ "/original.jpg")
        = "uploads/" ++ "p1" ++ "/" ++ "s1" ∧
      quietEnv.join ("uploads/" ++ "p1" ++ "/" ++ "s1") "cubemap"
        = "uploads/" ++ "p1" ++ "/" ++ "s1" ++ "/cubemap" ∧
      (∀ n ∈ faces, quietEnv.join ("uploads/" ++ "p1" ++ "/" ++ "s1" ++ "/cubemap") (n ++ ".jpg")
        = "uploads/" ++ "p1" ++ "/" ++ "s1" ++ "/cubemap/" ++ n ++ ".jpg") ∧
      quietEnv.dir ("uploads/" ++ "p1" ++ "/" ++ "s1" ++ "/cubemap")
        = "uploads/" ++ "p1" ++ "/" ++ "s1" ∧
      quietEnv.join ("uploads/" ++ "p1" ++ "/" ++ "s1") "thumbnail.jpg"
        = "uploads/" ++ "p1" ++ "/" ++ "s1" ++ "/thumbnail.jpg") ∧
    ∀ w : World,
      (taskSlice demoOps quietEnv "s1" "p1"
          ("uploads/" ++ "p1" ++ "/" ++ "s1" ++ "/original.jpg") w).1 =
        (SlicePano demoOps quietEnv ("uploads/" ++ "p1" ++ "/" ++ "s1" ++ "/original.jpg")
          ("uploads/" ++ "p1" ++ "/" ++ "s1" ++ "/cubemap") w.fs).1 :=
  ⟨⟨by decide, by decide, by decide, by decide, by decide, by decide⟩,
   (local_layout demoOps quietEnv "p1" "s1" (by decide) (by decide) (by decide) (by decide)
     (by decide) (by decide)).2.1⟩

end LayoutFacts

end Handlers

namespace Handlers

open Pipeline

section StoreFacts

variable {F : Type}

/-- A list of the length of `m` begins `m ++ t` exactly when it is `m`. -/
theorem isPrefixOf_append_same_length (l m t : List Char) (hlen : l.length = m.length) :
    l.isPrefixOf (m ++ t) = true ↔ m = l := by
  rw [List.isPrefixOf_iff_prefix]
  constructor
  · intro h
    have h2 : m <+: m ++ t := List.prefix_append m t
    exact (List.prefix_of_prefix_length_le h2 h (le_of_eq hlen.symm)).eq_of_length hlen.symm
  · intro h
    subst h
    exact List.prefix_append _ _

/-- An identifier of UUID shape has 36 characters. -/
theorem isUUID_length (s : String) (h : isUUID s = true) : s.data.length = 36 := by
  simp only [isUUID, Bool.and_eq_true, beq_iff_eq] at h
  exact h.1

/-- An identifier of UUID shape does not begin with `m`. -/
theorem isUUID_head (s : String) (h : isUUID s = true) :
    ∃ c cs, s.data = c :: cs ∧ c ≠ 'm' := by
  simp only [isUUID, Bool.and_eq_true, beq_iff_eq] at h
  obtain ⟨hlen, hall⟩ := h
  cases hd : s.data with
  | nil => rw [hd] at hlen; cases hlen
  | cons c cs =>
    refine ⟨c, cs, rfl, ?_⟩
    rw [hd] at hall
    simp only [List.enum, List.enumFrom, List.all_cons, Bool.and_eq_true] at hall
    have hc := hall.1
    simp only [Nat.reduceEqDiff, OfNat.zero_ne_ofNat, or_self, if_false] at hc
    intro hm
    subst hm
    revert hc
    decide

/-- Every key of an item begins with the aggregate id followed by `/`. -/
theorem itemKeys_data (pid sid key : String) (hk : key ∈ itemKeys pid sid) :
    ∃ t : List Char, key.data = pid.data ++ t := by
  simp only [itemKeys, List.mem_cons, List.mem_singleton, List.not_mem_nil, or_false] at hk
  rcases hk with h | h | h | h | h | h | h | h <;> subst h <;>
    simp only [String.data_append, List.append_assoc] <;> exact ⟨_, rfl⟩

/-- An object whose key is not in the list survives the deletion loop. -/
theorem deleteKeys_keeps (api : R2Api) (keys : List String) :
    ∀ (st : Store) (ob : String × String × Image), ob ∈ st.objects → ob.1 ∉ keys →
      ob ∈ (deleteKeys api keys st).2.objects := by
  induction keys with
  | nil => intro st ob hob _; exact hob
  | cons k rest ih =>
    intro st ob hob hk
    simp only [List.mem_cons, not_or] at hk
    simp only [deleteKeys, DeleteFile]
    by_cases hf : api.deleteFails k = true
    · simp only [hf, if_true]; exact hob
    · simp only [hf, Bool.false_eq_true, if_false]
      apply ih _ ob _ hk.2
      simp only [List.mem_filter, bne_iff_ne, ne_eq]
      exact ⟨hob, hk.1⟩

/-- After a deletion loop that returned no error, no object with a listed key is left,
and every object left was there before. -/
theorem deleteKeys_ok (api : R2Api) (keys : List String) :
    ∀ (st : Store), (deleteKeys api keys st).1 = .ok () →
      ∀ ob ∈ (deleteKeys api keys st).2.objects, ob ∈ st.objects ∧ ob.1 ∉ keys := by
  induction keys with
  | nil => intro st _ ob hob; exact ⟨hob, List.not_mem_nil _⟩
  | cons k rest ih =>
    intro st hok ob hob
    simp only [deleteKeys, DeleteFile] at hok hob
    by_cases hf : api.deleteFails k = true
    · simp only [hf, if_true] at hok
      cases hok
    · simp only [hf, Bool.false_eq_true, if_false] at hok hob
      obtain ⟨h1, h2⟩ := ih _ hok ob hob
      simp only [List.mem_filter, bne_iff_ne, ne_eq] at h1
      refine ⟨h1.1, ?_⟩
      simp only [List.mem_cons, not_or]
      exact ⟨h1.2, h2⟩

/-- Where no `DeleteObject` fails the deletion loop returns no error. -/
theorem deleteKeys_no_error (api : R2Api) (hdel : ∀ k, api.deleteFails k = false)
    (keys : List String) : ∀ st : Store, (deleteKeys api keys st).1 = .ok () := by
  induction keys with
  | nil => intro st; rfl
  | cons k rest ih =>
    intro st
    simp only [deleteKeys, DeleteFile, hdel k, Bool.false_eq_true, if_false]
    exact ih _

/-- The keys of the bucket are those of its objects. -/
theorem mem_keys (st : Store) (k : String) :
    k ∈ st.keys ↔ ∃ ob ∈ st.objects, ob.1 = k := by
  unfold Store.keys
  rw [(List.perm_insertionSort _ _).mem_iff, List.mem_dedup, List.mem_map]

/-- No key is listed twice. -/
theorem keys_nodup (st : Store) : st.keys.Nodup := by
  unfold Store.keys
  exact (List.perm_insertionSort _ _).nodup_iff.mpr (List.nodup_dedup _)

/-- `DeleteDirectory` deletes no object whose key does not begin with `pre`,
whatever fails. -/
theorem DeleteDirectory_keeps_others (api : R2Api) (pre : String) (st : Store)
    (ob : String × String × Image) (hob : ob ∈ st.objects) (hpre : hasPrefix pre ob.1 = false) :
    ob ∈ (DeleteDirectory api pre st).2.objects := by
  unfold DeleteDirectory listObjects
  by_cases hl : api.listFails pre = true
  · simp only [hl, if_true]; exact hob
  · simp only [hl, Bool.false_eq_true, if_false]
    apply deleteKeys_keeps api _ st ob hob
    intro hmem
    have h2 := List.mem_of_mem_take hmem
    simp only [List.mem_filter] at h2
    rw [hpre] at h2
    exact Bool.false_ne_true h2.2

/-- When the keys beginning with `pre` fit in one page and `DeleteDirectory` returns no
error, no object whose key begins with `pre` is left. -/
theorem DeleteDirectory_one_page (api : R2Api) (pre : String) (st : Store)
    (hfit : (st.keys.filter (fun k => hasPrefix pre k)).length ≤ api.maxKeys)
    (hok : (DeleteDirectory api pre st).1 = .ok ()) :
    ∀ ob ∈ (DeleteDirectory api pre st).2.objects, hasPrefix pre ob.1 = false := by
  intro ob hob
  unfold DeleteDirectory listObjects at hok hob
  by_cases hl : api.listFails pre = true
  · simp only [hl, if_true] at hok
    cases hok
  · simp only [hl, Bool.false_eq_true, if_false] at hok hob
    rw [List.take_of_length_le hfit] at hok hob
    obtain ⟨h1, h2⟩ := deleteKeys_ok api _ st hok ob hob
    cases hp : hasPrefix pre ob.1 with
    | false => rfl
    | true =>
      exact absurd (List.mem_filter.mpr ⟨(mem_keys st ob.1).mpr ⟨ob, h1, rfl⟩, hp⟩) h2

/-- When more keys begin with `pre` than one page holds and no call fails,
`DeleteDirectory` returns no error and leaves an object whose key begins with `pre`. -/
theorem DeleteDirectory_beyond_page (api : R2Api) (pre : String) (st : Store)
    (hlist : api.listFails pre = false) (hdel : ∀ k, api.deleteFails k = false)
    (hmany : api.maxKeys < (st.keys.filter (fun k => hasPrefix pre k)).length) :
    (DeleteDirectory api pre st).1 = .ok () ∧
    ∃ ob ∈ (DeleteDirectory api pre st).2.objects, hasPrefix pre ob.1 = true := by
  unfold DeleteDirectory listObjects
  simp only [hlist, Bool.false_eq_true, if_false]
  refine ⟨deleteKeys_no_error api hdel _ _, ?_⟩
  have hnd : (st.keys.filter (fun k => hasPrefix pre k)).Nodup := (keys_nodup st).filter _
  obtain ⟨k, hk⟩ : ∃ k, (st.keys.filter (fun k => hasPrefix pre k))[api.maxKeys]? = some k := by
    rw [List.getElem?_eq_getElem hmany]; exact ⟨_, rfl⟩
  have hkmem : k ∈ st.keys.filter (fun k => hasPrefix pre k) := mem_of_getElem? _ _ _ hk
  have hnot : k ∉ (st.keys.filter (fun k => hasPrefix pre k)).take api.maxKeys := by
    intro hin
    have hsplit := List.take_append_drop api.maxKeys (st.keys.filter (fun k => hasPrefix pre k))
    rw [← hsplit] at hnd
    have hdisj := (List.nodup_append.mp hnd).2.2
    have hdrop : k ∈ (st.keys.filter (fun k => hasPrefix pre k)).drop api.maxKeys := by
      rw [List.mem_iff_getElem?]
      exact ⟨0, by rw [List.getElem?_drop]; simpa using hk⟩
    exact hdisj hin hdrop
  simp only [List.mem_filter] at hkmem
  obtain ⟨ob, hob, hobk⟩ := (mem_keys st k).mp hkmem.1
  refine ⟨ob, deleteKeys_keeps api _ st ob hob (by rw [hobk]; exact hnot), ?_⟩
  rw [hobk]; exact hkmem.2

/-- In a bucket of distinct keys that all begin with `pre`, the listing for `pre`
matches as many keys as there are objects. -/
theorem filter_keys_length (st : Store) (pre : String)
    (hnd : (st.objects.map (fun ob => ob.1)).Nodup)
    (hall : ∀ ob ∈ st.objects, hasPrefix pre ob.1 = true) :
    (st.keys.filter (fun k => hasPrefix pre k)).length = st.objects.length := by
  have hfull : st.keys.filter (fun k => hasPrefix pre k) = st.keys := by
    rw [List.filter_eq_self]
    intro k hk
    obtain ⟨ob, hob, rfl⟩ := (mem_keys st k).mp hk
    exact hall ob hob
  rw [hfull]
  unfold Store.keys
  rw [(List.perm_insertionSort _ _).length_eq, hnd.dedup, List.length_map]

/-- Every key of `bigBucket` begins with `p/`. -/
theorem bigBucket_keys (ob : String × String × Image) (hob : ob ∈ bigBucket.objects) :
    hasPrefix "p/" ob.1 = true := by
  unfold bigBucket at hob
  dsimp only at hob
  rw [List.mem_map] at hob
  obtain ⟨i, _, hi⟩ := hob
  rw [← hi]
  simp [hasPrefix, List.isPrefixOf]

/-- The keys of `bigBucket` are distinct. -/
theorem bigBucket_nodup : (bigBucket.objects.map (fun ob => ob.1)).Nodup := by
  simp only [bigBucket, List.map_map]
  apply List.Nodup.map _ (List.nodup_range 1001)
  intro i j hij
  have := congrArg (fun s : String => s.data.length) hij
  simpa using this

/-- More than one page of keys of `bigBucket` begins with `p/`. -/
theorem bigBucket_many :
    r2Api.maxKeys < (bigBucket.keys.filter (fun k => hasPrefix "p/" k)).length := by
  rw [filter_keys_length bigBucket "p/" bigBucket_nodup]
  · simp only [bigBucket, List.length_map, List.length_range, r2Api]
    decide
  · exact bigBucket_keys

/-- C20 failing input: 1001 objects under `p/`, pages of 1000 keys, no call failing:
`DeleteDirectory("p/")` returns no error and an object whose key begins with `p/`
is still in the bucket. -/
theorem DeleteDirectory_first_page_only :
    bigBucket.objects.length = 1001 ∧
    (∀ ob ∈ bigBucket.objects, hasPrefix "p/" ob.1 = true) ∧
    r2Api.maxKeys = 1000 ∧
    (DeleteDirectory r2Api "p/" bigBucket).1 = .ok () ∧
    ∃ ob ∈ (DeleteDirectory r2Api "p/" bigBucket).2.objects, hasPrefix "p/" ob.1 = true := by
  exact ⟨by simp only [bigBucket, List.length_map, List.length_range], bigBucket_keys, rfl,
    DeleteDirectory_beyond_page r2Api "p/" bigBucket rfl (fun _ => rfl) bigBucket_many⟩

end StoreFacts

end Handlers

namespace Handlers

open Pipeline

section ThrottleFacts

variable {F : Type}

/-- Saturation does not change the comparison with five minutes. -/
theorem timeSub_lt_fiveMinutes (now last : Int) :
    timeSub now last < fiveMinutes ↔ now < last + fiveMinutes := by
  unfold timeSub minDuration maxDuration fiveMinutes
  split
  · constructor <;> intro _ <;> omega
  · split
    · constructor <;> intro _ <;> omega
    · constructor <;> intro _ <;> omega

/-- C21: for every cache, viewer, aggregate and instant `now`, `shouldIncrementView`
returns true exactly when the cache holds no record under the key of the pair or the
record is at least five minutes before `now`; it returns false exactly when a record
less than five minutes old is held. -/
theorem shouldIncrementView_result (cache : ViewCache) (ip projectID : String) (now : Int) :
    ((shouldIncrementView cache ip projectID now).1 = true ↔
      (cache (cacheKey ip projectID) = none ∨
        ∃ last, cache (cacheKey ip projectID) = some last ∧ last + fiveMinutes ≤ now)) ∧
    ((shouldIncrementView cache ip projectID now).1 = false ↔
      ∃ last, cache (cacheKey ip projectID) = some last ∧ now < last + fiveMinutes) := by
  unfold shouldIncrementView
  cases h : cache (cacheKey ip projectID) with
  | none => simp
  | some last =>
    simp only [Option.some.injEq, exists_eq_left', reduceCtorEq, false_or]
    by_cases hlt : timeSub now last < fiveMinutes
    · have h2 := (timeSub_lt_fiveMinutes now last).mp hlt
      simp only [hlt, if_true, Bool.false_eq_true, false_iff, not_le, true_iff]
      exact ⟨h2, h2⟩
    · have h2 : ¬ now < last + fiveMinutes := fun h3 => hlt ((timeSub_lt_fiveMinutes now last).mpr h3)
      simp only [hlt, if_false, true_iff, Bool.true_eq_false, false_iff]
      exact ⟨not_lt.mp h2, h2⟩

/-- C22: a call that returns true leaves the cache with `now` under the key of the
call and every other key as it was; a call that returns false leaves the whole cache
as it was.  So after a counted view at `t0`, a throttled call at `t1` does not move
the record, and a call at any `t2` at least five minutes after `t0` is counted,
however close to `t1`. -/
theorem shouldIncrementView_cache (cache : ViewCache) (ip projectID : String) (now : Int) :
    ((shouldIncrementView cache ip projectID now).1 = true →
      (shouldIncrementView cache ip projectID now).2 (cacheKey ip projectID) = some now ∧
      ∀ k, k ≠ cacheKey ip projectID →
        (shouldIncrementView cache ip projectID now).2 k = cache k) ∧
    ((shouldIncrementView cache ip projectID now).1 = false →
      (shouldIncrementView cache ip projectID now).2 = cache) ∧
    (∀ t0 t2 : Int, cache (cacheKey ip projectID) = some t0 → now < t0 + fiveMinutes →
      t0 + fiveMinutes ≤ t2 →
      (shouldIncrementView cache ip projectID now).1 = false ∧
      (shouldIncrementView cache ip projectID now).2 (cacheKey ip projectID) = some t0 ∧
      (shouldIncrementView (shouldIncrementView cache ip projectID now).2 ip projectID t2).1
        = true) := by
  have hstore : ∀ t, (cache.store (cacheKey ip projectID) t) (cacheKey ip projectID) = some t ∧
      ∀ k, k ≠ cacheKey ip projectID → (cache.store (cacheKey ip projectID) t) k = cache k := by
    intro t
    refine ⟨by simp [ViewCache.store], ?_⟩
    intro k hk
    simp [ViewCache.store, hk]
  refine ⟨?_, ?_, ?_⟩
  · intro hres
    unfold shouldIncrementView at hres ⊢
    cases h : cache (cacheKey ip projectID) with
    | none => simp only [h]; exact hstore now
    | some last =>
      simp only [h] at hres ⊢
      by_cases hlt : timeSub now last < fiveMinutes
      · simp [hlt] at hres
      · simp only [hlt, if_false]; exact hstore now
  · intro hres
    unfold shouldIncrementView at hres ⊢
    cases h : cache (cacheKey ip projectID) with
    | none => simp [h] at hres
    | some last =>
      simp only [h] at hres ⊢
      by_cases hlt : timeSub now last < fiveMinutes
      · simp only [hlt, if_true]
      · simp [hlt] at hres
  · intro t0 t2 h0 h1 h2
    have hlt : timeSub now t0 < fiveMinutes := (timeSub_lt_fiveMinutes now t0).mpr h1
    have hge : ¬ timeSub t2 t0 < fiveMinutes := fun h3 =>
      absurd ((timeSub_lt_fiveMinutes t2 t0).mp h3) (not_lt.mpr h2)
    have e1 : shouldIncrementView cache ip projectID now = (false, cache) := by
      simp only [shouldIncrementView, h0, hlt, if_true]
    rw [e1]
    refine ⟨rfl, h0, ?_⟩
    simp only [shouldIncrementView, h0, hge, if_false]

/-- Two lists free of `c`, each followed by `c`, are equal when the wholes are. -/
theorem append_cons_split {α : Type} (c : α) :
    ∀ (a b x y : List α), c ∉ a → c ∉ b → a ++ c :: x = b ++ c :: y → a = b ∧ x = y := by
  intro a
  induction a with
  | nil =>
    intro b x y _ hb h
    cases b with
    | nil => simp only [List.nil_append, List.cons.injEq, true_and] at h; exact ⟨rfl, h⟩
    | cons h' t' =>
      simp only [List.nil_append, List.cons_append, List.cons.injEq] at h
      exact absurd (by rw [h.1]; exact List.mem_cons_self _ _) hb
  | cons h t ih =>
    intro b x y ha hb heq
    cases b with
    | nil =>
      simp only [List.nil_append, List.cons_append, List.cons.injEq] at heq
      exact absurd (by rw [heq.1]; exact List.mem_cons_self _ _) ha
    | cons h' t' =>
      simp only [List.cons_append, List.cons.injEq] at heq
      obtain ⟨e1, e2⟩ := ih t' x y (fun hm => ha (List.mem_cons_of_mem _ hm))
        (fun hm => hb (List.mem_cons_of_mem _ hm)) heq.2
      exact ⟨by rw [heq.1, e1], e2⟩

/-- The keys of two pairs whose aggregate ids hold no `:` are equal only for equal
pairs. -/
theorem cacheKey_inj (ip1 pid1 ip2 pid2 : String) (h1 : ':' ∉ pid1.data)
    (h2 : ':' ∉ pid2.data) (hkey : cacheKey ip1 pid1 = cacheKey ip2 pid2) :
    ip1 = ip2 ∧ pid1 = pid2 := by
  have hd := congrArg (fun s : String => s.data.reverse) hkey
  simp only [cacheKey, String.data_append, List.reverse_append] at hd
  simp only [List.reverse_cons, List.reverse_nil, List.nil_append, List.singleton_append] at hd
  obtain ⟨e1, e2⟩ := append_cons_split ':' _ _ _ _ (by simpa using h1) (by simpa using h2) hd
  exact ⟨String.ext (List.reverse_injective e2), String.ext (List.reverse_injective e1)⟩

/-- The result of a call depends on the cache through the record of its key only. -/
theorem shouldIncrementView_congr (c1 c2 : ViewCache) (ip projectID : String) (now : Int)
    (h : c1 (cacheKey ip projectID) = c2 (cacheKey ip projectID)) :
    (shouldIncrementView c1 ip projectID now).1 = (shouldIncrementView c2 ip projectID now).1 := by
  unfold shouldIncrementView
  rw [h]
  cases c2 (cacheKey ip projectID) with
  | none => rfl
  | some last =>
    simp only
    split <;> rfl

/-- C23 (amended): for aggregate ids that hold no `:` (as the ids `UploadPano` draws),
two distinct pairs (viewer, aggregate) have distinct cache keys, so a call for one
pair, counted or not, changes neither the result nor the record of a later call for
the other pair. -/
theorem distinct_pairs_distinct_keys (ip1 pid1 ip2 pid2 : String) (h1 : ':' ∉ pid1.data)
    (h2 : ':' ∉ pid2.data) (hne : (ip1, pid1) ≠ (ip2, pid2)) :
    cacheKey ip1 pid1 ≠ cacheKey ip2 pid2 ∧
    ∀ (cache : ViewCache) (now later : Int),
      (shouldIncrementView cache ip1 pid1 now).2 (cacheKey ip2 pid2)
        = cache (cacheKey ip2 pid2) ∧
      (shouldIncrementView (shouldIncrementView cache ip1 pid1 now).2 ip2 pid2 later).1
        = (shouldIncrementView cache ip2 pid2 later).1 := by
  have hk : cacheKey ip1 pid1 ≠ cacheKey ip2 pid2 := by
    intro h
    obtain ⟨e1, e2⟩ := cacheKey_inj ip1 pid1 ip2 pid2 h1 h2 h
    exact hne (by rw [e1, e2])
  refine ⟨hk, ?_⟩
  intro cache now later
  have hsame : (shouldIncrementView cache ip1 pid1 now).2 (cacheKey ip2 pid2)
      = cache (cacheKey ip2 pid2) := by
    unfold shouldIncrementView
    cases cache (cacheKey ip1 pid1) with
    | none => simp [ViewCache.store, Ne.symm hk]
    | some last =>
      simp only
      split
      · rfl
      · simp [ViewCache.store, Ne.symm hk]
  exact ⟨hsame, shouldIncrementView_congr _ _ ip2 pid2 later hsame⟩


/-- C23, refuted as stated.  The distinct pairs `("a:b", "c")` and `("a", "b:c")`
have the same cache key `a:b:c`: the view of the second pair, counted on an empty
cache, is not counted one nanosecond after a counted view of the first pair. -/
theorem cacheKey_collision :
    (("a:b", "c") : String × String) ≠ ("a", "b:c") ∧
    cacheKey "a:b" "c" = cacheKey "a" "b:c" ∧
    (shouldIncrementView ViewCache.empty "a" "b:c" 1).1 = true ∧
    (shouldIncrementView (shouldIncrementView ViewCache.empty "a:b" "c" 0).2 "a" "b:c" 1).1
      = false := by
  refine ⟨by decide, by decide, by decide, by decide⟩

/-- C23 (amended) for a viewer address holding colons and two ids of UUID shape. -/
theorem distinct_pairs_distinct_keys_witness :
    (':' ∉ demoId.data ∧ ':' ∉ otherId.data ∧
      (("::1", demoId) : String × String) ≠ ("::1", otherId)) ∧
    cacheKey "::1" demoId ≠ cacheKey "::1" otherId :=
  ⟨⟨by decide, by decide, by decide⟩,
   (distinct_pairs_distinct_keys "::1" demoId "::1" otherId (by decide) (by decide)
     (by decide)).1⟩

end ThrottleFacts

end Handlers

namespace Handlers

open Pipeline

section MagicCodeFacts

variable {F : Type}

/-- A code no row holds is counted zero, and conversely. -/
theorem countMagicCode_eq_zero (db : DB) (code : String) :
    db.countMagicCode code = 0 ↔ ∀ p ∈ db.projects, p.magicCode ≠ code := by
  unfold DB.countMagicCode
  rw [List.length_eq_zero, List.filter_eq_nil_iff]
  simp

/-- The loop returns `code` exactly when `code` is the first candidate counted zero. -/
theorem generateUniqueMagicCode_eq_some (db : DB) (cands : List String) (code : String) :
    generateUniqueMagicCode db cands = some code ↔
      ∃ pre post, cands = pre ++ code :: post ∧ (∀ c ∈ pre, db.countMagicCode c ≠ 0) ∧
        db.countMagicCode code = 0 := by
  induction cands with
  | nil => simp [generateUniqueMagicCode]
  | cons c rest ih =>
    simp only [generateUniqueMagicCode]
    by_cases hc : db.countMagicCode c = 0
    · simp only [hc, if_true, Option.some.injEq]
      constructor
      · intro h
        subst h
        exact ⟨[], rest, rfl, by simp, hc⟩
      · rintro ⟨pre, post, heq, hpre, _⟩
        cases pre with
        | nil => simp only [List.nil_append, List.cons.injEq] at heq; exact heq.1
        | cons a pre2 =>
          simp only [List.cons_append, List.cons.injEq] at heq
          exact absurd hc (by rw [heq.1]; exact hpre a (List.mem_cons_self _ _))
    · simp only [hc, if_false, ih]
      constructor
      · rintro ⟨pre, post, heq, hpre, hfree⟩
        refine ⟨c :: pre, post, by rw [heq]; rfl, ?_, hfree⟩
        intro x hx
        rcases List.mem_cons.mp hx with h | h
        · rw [h]; exact hc
        · exact hpre x h
      · rintro ⟨pre, post, heq, hpre, hfree⟩
        cases pre with
        | nil =>
          simp only [List.nil_append, List.cons.injEq] at heq
          exact absurd (by rw [heq.1]; exact hfree) hc
        | cons a pre2 =>
          simp only [List.cons_append, List.cons.injEq] at heq
          exact ⟨pre2, post, heq.2, fun x hx => hpre x (List.mem_cons_of_mem _ hx), hfree⟩

/-- The codes allocated by sequential public uploads are distinct from one another
and from every code held before, and each is held by a row afterwards. -/
theorem allocateAll_fresh : ∀ (reqs : List PublicUpload) (db db2 : DB) (codes : List String),
    allocateAll db reqs = some (codes, db2) →
    codes.Nodup ∧ (∀ c ∈ codes, ∀ p ∈ db.projects, p.magicCode ≠ c) ∧
    (∀ c ∈ codes, ∃ p ∈ db2.projects, p.magicCode = c) ∧
    (∀ p ∈ db.projects, p ∈ db2.projects) ∧ codes.length = reqs.length := by
  intro reqs
  induction reqs with
  | nil =>
    intro db db2 codes h
    simp only [allocateAll, Option.some.injEq, Prod.mk.injEq] at h
    obtain ⟨h1, h2⟩ := h
    subst h1; subst h2
    simp
  | cons u rest ih =>
    intro db db2 codes h
    simp only [allocateAll, createPublicProject] at h
    cases hg : generateUniqueMagicCode db u.candidates with
    | none => simp [hg] at h
    | some code =>
      simp only [hg] at h
      cases hr : allocateAll (db.insertProject (u.row code)) rest with
      | none => simp [hr] at h
      | some res =>
        obtain ⟨codes1, db3⟩ := res
        simp only [hr, Option.some.injEq, Prod.mk.injEq] at h
        obtain ⟨h1, h2⟩ := h
        subst h1; subst h2
        obtain ⟨hnd, hfresh, hheld, hkeep, hlen⟩ := ih _ _ _ hr
        obtain ⟨_, _, _, _, hfree⟩ := (generateUniqueMagicCode_eq_some db u.candidates code).mp hg
        have hfree2 := (countMagicCode_eq_zero db code).mp hfree
        have hnew : ∀ (q : Project), q ∈ (db.insertProject (u.row code)).projects ↔
            q ∈ db.projects ∨ q = u.row code := by
          intro q
          simp [DB.insertProject]
        refine ⟨?_, ?_, ?_, ?_, ?_⟩
        · rw [List.nodup_cons]
          refine ⟨?_, hnd⟩
          intro hin
          exact hfresh code hin _ ((hnew _).mpr (Or.inr rfl)) rfl
        · intro c hc p hp
          rcases List.mem_cons.mp hc with h | h
          · rw [h]; exact hfree2 p hp
          · exact hfresh c h p ((hnew p).mpr (Or.inl hp))
        · intro c hc
          rcases List.mem_cons.mp hc with h | h
          · exact ⟨_, hkeep _ ((hnew _).mpr (Or.inr rfl)), h.symm⟩
          · exact hheld c h
        · intro p hp
          exact hkeep p ((hnew p).mpr (Or.inl hp))
        · simp [hlen]

/-- C24: for every table of projects and every sequence of candidates,
`generateUniqueMagicCode` returns `code` exactly when `code` is the first candidate
that no project holds (so it returns as soon as such a candidate is drawn); the code
returned is held by no project; and the codes of sequential allocations, each
registered by its project row before the next, are pairwise distinct and distinct from
the codes held before. -/
theorem generateUniqueMagicCode_first_free (db : DB) (cands : List String) :
    (∀ code, generateUniqueMagicCode db cands = some code ↔
      ∃ pre post, cands = pre ++ code :: post ∧
        (∀ c ∈ pre, ∃ p ∈ db.projects, p.magicCode = c) ∧
        ∀ p ∈ db.projects, p.magicCode ≠ code) ∧
    (∀ (reqs : List PublicUpload) (codes : List String) (db2 : DB),
      allocateAll db reqs = some (codes, db2) →
      codes.length = reqs.length ∧ codes.Nodup ∧
      ∀ c ∈ codes, ∀ p ∈ db.projects, p.magicCode ≠ c) := by
  constructor
  · intro code
    rw [generateUniqueMagicCode_eq_some]
    constructor
    · rintro ⟨pre, post, heq, hpre, hfree⟩
      refine ⟨pre, post, heq, ?_, (countMagicCode_eq_zero db code).mp hfree⟩
      intro c hc
      have := hpre c hc
      rw [Ne, countMagicCode_eq_zero] at this
      push_neg at this
      exact this
    · rintro ⟨pre, post, heq, hpre, hfree⟩
      refine ⟨pre, post, heq, ?_, (countMagicCode_eq_zero db code).mpr hfree⟩
      intro c hc
      rw [Ne, countMagicCode_eq_zero]
      push_neg
      exact hpre c hc
  · intro reqs codes db2 h
    obtain ⟨hnd, hfresh, _, _, hlen⟩ := allocateAll_fresh reqs db db2 codes h
    exact ⟨hlen, hnd, hfresh⟩


/-- Three public uploads against `codeDB`: candidates held by earlier rows (`AB12`,
`CD34`, then the code just allocated) are passed over. -/
theorem allocateAll_demo :
    (allocateAll codeDB
      [⟨"p4", 7, "d", 1, ["AB12", "EF56"]⟩, ⟨"p5", 7, "e", 1, ["EF56", "CD34", "EF56", "GH78"]⟩,
        ⟨"p6", 7, "f", 1, ["ZZ99"]⟩]).map (fun r => r.1) = some ["EF56", "GH78", "ZZ99"] := by
  decide

/-- C24 on `codeDB`: `AB12` is held, `EF56` is the first candidate no project holds. -/
theorem generateUniqueMagicCode_first_free_witness :
    generateUniqueMagicCode codeDB ["AB12", "EF56", "GH78"] = some "EF56" ∧
    ∃ pre post, ["AB12", "EF56", "GH78"] = pre ++ "EF56" :: post ∧
      (∀ c ∈ pre, ∃ p ∈ codeDB.projects, p.magicCode = c) ∧
      ∀ p ∈ codeDB.projects, p.magicCode ≠ "EF56" :=
  ⟨by decide,
   ((generateUniqueMagicCode_first_free codeDB ["AB12", "EF56", "GH78"]).1 "EF56").mp
     (by decide)⟩

end MagicCodeFacts

end Handlers

namespace Handlers

open Pipeline

section AttemptFacts

variable {F : Type}

/-- C28: if slicing succeeds and an object store is configured, the task adds exactly
eight calls to the upload log, in the order original, the six faces in the order
`posx, negx, posy, negy, posz, negz`, thumbnail, whichever of them the store rejects;
if slicing fails, or no object store is configured, the store and its log are left as
they were. -/
theorem upload_attempts (o : Float64Ops F) (env : Env) (sid pid fpath : String) (w : World) :
    (∀ paths, env.hasR2 = true →
      (SlicePano o env fpath (env.join (env.dir fpath) "cubemap") w.fs).1 = .ok paths →
      (taskSlice o env sid pid fpath w).2.r2.calls.reverse =
        w.r2.calls.reverse ++
          [(pid ++ "/" ++ sid ++ "/original.jpg", fpath, "image/jpeg")] ++
          faces.map (fun n =>
            (pid ++ "/" ++ sid ++ "/cubemap/" ++
                env.base (env.join (env.join (env.dir fpath) "cubemap") (n ++ ".jpg")),
              env.join (env.join (env.dir fpath) "cubemap") (n ++ ".jpg"), "image/jpeg")) ++
          [(pid ++ "/" ++ sid ++ "/thumbnail.jpg",
            env.join (env.dir (env.join (env.dir fpath) "cubemap")) "thumbnail.jpg",
            "image/jpeg")] ∧
      (taskSlice o env sid pid fpath w).2.r2.calls.length = w.r2.calls.length + 8) ∧
    (∀ e, (SlicePano o env fpath (env.join (env.dir fpath) "cubemap") w.fs).1 = .error e →
      (taskSlice o env sid pid fpath w).2.r2 = w.r2) ∧
    (env.hasR2 = false → (taskSlice o env sid pid fpath w).2.r2 = w.r2) := by
  refine ⟨?_, ?_, ?_⟩
  · intro paths hr2 hok
    have hp := (SlicePano_ok_paths o env fpath _ w.fs paths hok).1
    rw [taskSlice_ok_r2 o env sid pid fpath w paths hr2 hok]
    simp only [uploadAndCleanup, UploadFile_calls, uploadFaces_calls]
    subst hp
    constructor
    · simp only [List.reverse_cons, List.reverse_append, List.reverse_reverse, List.map_map,
        List.append_assoc]
      rfl
    · simp [faces]
  · intro e hfail
    rw [taskSlice_error o env sid pid fpath w e hfail]
  · intro hr2
    rw [taskSlice_local o env sid pid fpath w hr2]


/-- C28 where the store rejects every upload: the eight calls are made all the same,
and nothing is stored. -/
theorem upload_attempts_witness :
    rejectingEnv.hasR2 = true ∧
    (taskSlice demoOps rejectingEnv "s1" "p1" demoSource demoWorld).2.r2.calls.reverse.map
        (fun c => c.2.1) =
      ["uploads/p1/s1/original.jpg", "uploads/p1/s1/cubemap/posx.jpg",
        "uploads/p1/s1/cubemap/negx.jpg", "uploads/p1/s1/cubemap/posy.jpg",
        "uploads/p1/s1/cubemap/negy.jpg", "uploads/p1/s1/cubemap/posz.jpg",
        "uploads/p1/s1/cubemap/negz.jpg", "uploads/p1/s1/thumbnail.jpg"] ∧
    (taskSlice demoOps rejectingEnv "s1" "p1" demoSource demoWorld).2.r2.calls.length =
      demoWorld.r2.calls.length + 8 := by
  have h := (upload_attempts demoOps rejectingEnv "s1" "p1" demoSource demoWorld).1 _ rfl
    (show (SlicePano demoOps rejectingEnv demoSource
        (rejectingEnv.join (rejectingEnv.dir demoSource) "cubemap") demoWorld.fs).1 =
      .ok ["uploads/p1/s1/cubemap/posx.jpg", "uploads/p1/s1/cubemap/negx.jpg",
        "uploads/p1/s1/cubemap/posy.jpg", "uploads/p1/s1/cubemap/negy.jpg",
        "uploads/p1/s1/cubemap/posz.jpg", "uploads/p1/s1/cubemap/negz.jpg"] from rfl)
  refine ⟨rfl, ?_, h.2⟩
  rw [h.1]
  decide

/-- The deletion loop on keys of which the first failing one is `key`: the error is
that of `key`, and exactly the objects of the keys before it are gone. -/
theorem deleteKeys_fail_at (api : R2Api) (key : String) (post : List String)
    (hkey : api.deleteFails key = true) :
    ∀ (pre : List String) (st : Store), (∀ x ∈ pre, api.deleteFails x = false) →
      (deleteKeys api (pre ++ key :: post) st).1 = .error (.deleteFailed key) ∧
      ∀ ob, ob ∈ (deleteKeys api (pre ++ key :: post) st).2.objects ↔
        (ob ∈ st.objects ∧ ob.1 ∉ pre) := by
  intro pre
  induction pre with
  | nil =>
    intro st _
    simp only [List.nil_append, deleteKeys, DeleteFile, hkey, if_true, List.not_mem_nil,
      not_false_eq_true, and_true, implies_true]
  | cons x rest ih =>
    intro st hpre
    have hx : api.deleteFails x = false := hpre x (List.mem_cons_self _ _)
    simp only [List.cons_append, deleteKeys, DeleteFile, hx, Bool.false_eq_true, if_false]
    obtain ⟨h1, h2⟩ := ih { st with objects := st.objects.filter (fun ob => ob.1 != x) }
      (fun y hy => hpre y (List.mem_cons_of_mem _ hy))
    refine ⟨h1, ?_⟩
    intro ob
    refine (h2 ob).trans ?_
    simp only [List.mem_filter, bne_iff_ne, ne_eq, List.mem_cons, not_or]
    tauto

/-- C29: when the listing fails `DeleteDirectory` returns that error and the bucket is
as it was; when the deletion of the `k`-th listed key is the first to fail it returns
that error, the objects of the keys listed before are gone, and those of the `k`-th key
and of the keys listed after are all still there; when it returns no error the listing
succeeded and no object of a listed key is left. -/
theorem DeleteDirectory_stops_at_first_failure (api : R2Api) (pre : String) (st : Store) :
    (api.listFails pre = true →
      DeleteDirectory api pre st = (.error (.listFailed pre), st)) ∧
    (∀ (keys : List String) (k : Nat) (key : String), listObjects api st pre = .ok keys →
      keys[k]? = some key → (∀ x ∈ keys.take k, api.deleteFails x = false) →
      api.deleteFails key = true →
      (DeleteDirectory api pre st).1 = .error (.deleteFailed key) ∧
      (∀ ob, ob ∈ (DeleteDirectory api pre st).2.objects ↔
        (ob ∈ st.objects ∧ ob.1 ∉ keys.take k)) ∧
      (∀ ob ∈ st.objects, ob.1 ∈ keys.drop k → ob ∈ (DeleteDirectory api pre st).2.objects)) ∧
    ((DeleteDirectory api pre st).1 = .ok () →
      ∃ keys, listObjects api st pre = .ok keys ∧
        (∀ x ∈ keys, api.deleteFails x = false) ∧
        ∀ ob ∈ (DeleteDirectory api pre st).2.objects, ob ∈ st.objects ∧ ob.1 ∉ keys) := by
  refine ⟨?_, ?_, ?_⟩
  · intro hl
    simp only [DeleteDirectory, listObjects, hl, if_true]
  · intro keys k key hlist hk hbefore hfail
    have hsplit : keys = keys.take k ++ key :: keys.drop (k + 1) := by
      rw [List.getElem?_eq_some] at hk
      obtain ⟨hlt, hget⟩ := hk
      rw [← hget]
      simp
    have hnd : keys.Nodup := by
      unfold listObjects at hlist
      split at hlist
      · cases hlist
      · simp only [Except.ok.injEq] at hlist
        rw [← hlist]
        exact ((keys_nodup st).filter _).sublist (List.take_sublist _ _)
    have hres := deleteKeys_fail_at api key (keys.drop (k + 1)) hfail (keys.take k) st hbefore
    rw [← hsplit] at hres
    have hdd : DeleteDirectory api pre st = deleteKeys api keys st := by
      simp only [DeleteDirectory, hlist]
    rw [hdd]
    refine ⟨hres.1, hres.2, ?_⟩
    intro ob hob hdrop
    rw [hres.2]
    refine ⟨hob, ?_⟩
    intro htake
    have hdisj := (List.nodup_append.mp (by rw [List.take_append_drop]; exact hnd :
      (keys.take k ++ keys.drop k).Nodup)).2.2
    exact hdisj htake hdrop
  · intro hok
    unfold DeleteDirectory at hok ⊢
    cases hlist : listObjects api st pre with
    | error e => simp only [hlist] at hok; cases hok
    | ok keys =>
      simp only [hlist] at hok ⊢
      refine ⟨keys, rfl, ?_, deleteKeys_ok api keys st hok⟩
      intro x hx
      by_contra hne
      have hxf : api.deleteFails x = true := by simpa using hne
      obtain ⟨a, b, hab, hfirst⟩ : ∃ a b, keys = a ++ b ∧
          (∀ y ∈ a, api.deleteFails y = false) ∧ ∃ key rest, b = key :: rest ∧
            api.deleteFails key = true := by
        clear hok hlist
        induction keys with
        | nil => cases hx
        | cons y rest ih =>
          by_cases hy : api.deleteFails y = true
          · exact ⟨[], y :: rest, rfl, by simp, y, rest, rfl, hy⟩
          · rcases List.mem_cons.mp hx with h | h
            · exact absurd (h ▸ hxf) hy
            · obtain ⟨a, b, hab, ha, hb⟩ := ih h
              refine ⟨y :: a, b, by rw [hab]; rfl, ?_, hb⟩
              intro z hz
              rcases List.mem_cons.mp hz with h2 | h2
              · rw [h2]; simpa using hy
              · exact ha z h2
      obtain ⟨ha, key, rest, hb, hkf⟩ := hfirst
      have := (deleteKeys_fail_at api key rest hkf a st ha).1
      rw [← hb, ← hab, hok] at this
      cases this

/-- C29 on a bucket where the second of three listed keys cannot be deleted: the
error is that of `p/b`, `p/a` is gone, `p/b` and `p/c` are still there. -/
theorem DeleteDirectory_stops_at_first_failure_witness :
    listObjects flakyApi smallBucket "p/" = .ok ["p/a", "p/b", "p/c"] ∧
    (DeleteDirectory flakyApi "p/" smallBucket).1 = .error (.deleteFailed "p/b") ∧
    (DeleteDirectory flakyApi "p/" smallBucket).2.objects.map (fun ob => ob.1)
      = ["p/c", "q/a", "p/b"] ∧
    ∀ ob ∈ smallBucket.objects, ob.1 ∈ (["p/a", "p/b", "p/c"] : List String).drop 1 →
      ob ∈ (DeleteDirectory flakyApi "p/" smallBucket).2.objects :=
  ⟨rfl, rfl, by decide,
   ((DeleteDirectory_stops_at_first_failure flakyApi "p/" smallBucket).2.1
     ["p/a", "p/b", "p/c"] 1 "p/b" rfl (by decide) (by decide) (by decide)).2.2⟩

end AttemptFacts

end Handlers

namespace Pipeline

section ProjectorBounds

theorem float64Pi_pos : 0 < float64Pi := by unfold float64Pi; norm_num

theorem float64Pi_quarter_gt : (25 : ℚ) / 32 < float64Pi / 4 := by unfold float64Pi; norm_num

/-- Away from `±1` the stand-in for `math.Atan` stays within `25/32` on `[-1, 1]`. -/
theorem atanUnit_mid (t : ℚ) (h1 : -1 ≤ t) (h2 : t ≤ 1) (hne1 : t ≠ 1) (hne2 : t ≠ -1) :
    -(25 / 32) ≤ atanUnit t ∧ atanUnit t ≤ 25 / 32 := by
  unfold atanUnit
  rw [if_neg hne1, if_neg hne2]
  have hden : (0 : ℚ) < 1 + 28 / 100 * t ^ 2 := by positivity
  constructor
  · rw [le_div_iff₀ hden]
    nlinarith [sq_nonneg (t + 1), sq_nonneg t]
  · rw [div_le_iff₀ hden]
    nlinarith [sq_nonneg (t - 1), sq_nonneg t]

/-- The stand-in for `math.Atan` maps `[-1, 1]` into `[-π/4, π/4]`. -/
theorem atanUnit_bounds (t : ℚ) (h1 : -1 ≤ t) (h2 : t ≤ 1) :
    -(float64Pi / 4) ≤ atanUnit t ∧ atanUnit t ≤ float64Pi / 4 := by
  have hq := float64Pi_quarter_gt
  have hp := float64Pi_pos
  by_cases hne1 : t = 1
  · subst hne1; simp only [atanUnit, if_true]; constructor <;> linarith
  · by_cases hne2 : t = -1
    · subst hne2
      simp only [atanUnit, if_neg (by norm_num : ¬ (-1 : ℚ) = 1), if_true]
      constructor <;> linarith
    · obtain ⟨a, b⟩ := atanUnit_mid t h1 h2 hne1 hne2
      constructor <;> linarith

/-- Strictly below `π/4` for an argument below `1`. -/
theorem atanUnit_lt (t : ℚ) (h1 : -1 ≤ t) (h2 : t < 1) : atanUnit t < float64Pi / 4 := by
  have hq := float64Pi_quarter_gt
  have hp := float64Pi_pos
  by_cases hne2 : t = -1
  · subst hne2
    simp only [atanUnit, if_neg (by norm_num : ¬ (-1 : ℚ) = 1), if_true]
    linarith
  · have := (atanUnit_mid t h1 h2.le (ne_of_lt h2) hne2).2
    linarith

/-- Strictly above `-π/4` for an argument above `-1`. -/
theorem atanUnit_gt (t : ℚ) (h1 : -1 < t) (h2 : t ≤ 1) : -(float64Pi / 4) < atanUnit t := by
  have hq := float64Pi_quarter_gt
  have hp := float64Pi_pos
  by_cases hne1 : t = 1
  · subst hne1; simp only [atanUnit, if_true]; linarith
  · have := (atanUnit_mid t h1.le h2 hne1 (ne_of_gt h1)).1
    linarith

/-- The stand-in for `math.Atan` has the sign of its argument. -/
theorem atanUnit_sign (t : ℚ) :
    (0 ≤ t → 0 ≤ atanUnit t) ∧ (t ≤ 0 → atanUnit t ≤ 0) := by
  have hp := float64Pi_pos
  have hden : (0 : ℚ) < 1 + 28 / 100 * t ^ 2 := by positivity
  unfold atanUnit
  constructor
  · intro h
    split
    · linarith
    · split
      · linarith
      · exact div_nonneg h hden.le
  · intro h
    split
    · linarith
    · split
      · linarith
      · exact div_nonpos_of_nonpos_of_nonneg h hden.le

/-- A quotient of a number by one at least as large in absolute value lies in `[-1, 1]`. -/
theorem div_mem_unit (a b : ℚ) (h : |a| ≤ |b|) (hb : b ≠ 0) : -1 ≤ a / b ∧ a / b ≤ 1 := by
  have h1 : |a / b| ≤ 1 := by
    rw [abs_div]
    exact (div_le_one (abs_pos.mpr hb)).mpr h
  exact abs_le.mp h1

/-- `math.Atan2(+0, x) = π` for `x < 0`, for the stand-in. -/
theorem atan2Approx_zero_neg (x : ℚ) (h : x < 0) : atan2Approx 0 x = float64Pi := by
  unfold atan2Approx
  rw [if_neg (by intro h1; exact h.ne h1.1), if_pos (by simp [abs_nonneg]),
    if_neg (not_lt.mpr h.le), if_pos le_rfl]
  simp [atanUnit]

/-- The stand-in for `math.Atan2` takes its values in `[-π, π]`. -/
theorem atan2Approx_range (y x : ℚ) :
    -float64Pi ≤ atan2Approx y x ∧ atan2Approx y x ≤ float64Pi := by
  have hp := float64Pi_pos
  unfold atan2Approx
  split
  · constructor <;> linarith
  · next h0 =>
    split
    · next hle =>
      have hx0 : x ≠ 0 := by
        intro hx
        apply h0
        refine ⟨hx, ?_⟩
        rw [hx, abs_zero] at hle
        exact abs_eq_zero.mp (le_antisymm hle (abs_nonneg y))
      obtain ⟨d1, d2⟩ := div_mem_unit y x hle hx0
      obtain ⟨b1, b2⟩ := atanUnit_bounds (y / x) d1 d2
      obtain ⟨s1, s2⟩ := atanUnit_sign (y / x)
      split
      · constructor <;> linarith
      · next hxpos =>
        have hxneg : x < 0 := lt_of_le_of_ne (not_lt.mp hxpos) hx0
        split
        · next hy =>
          have := s2 (div_nonpos_of_nonneg_of_nonpos hy hxneg.le)
          constructor <;> linarith
        · next hy =>
          have := s1 (div_nonneg_of_nonpos (not_le.mp hy).le hxneg.le)
          constructor <;> linarith
    · next hgt =>
      have hgt2 : |x| ≤ |y| := (not_le.mp hgt).le
      have hy0 : y ≠ 0 := by
        intro hy
        rw [hy, abs_zero] at hgt
        exact hgt (abs_nonneg x)
      obtain ⟨d1, d2⟩ := div_mem_unit x y hgt2 hy0
      obtain ⟨b1, b2⟩ := atanUnit_bounds (x / y) d1 d2
      split <;> constructor <;> linarith

/-- The stand-in for `math.Atan2` takes its values in `[-π/2, π/2]` when `x ≥ 0`. -/
theorem atan2Approx_right (y x : ℚ) (hx : 0 ≤ x) :
    -(float64Pi / 2) ≤ atan2Approx y x ∧ atan2Approx y x ≤ float64Pi / 2 := by
  have hp := float64Pi_pos
  unfold atan2Approx
  split
  · constructor <;> linarith
  · next h0 =>
    split
    · next hle =>
      have hx0 : x ≠ 0 := by
        intro hx
        apply h0
        refine ⟨hx, ?_⟩
        rw [hx, abs_zero] at hle
        exact abs_eq_zero.mp (le_antisymm hle (abs_nonneg y))
      obtain ⟨d1, d2⟩ := div_mem_unit y x hle hx0
      obtain ⟨b1, b2⟩ := atanUnit_bounds (y / x) d1 d2
      rw [if_pos (lt_of_le_of_ne hx (Ne.symm hx0))]
      constructor <;> linarith
    · next hgt =>
      have hgt2 : |x| ≤ |y| := (not_le.mp hgt).le
      have hy0 : y ≠ 0 := by
        intro hy
        rw [hy, abs_zero] at hgt
        exact hgt (abs_nonneg x)
      obtain ⟨d1, d2⟩ := div_mem_unit x y hgt2 hy0
      obtain ⟨b1, b2⟩ := atanUnit_bounds (x / y) d1 d2
      obtain ⟨s1, s2⟩ := atanUnit_sign (x / y)
      split
      · next hy =>
        have := s1 (div_nonneg hx hy.le)
        constructor <;> linarith
      · next hy =>
        have hyneg : y < 0 := lt_of_le_of_ne (not_lt.mp hy) hy0
        have := s2 (div_nonpos_of_nonneg_of_nonpos hx hyneg.le)
        constructor <;> linarith

/-- For `x > 0` the stand-in for `math.Atan2` is at most `π/4` below the diagonal and
at least `-π/4` above the antidiagonal, strictly when off them. -/
theorem atan2Approx_octant (y x : ℚ) (hx : 0 < x) :
    (-x ≤ y → -(float64Pi / 4) ≤ atan2Approx y x) ∧
    (-x < y → -(float64Pi / 4) < atan2Approx y x) ∧
    (y ≤ x → atan2Approx y x ≤ float64Pi / 4) ∧
    (y < x → atan2Approx y x < float64Pi / 4) := by
  have hp := float64Pi_pos
  have hax : |x| = x := abs_of_pos hx
  unfold atan2Approx
  rw [if_neg (by intro h; exact hx.ne' h.1)]
  by_cases hle : |y| ≤ |x|
  · rw [if_pos hle, if_pos hx]
    obtain ⟨d1, d2⟩ := div_mem_unit y x hle hx.ne'
    obtain ⟨b1, b2⟩ := atanUnit_bounds (y / x) d1 d2
    refine ⟨fun _ => b1, ?_, fun _ => b2, ?_⟩
    · intro h
      apply atanUnit_gt _ _ d2
      rw [lt_div_iff₀ hx]; linarith
    · intro h
      apply atanUnit_lt _ d1
      rw [div_lt_iff₀ hx]; linarith
  · rw [if_neg hle]
    have hgt : |x| < |y| := not_le.mp hle
    have hy0 : y ≠ 0 := by
      intro hy
      rw [hy, abs_zero] at hgt
      exact absurd hgt (not_lt.mpr (abs_nonneg x))
    obtain ⟨d1, d2⟩ := div_mem_unit x y hgt.le hy0
    obtain ⟨b1, b2⟩ := atanUnit_bounds (x / y) d1 d2
    obtain ⟨s1, s2⟩ := atanUnit_sign (x / y)
    rw [hax] at hgt
    by_cases hy : 0 < y
    · rw [if_pos hy]
      have hyx : x < y := by rwa [abs_of_pos hy] at hgt
      refine ⟨fun _ => by linarith, fun _ => by linarith, fun h => by linarith,
        fun h => by linarith⟩
    · rw [if_neg hy]
      have hyneg : y < 0 := lt_of_le_of_ne (not_lt.mp hy) hy0
      have hyx : x < -y := by rwa [abs_of_neg hyneg] at hgt
      have := s2 (div_nonpos_of_nonneg_of_nonpos hx.le hyneg.le)
      refine ⟨fun h => by linarith, fun h => by linarith, fun _ => by linarith,
        fun _ => by linarith⟩

/-- The stand-in for `math.Sqrt` is never negative. -/
theorem sqrtApprox_nonneg (q : ℚ) : 0 ≤ sqrtApprox q := by
  unfold sqrtApprox
  split
  · exact le_rfl
  · positivity

/-- The stand-in for `math.Sqrt` is at least `1` on arguments at least `1`. -/
theorem sqrtApprox_one_le (q : ℚ) (h : 1 ≤ q) : 1 ≤ sqrtApprox q := by
  unfold sqrtApprox
  rw [if_neg (by linarith)]
  have hden : (0 : ℚ) < (q.den : ℚ) * 2 ^ 20 := by
    have : (0 : ℚ) < (q.den : ℚ) := by exact_mod_cast q.den_pos
    positivity
  rw [le_div_iff₀ hden, one_mul]
  have hnum : (q.den : Int) ≤ q.num := by
    have := Rat.num_div_den q
    have hd : (0 : ℚ) < (q.den : ℚ) := by exact_mod_cast q.den_pos
    have h2 : (1 : ℚ) ≤ (q.num : ℚ) / (q.den : ℚ) := by rw [this]; exact h
    rw [le_div_iff₀ hd, one_mul] at h2
    exact_mod_cast h2
  have hnat : q.den ≤ q.num.toNat := by omega
  have hsq : q.den * 2 ^ 20 ≤ Nat.sqrt (q.num.toNat * q.den * 4 ^ 20) := by
    rw [Nat.le_sqrt]
    have e : (4 : Nat) ^ 20 = 2 ^ 20 * 2 ^ 20 := by norm_num
    rw [e]
    calc q.den * 2 ^ 20 * (q.den * 2 ^ 20) = q.den * q.den * (2 ^ 20 * 2 ^ 20) := by ring
      _ ≤ q.num.toNat * q.den * (2 ^ 20 * 2 ^ 20) :=
        Nat.mul_le_mul_right _ (Nat.mul_le_mul_right _ hnat)
  exact_mod_cast hsq

/-- The colour read for a destination pixel is the source pixel at the converted
sample coordinates. -/
theorem sampleColor_eq {F : Type} (o : Float64Ops F) (input : Image) (face : Int)
    (s x y : Nat) :
    sampleColor o input face s x y =
      input.At (o.toInt (sampleX o input face s x y)) (o.toInt (sampleY o input face s x y)) :=
  rfl

/-- In exact arithmetic `u = 2x/s - 1`. -/
theorem ndc_exact (atan2 : ℚ → ℚ → ℚ) (sqrt : ℚ → ℚ) (pi : ℚ) (x s : Nat) :
    ndc (exactOps atan2 sqrt pi) x s = 2 * (x : ℚ) / (s : ℚ) - 1 := by
  simp [ndc, exactOps]

/-- For a destination pixel, `u` lies in `[-1, 1)`. -/
theorem ndc_range (atan2 : ℚ → ℚ → ℚ) (sqrt : ℚ → ℚ) (pi : ℚ) (x s : Nat) (hx : x < s) :
    -1 ≤ ndc (exactOps atan2 sqrt pi) x s ∧ ndc (exactOps atan2 sqrt pi) x s < 1 := by
  rw [ndc_exact]
  have hs : (0 : ℚ) < (s : ℚ) := by exact_mod_cast (Nat.zero_lt_of_lt hx)
  have hxs : (x : ℚ) < (s : ℚ) := by exact_mod_cast hx
  have hx0 : (0 : ℚ) ≤ (x : ℚ) := by positivity
  constructor
  · have : (0 : ℚ) ≤ 2 * (x : ℚ) / (s : ℚ) := by positivity
    linarith
  · have : 2 * (x : ℚ) / (s : ℚ) < 2 := by
      rw [div_lt_iff₀ hs]; linarith
    linarith

/-- The conversion of a coordinate in `[0, n]` is an integer in `[0, n]`. -/
theorem goInt_range (q : ℚ) (n : Nat) (h0 : 0 ≤ q) (h1 : q ≤ n) :
    0 ≤ goInt q ∧ goInt q ≤ n := by
  rw [goInt_of_nonneg q h0]
  constructor
  · exact Int.floor_nonneg.mpr h0
  · have := Int.floor_le q
    have h2 : ((⌊q⌋ : Int) : ℚ) ≤ ((n : Int) : ℚ) := by
      rw [Int.cast_natCast]; linarith
    exact_mod_cast h2

/-- From a bound on the angle to the bounds on `srcX`. -/
theorem srcX_bounds (pi phi lo hi : ℚ) (w : Nat) (hpi : 0 < pi)
    (h1 : lo * (2 * pi) ≤ phi) (h2 : phi ≤ hi * (2 * pi)) :
    (lo + 1 / 2) * w ≤ (phi / (2 * pi) + 1 / 2) * w ∧
    (phi / (2 * pi) + 1 / 2) * w ≤ (hi + 1 / 2) * w := by
  have h2pi : (0 : ℚ) < 2 * pi := by linarith
  have hw : (0 : ℚ) ≤ (w : ℚ) := by positivity
  have a1 : lo ≤ phi / (2 * pi) := by rw [le_div_iff₀ h2pi]; exact h1
  have a2 : phi / (2 * pi) ≤ hi := by rw [div_le_iff₀ h2pi]; exact h2
  constructor
  · exact mul_le_mul_of_nonneg_right (by linarith) hw
  · exact mul_le_mul_of_nonneg_right (by linarith) hw

/-- From a bound on the angle to the bounds on `srcY`. -/
theorem srcY_bounds (pi theta lo hi : ℚ) (h : Nat) (hpi : 0 < pi)
    (h1 : lo * pi ≤ theta) (h2 : theta ≤ hi * pi) :
    (1 / 2 - hi) * h ≤ (1 / 2 - theta / pi) * h ∧
    (1 / 2 - theta / pi) * h ≤ (1 / 2 - lo) * h := by
  have hh : (0 : ℚ) ≤ (h : ℚ) := by positivity
  have a1 : lo ≤ theta / pi := by rw [le_div_iff₀ hpi]; exact h1
  have a2 : theta / pi ≤ hi := by rw [div_le_iff₀ hpi]; exact h2
  constructor
  · exact mul_le_mul_of_nonneg_right (by linarith) hh
  · exact mul_le_mul_of_nonneg_right (by linarith) hh

/-- In exact arithmetic `srcX = (phi/(2π) + 1/2) W`. -/
theorem srcXOf_exact (atan2 : ℚ → ℚ → ℚ) (sqrt : ℚ → ℚ) (pi phi : ℚ) (w : Nat) :
    srcXOf (exactOps atan2 sqrt pi) phi w = (phi / (2 * pi) + 1 / 2) * w := by
  simp [srcXOf, exactOps]

/-- In exact arithmetic `srcY = (1/2 - theta/π) H`. -/
theorem srcYOf_exact (atan2 : ℚ → ℚ → ℚ) (sqrt : ℚ → ℚ) (pi theta : ℚ) (h : Nat) :
    srcYOf (exactOps atan2 sqrt pi) theta h = (1 / 2 - theta / pi) * h := by
  simp [srcYOf, exactOps]

/-- An angle in `[-π, π]` gives `srcX` in `[0, W]`. -/
theorem srcXOf_range (atan2 : ℚ → ℚ → ℚ) (sqrt : ℚ → ℚ) (pi phi : ℚ) (w : Nat) (hpi : 0 < pi)
    (h : -pi ≤ phi ∧ phi ≤ pi) :
    0 ≤ srcXOf (exactOps atan2 sqrt pi) phi w ∧ srcXOf (exactOps atan2 sqrt pi) phi w ≤ w := by
  rw [srcXOf_exact]
  have := srcX_bounds pi phi (-(1 / 2)) (1 / 2) w hpi (by linarith [h.1]) (by linarith [h.2])
  constructor
  · linarith [this.1]
  · linarith [this.2]

/-- An angle in `[-π/2, π/2]` gives `srcY` in `[0, H]`. -/
theorem srcYOf_range (atan2 : ℚ → ℚ → ℚ) (sqrt : ℚ → ℚ) (pi theta : ℚ) (h : Nat)
    (hpi : 0 < pi) (hth : -(pi / 2) ≤ theta ∧ theta ≤ pi / 2) :
    0 ≤ srcYOf (exactOps atan2 sqrt pi) theta h ∧ srcYOf (exactOps atan2 sqrt pi) theta h ≤ h := by
  rw [srcYOf_exact]
  have := srcY_bounds pi theta (-(1 / 2)) (1 / 2) h hpi (by linarith [hth.1]) (by linarith [hth.2])
  constructor
  · linarith [this.1]
  · linarith [this.2]

/-- C26: in exact arithmetic, `math.Atan2` taking its values in `[-π, π]`, and in
`[-π/2, π/2]` for a second argument that is not negative, and `math.Sqrt` being never
negative, for every source, every face index, every face size and every destination
pixel the sample coordinates satisfy `0 ≤ srcX ≤ W` and `0 ≤ srcY ≤ H`; the integer
coordinates read are in `0..W` and `0..H`: never negative, at most one past the last
column and row. -/
theorem sample_coordinates_range (atan2 : ℚ → ℚ → ℚ) (sqrt : ℚ → ℚ) (pi : ℚ) (input : Image)
    (face : Int) (s x y : Nat) (hx : x < s) (hy : y < s) (hpi : 0 < pi)
    (hrange : ∀ a b, -pi ≤ atan2 a b ∧ atan2 a b ≤ pi)
    (hright : ∀ a b, 0 ≤ b → -(pi / 2) ≤ atan2 a b ∧ atan2 a b ≤ pi / 2)
    (hsqrt : ∀ t, 0 ≤ sqrt t) :
    (0 ≤ sampleX (exactOps atan2 sqrt pi) input face s x y ∧
      sampleX (exactOps atan2 sqrt pi) input face s x y ≤ input.width) ∧
    (0 ≤ sampleY (exactOps atan2 sqrt pi) input face s x y ∧
      sampleY (exactOps atan2 sqrt pi) input face s x y ≤ input.height) ∧
    (0 ≤ (exactOps atan2 sqrt pi).toInt (sampleX (exactOps atan2 sqrt pi) input face s x y) ∧
      (exactOps atan2 sqrt pi).toInt (sampleX (exactOps atan2 sqrt pi) input face s x y)
        ≤ input.width) ∧
    (0 ≤ (exactOps atan2 sqrt pi).toInt (sampleY (exactOps atan2 sqrt pi) input face s x y) ∧
      (exactOps atan2 sqrt pi).toInt (sampleY (exactOps atan2 sqrt pi) input face s x y)
        ≤ input.height) ∧
    (ExtractFace (exactOps atan2 sqrt pi) input face s).At x y =
      input.At
        ((exactOps atan2 sqrt pi).toInt (sampleX (exactOps atan2 sqrt pi) input face s x y))
        ((exactOps atan2 sqrt pi).toInt (sampleY (exactOps atan2 sqrt pi) input face s x y)) := by
  have hX : 0 ≤ sampleX (exactOps atan2 sqrt pi) input face s x y ∧
      sampleX (exactOps atan2 sqrt pi) input face s x y ≤ input.width :=
    srcXOf_range atan2 sqrt pi _ input.width hpi (hrange _ _)
  have hY : 0 ≤ sampleY (exactOps atan2 sqrt pi) input face s x y ∧
      sampleY (exactOps atan2 sqrt pi) input face s x y ≤ input.height :=
    srcYOf_range atan2 sqrt pi _ input.height hpi (hright _ _ (hsqrt _))
  refine ⟨hX, hY, goInt_range _ _ hX.1 hX.2, goInt_range _ _ hY.1 hY.2, ?_⟩
  rw [ExtractFace_At _ input face s x y hx hy, sampleColor_eq]

/-- In exact arithmetic the direction of face 4 is `(u, -v, 1)`. -/
theorem faceDirection_front (atan2 : ℚ → ℚ → ℚ) (sqrt : ℚ → ℚ) (pi u v : ℚ) :
    faceDirection (exactOps atan2 sqrt pi) 4 u v = (u, -v, 1) := by
  simp [faceDirection, exactOps]

/-- In exact arithmetic the direction of face 2 is `(u, 1, v)`. -/
theorem faceDirection_top (atan2 : ℚ → ℚ → ℚ) (sqrt : ℚ → ℚ) (pi u v : ℚ) :
    faceDirection (exactOps atan2 sqrt pi) 2 u v = (u, 1, v) := by
  simp [faceDirection, exactOps]

/-- The conversion of a non-negative coordinate is within one below it. -/
theorem goInt_near (q : ℚ) (h0 : 0 ≤ q) : ((goInt q : Int) : ℚ) ≤ q ∧ q - 1 < ((goInt q : Int) : ℚ) := by
  rw [goInt_of_nonneg q h0]
  exact ⟨Int.floor_le q, Int.sub_one_lt_floor q⟩

/-- C27: in exact arithmetic, `math.Atan2(a, b)` for `b > 0` being at least `-π/4` when
`a ≥ -b` and at most `π/4` when `a ≤ b`, strictly for strict inequalities, and
`math.Sqrt` being at least `1` on arguments at least `1`, for every source of width
`W > 0` and height `H > 0`, every face size and every destination pixel of face 4 the
sample coordinates satisfy `3W/8 ≤ srcX < 5W/8` and `H/4 ≤ srcY < 3H/4`; the column
and row read are below `5W/8` and `3H/4` and above `3W/8 - 1` and `H/4 - 1`. -/
theorem front_face_window (atan2 : ℚ → ℚ → ℚ) (sqrt : ℚ → ℚ) (pi : ℚ) (input : Image)
    (s x y : Nat) (hx : x < s) (hy : y < s) (hW : 0 < input.width) (hH : 0 < input.height)
    (hpi : 0 < pi)
    (hlow : ∀ a b, 0 < b → -b ≤ a → -(pi / 4) ≤ atan2 a b)
    (hlowS : ∀ a b, 0 < b → -b < a → -(pi / 4) < atan2 a b)
    (hhigh : ∀ a b, 0 < b → a ≤ b → atan2 a b ≤ pi / 4)
    (hhighS : ∀ a b, 0 < b → a < b → atan2 a b < pi / 4)
    (hsqrt : ∀ t, 1 ≤ t → 1 ≤ sqrt t) :
    (3 * (input.width : ℚ) / 8 ≤ sampleX (exactOps atan2 sqrt pi) input 4 s x y ∧
      sampleX (exactOps atan2 sqrt pi) input 4 s x y < 5 * (input.width : ℚ) / 8) ∧
    ((input.height : ℚ) / 4 ≤ sampleY (exactOps atan2 sqrt pi) input 4 s x y ∧
      sampleY (exactOps atan2 sqrt pi) input 4 s x y < 3 * (input.height : ℚ) / 4) ∧
    (3 * (input.width : ℚ) / 8 - 1 <
        (((exactOps atan2 sqrt pi).toInt (sampleX (exactOps atan2 sqrt pi) input 4 s x y) : Int) : ℚ) ∧
      (((exactOps atan2 sqrt pi).toInt (sampleX (exactOps atan2 sqrt pi) input 4 s x y) : Int) : ℚ)
        < 5 * (input.width : ℚ) / 8) ∧
    ((input.height : ℚ) / 4 - 1 <
        (((exactOps atan2 sqrt pi).toInt (sampleY (exactOps atan2 sqrt pi) input 4 s x y) : Int) : ℚ) ∧
      (((exactOps atan2 sqrt pi).toInt (sampleY (exactOps atan2 sqrt pi) input 4 s x y) : Int) : ℚ)
        < 3 * (input.height : ℚ) / 4) := by
  obtain ⟨u1, u2⟩ := ndc_range atan2 sqrt pi x s hx
  obtain ⟨v1, v2⟩ := ndc_range atan2 sqrt pi y s hy
  have hw : (0 : ℚ) < (input.width : ℚ) := by exact_mod_cast hW
  have hh : (0 : ℚ) < (input.height : ℚ) := by exact_mod_cast hH
  have h2pi : (0 : ℚ) < 2 * pi := by linarith
  set u := ndc (exactOps atan2 sqrt pi) x s with hu
  set v := ndc (exactOps atan2 sqrt pi) y s with hv
  have eX : sampleX (exactOps atan2 sqrt pi) input 4 s x y
      = (atan2 u 1 / (2 * pi) + 1 / 2) * input.width := by
    simp only [sampleX, ← hu, ← hv, faceDirection_front, phiOf, srcXOf_exact]
    rfl
  have eY : sampleY (exactOps atan2 sqrt pi) input 4 s x y
      = (1 / 2 - atan2 (-v) (sqrt (u * u + 1 * 1)) / pi) * input.height := by
    simp only [sampleY, ← hu, ← hv, faceDirection_front, thetaOf, srcYOf_exact]
    rfl
  have hr : 1 ≤ sqrt (u * u + 1 * 1) := hsqrt _ (by nlinarith [mul_self_nonneg u])
  have p1 := hlow u 1 one_pos (by linarith)
  have p2 := hhighS u 1 one_pos u2
  have t1 := hlowS (-v) (sqrt (u * u + 1 * 1)) (by linarith) (by linarith)
  have t2 := hhigh (-v) (sqrt (u * u + 1 * 1)) (by linarith) (by linarith)
  have a1 : -(1 / 8 : ℚ) ≤ atan2 u 1 / (2 * pi) := by
    rw [le_div_iff₀ h2pi]; linarith
  have a2 : atan2 u 1 / (2 * pi) < 1 / 8 := by
    rw [div_lt_iff₀ h2pi]; linarith
  have b1 : -(1 / 4 : ℚ) < atan2 (-v) (sqrt (u * u + 1 * 1)) / pi := by
    rw [lt_div_iff₀ hpi]; linarith
  have b2 : atan2 (-v) (sqrt (u * u + 1 * 1)) / pi ≤ 1 / 4 := by
    rw [div_le_iff₀ hpi]; linarith
  have hX : 3 * (input.width : ℚ) / 8 ≤ sampleX (exactOps atan2 sqrt pi) input 4 s x y ∧
      sampleX (exactOps atan2 sqrt pi) input 4 s x y < 5 * (input.width : ℚ) / 8 := by
    rw [eX]
    constructor
    · have := mul_le_mul_of_nonneg_right
        (show (3 / 8 : ℚ) ≤ atan2 u 1 / (2 * pi) + 1 / 2 by linarith) hw.le
      linarith
    · have := mul_lt_mul_of_pos_right
        (show atan2 u 1 / (2 * pi) + 1 / 2 < (5 / 8 : ℚ) by linarith) hw
      linarith
  have hY : (input.height : ℚ) / 4 ≤ sampleY (exactOps atan2 sqrt pi) input 4 s x y ∧
      sampleY (exactOps atan2 sqrt pi) input 4 s x y < 3 * (input.height : ℚ) / 4 := by
    rw [eY]
    constructor
    · have := mul_le_mul_of_nonneg_right
        (show (1 / 4 : ℚ) ≤ 1 / 2 - atan2 (-v) (sqrt (u * u + 1 * 1)) / pi by linarith) hh.le
      linarith
    · have := mul_lt_mul_of_pos_right
        (show 1 / 2 - atan2 (-v) (sqrt (u * u + 1 * 1)) / pi < (3 / 4 : ℚ) by linarith) hh
      linarith
  have nX := goInt_near (sampleX (exactOps atan2 sqrt pi) input 4 s x y) (by linarith [hX.1])
  have nY := goInt_near (sampleY (exactOps atan2 sqrt pi) input 4 s x y) (by linarith [hY.1])
  refine ⟨hX, hY, ⟨?_, ?_⟩, ⟨?_, ?_⟩⟩
  · exact lt_of_le_of_lt (by linarith [hX.1]) nX.2
  · exact lt_of_le_of_lt nX.1 hX.2
  · exact lt_of_le_of_lt (by linarith [hY.1]) nY.2
  · exact lt_of_le_of_lt nY.1 hY.2

/-- C25: in exact arithmetic with `math.Atan2(0, b) = π` for `b < 0`, for every source
of width `W`, every even face size `s` and every row `y < s/2`, the destination pixel
`(s/2, y)` of face 2 has `srcX = W`: the column read is `W`, outside the bounds of the
source, and the pixel written is the zero colour that `At` returns there.  No clamping
takes place. -/
theorem top_face_reads_past_last_column (atan2 : ℚ → ℚ → ℚ) (sqrt : ℚ → ℚ) (pi : ℚ)
    (input : Image) (s y : Nat) (heven : s % 2 = 0) (hy : 2 * y < s) (hpi : 0 < pi)
    (hatan : ∀ b, b < 0 → atan2 0 b = pi) :
    sampleX (exactOps atan2 sqrt pi) input 2 s (s / 2) y = input.width ∧
    (exactOps atan2 sqrt pi).toInt (sampleX (exactOps atan2 sqrt pi) input 2 s (s / 2) y)
      = input.width ∧
    input.inBounds
      ((exactOps atan2 sqrt pi).toInt (sampleX (exactOps atan2 sqrt pi) input 2 s (s / 2) y))
      ((exactOps atan2 sqrt pi).toInt (sampleY (exactOps atan2 sqrt pi) input 2 s (s / 2) y))
      = false ∧
    (ExtractFace (exactOps atan2 sqrt pi) input 2 s).At ((s / 2 : Nat) : Int) (y : Int)
      = Color.zero := by
  have hs : 0 < s := by omega
  have hsq : (0 : ℚ) < (s : ℚ) := by exact_mod_cast hs
  have hu : ndc (exactOps atan2 sqrt pi) (s / 2) s = 0 := by
    rw [ndc_exact]
    have h2 : ((s / 2 : Nat) : ℚ) * 2 = (s : ℚ) := by
      have := Nat.div_mul_cancel (Nat.dvd_of_mod_eq_zero heven)
      exact_mod_cast this
    field_simp
    linarith
  have hv : ndc (exactOps atan2 sqrt pi) y s < 0 := by
    rw [ndc_exact]
    have hys : 2 * (y : ℚ) < (s : ℚ) := by exact_mod_cast hy
    have : 2 * (y : ℚ) / (s : ℚ) < 1 := by rw [div_lt_iff₀ hsq]; linarith
    linarith
  have eX : sampleX (exactOps atan2 sqrt pi) input 2 s (s / 2) y = input.width := by
    simp only [sampleX, hu, faceDirection_top, phiOf, srcXOf_exact]
    show (atan2 0 (ndc (exactOps atan2 sqrt pi) y s) / (2 * pi) + 1 / 2) * (input.width : ℚ) = _
    rw [hatan _ hv]
    field_simp
    ring
  have eI : (exactOps atan2 sqrt pi).toInt
      (sampleX (exactOps atan2 sqrt pi) input 2 s (s / 2) y) = input.width := by
    rw [eX]
    show goInt ((input.width : ℚ)) = _
    rw [goInt_of_nonneg _ (by positivity)]
    exact Int.floor_natCast _
  have hB : input.inBounds
      ((exactOps atan2 sqrt pi).toInt (sampleX (exactOps atan2 sqrt pi) input 2 s (s / 2) y))
      ((exactOps atan2 sqrt pi).toInt (sampleY (exactOps atan2 sqrt pi) input 2 s (s / 2) y))
      = false := by
    rw [eI]
    simp [Image.inBounds]
  refine ⟨eX, eI, hB, ?_⟩
  rw [ExtractFace_At _ input 2 s (s / 2) y (Nat.div_lt_self hs (by norm_num)) (by omega),
    sampleColor_eq]
  simp only [Image.At, hB, Bool.false_eq_true, if_false]

/-- C26 with the stand-ins for `math.Atan2` and `math.Sqrt`, at face 4 of size 2,
destination pixel `(0, 1)`, a `10 × 4` source. -/
theorem sample_coordinates_range_witness :
    (0 < 2 ∧ 1 < 2 ∧ 0 < float64Pi ∧
      (∀ a b, -float64Pi ≤ atan2Approx a b ∧ atan2Approx a b ≤ float64Pi) ∧
      (∀ a b, 0 ≤ b → -(float64Pi / 2) ≤ atan2Approx a b ∧ atan2Approx a b ≤ float64Pi / 2) ∧
      ∀ t, 0 ≤ sqrtApprox t) ∧
    (0 ≤ sampleX (exactOps atan2Approx sqrtApprox float64Pi) (gradient 10 4) 4 2 0 1 ∧
      sampleX (exactOps atan2Approx sqrtApprox float64Pi) (gradient 10 4) 4 2 0 1
        ≤ ((gradient 10 4).width : ℚ)) ∧
    (0 ≤ sampleY (exactOps atan2Approx sqrtApprox float64Pi) (gradient 10 4) 4 2 0 1 ∧
      sampleY (exactOps atan2Approx sqrtApprox float64Pi) (gradient 10 4) 4 2 0 1
        ≤ ((gradient 10 4).height : ℚ)) :=
  ⟨⟨by decide, by decide, float64Pi_pos, atan2Approx_range, atan2Approx_right,
      sqrtApprox_nonneg⟩,
   (sample_coordinates_range atan2Approx sqrtApprox float64Pi (gradient 10 4) 4 2 0 1
     (by decide) (by decide) float64Pi_pos atan2Approx_range atan2Approx_right
     sqrtApprox_nonneg).1,
   (sample_coordinates_range atan2Approx sqrtApprox float64Pi (gradient 10 4) 4 2 0 1
     (by decide) (by decide) float64Pi_pos atan2Approx_range atan2Approx_right
     sqrtApprox_nonneg).2.1⟩

/-- C27 with the stand-ins for `math.Atan2` and `math.Sqrt`, at face 4 of size 2,
destination pixel `(0, 1)`, a `10 × 4` source. -/
theorem front_face_window_witness :
    (0 < 2 ∧ 1 < 2 ∧ 0 < (gradient 10 4).width ∧ 0 < (gradient 10 4).height ∧
      0 < float64Pi ∧ ∀ t, 1 ≤ t → 1 ≤ sqrtApprox t) ∧
    (3 * ((gradient 10 4).width : ℚ) / 8
        ≤ sampleX (exactOps atan2Approx sqrtApprox float64Pi) (gradient 10 4) 4 2 0 1 ∧
      sampleX (exactOps atan2Approx sqrtApprox float64Pi) (gradient 10 4) 4 2 0 1
        < 5 * ((gradient 10 4).width : ℚ) / 8) ∧
    (((gradient 10 4).height : ℚ) / 4
        ≤ sampleY (exactOps atan2Approx sqrtApprox float64Pi) (gradient 10 4) 4 2 0 1 ∧
      sampleY (exactOps atan2Approx sqrtApprox float64Pi) (gradient 10 4) 4 2 0 1
        < 3 * ((gradient 10 4).height : ℚ) / 4) :=
  ⟨⟨by decide, by decide, by decide, by decide, float64Pi_pos, sqrtApprox_one_le⟩,
   (front_face_window atan2Approx sqrtApprox float64Pi (gradient 10 4) 2 0 1
     (by decide) (by decide) (by decide) (by decide) float64Pi_pos
     (fun a b hb h => (atan2Approx_octant a b hb).1 h)
     (fun a b hb h => (atan2Approx_octant a b hb).2.1 h)
     (fun a b hb h => (atan2Approx_octant a b hb).2.2.1 h)
     (fun a b hb h => (atan2Approx_octant a b hb).2.2.2 h)
     sqrtApprox_one_le).1,
   (front_face_window atan2Approx sqrtApprox float64Pi (gradient 10 4) 2 0 1
     (by decide) (by decide) (by decide) (by decide) float64Pi_pos
     (fun a b hb h => (atan2Approx_octant a b hb).1 h)
     (fun a b hb h => (atan2Approx_octant a b hb).2.1 h)
     (fun a b hb h => (atan2Approx_octant a b hb).2.2.1 h)
     (fun a b hb h => (atan2Approx_octant a b hb).2.2.2 h)
     sqrtApprox_one_le).2.1⟩

/-- C25 with the stand-in for `math.Atan2`: face 2 of size 2, destination pixel
`(1, 0)`, an `8 × 4` source: the column read is `8`, and the pixel written is the zero
colour, which no pixel of the source holds. -/
theorem top_face_reads_past_last_column_witness :
    (2 % 2 = 0 ∧ 2 * 0 < 2 ∧ 0 < float64Pi ∧ ∀ b, b < 0 → atan2Approx 0 b = float64Pi) ∧
    (exactOps atan2Approx sqrtApprox float64Pi).toInt
        (sampleX (exactOps atan2Approx sqrtApprox float64Pi) (gradient 8 4) 2 2 (2 / 2) 0)
      = ((gradient 8 4).width : Int) ∧
    (ExtractFace (exactOps atan2Approx sqrtApprox float64Pi) (gradient 8 4) 2 2).At
        ((2 / 2 : Nat) : Int) ((0 : Nat) : Int) = Color.zero ∧
    ∀ i j : Int, (gradient 8 4).pix i j ≠ Color.zero :=
  ⟨⟨by decide, by decide, float64Pi_pos, atan2Approx_zero_neg⟩,
   (top_face_reads_past_last_column atan2Approx sqrtApprox float64Pi (gradient 8 4) 2 0
     (by decide) (by decide) float64Pi_pos atan2Approx_zero_neg).2.1,
   (top_face_reads_past_last_column atan2Approx sqrtApprox float64Pi (gradient 8 4) 2 0
     (by decide) (by decide) float64Pi_pos atan2Approx_zero_neg).2.2.2,
   fun i j h => by
     have := congrArg Color.a h
     simp [gradient, Color.zero] at this⟩

end ProjectorBounds

end Pipeline

namespace Handlers

open Pipeline

section MagicCodeUpdate

variable {F : Type}

/-- The row found for `id` has that id. -/
theorem find_project_id (db : DB) (id : String) (project : Project)
    (h : db.projects.find? (fun p => decide (p.id = id)) = some project) : project.id = id := by
  have := List.find?_some h
  simpa using this

/-- After an accepted `UPDATE`, the project written holds the code written. -/
theorem writeProject_magicCode_self (db : DB) (id : String) (project p2 : Project)
    (hfind : db.projects.find? (fun p => decide (p.id = id)) = some project)
    (hid : p2.id = id) :
    (db.writeProject p2).magicCode id = some p2.magicCode := by
  unfold DB.magicCode DB.writeProject
  simp only
  generalize db.projects = l at hfind
  induction l with
  | nil => simp at hfind
  | cons q rest ih =>
    simp only [List.map_cons]
    by_cases hq : q.id = id
    · have hq2 : q.id = p2.id := by rw [hq, hid]
      simp only [hq2, if_true]
      rw [List.find?_cons_of_pos _ (by simp [hid])]
      rfl
    · have hq2 : ¬ q.id = p2.id := by rw [hid]; exact hq
      simp only [hq2, if_false]
      rw [List.find?_cons_of_neg _ (by simp [hq])]
      rw [List.find?_cons_of_neg _ (by simp [hq])] at hfind
      exact ih hfind

/-- An accepted `UPDATE` leaves the code of every other project as it was. -/
theorem writeProject_magicCode_other (db : DB) (p2 : Project) (id2 : String)
    (hne : id2 ≠ p2.id) :
    (db.writeProject p2).magicCode id2 = db.magicCode id2 := by
  unfold DB.magicCode DB.writeProject
  simp only
  induction db.projects with
  | nil => rfl
  | cons q rest ih =>
    simp only [List.map_cons]
    by_cases hq : q.id = p2.id
    · have hq3 : ¬ q.id = id2 := by rw [hq]; exact fun h => hne h.symm
      have hq4 : ¬ p2.id = id2 := fun h => hne h.symm
      simp only [hq, if_true]
      rw [List.find?_cons_of_neg _ (by simp [hq4]), List.find?_cons_of_neg _ (by simp [hq3])]
      simpa [hq] using ih
    · simp only [hq, if_false]
      by_cases hq2 : q.id = id2
      · rw [List.find?_cons_of_pos _ (by simp [hq2]), List.find?_cons_of_pos _ (by simp [hq2])]
      · rw [List.find?_cons_of_neg _ (by simp [hq2]), List.find?_cons_of_neg _ (by simp [hq2])]
        exact ih

/-- `Save`, accepted or not, leaves the code of every other project as it was. -/
theorem saveProject_magicCode_other (db : DB) (p2 : Project) (id2 : String)
    (hne : id2 ≠ p2.id) :
    (db.saveProject p2).magicCode id2 = db.magicCode id2 := by
  unfold DB.saveProject
  split
  · rfl
  · exact writeProject_magicCode_other db p2 id2 hne

/-- `Save` of a row that keeps its code leaves that code in place, accepted or not. -/
theorem saveProject_magicCode_kept (db : DB) (id : String) (project p2 : Project)
    (hfind : db.projects.find? (fun p => decide (p.id = id)) = some project)
    (hid : p2.id = id) (hcode : p2.magicCode = project.magicCode) :
    (db.saveProject p2).magicCode id = some project.magicCode := by
  unfold DB.saveProject
  split
  · unfold DB.magicCode; rw [hfind]; rfl
  · rw [writeProject_magicCode_self db id project p2 hfind hid, hcode]

/-- After `Save` the project holds the code saved, or the `UPDATE` was rejected and
the table is as it was. -/
theorem saveProject_magicCode_self (db : DB) (id : String) (project p2 : Project)
    (hfind : db.projects.find? (fun p => decide (p.id = id)) = some project)
    (hid : p2.id = id) :
    (db.rejectsUpdate p2 = false ∧ (db.saveProject p2).magicCode id = some p2.magicCode) ∨
    (db.rejectsUpdate p2 = true ∧ db.saveProject p2 = db) := by
  unfold DB.saveProject
  by_cases hr : db.rejectsUpdate p2 = true
  · right; simp [hr]
  · left
    have hr2 : db.rejectsUpdate p2 = false := by simpa using hr
    simp only [hr2, Bool.false_eq_true, if_false]
    exact ⟨trivial, writeProject_magicCode_self db id project p2 hfind hid⟩

/-- What `UpdateProject` returns, case by case. -/
theorem UpdateProject_cases (id : String) (userID : Nat) (isAdmin expired : Bool)
    (body : Option UpdateRequest) (cands : List String) (db : DB) :
    (UpdateProject id userID isAdmin expired body cands db = some (404, db) ∧
      db.projects.find? (fun p => decide (p.id = id)) = none) ∨
    (UpdateProject id userID isAdmin expired body cands db = some (403, db)) ∨
    (UpdateProject id userID isAdmin expired body cands db = some (400, db)) ∨
    (∃ project req, db.projects.find? (fun p => decide (p.id = id)) = some project ∧
      body = some req ∧
      ((req.isPublic = true ∧ project.isPublic = false ∧ project.magicCode = "" ∧
          ((generateUniqueMagicCode db cands = none ∧
            UpdateProject id userID isAdmin expired body cands db = none) ∨
          ∃ code, generateUniqueMagicCode db cands = some code ∧
            UpdateProject id userID isAdmin expired body cands db =
              some (200, db.saveProject ⟨project.id, project.userID, req.name, project.panoPath,
                req.isPublic, code, project.size, project.status, req.isActive⟩))) ∨
       (¬ (req.isPublic = true ∧ project.isPublic = false ∧ project.magicCode = "") ∧
          UpdateProject id userID isAdmin expired body cands db =
            some (200, db.saveProject ⟨project.id, project.userID, req.name, project.panoPath,
              req.isPublic, project.magicCode, project.size, project.status, req.isActive⟩)))) := by
  unfold UpdateProject
  cases hfind : db.projects.find? (fun p => decide (p.id = id)) with
  | none => left; exact ⟨rfl, rfl⟩
  | some project =>
    simp only
    by_cases h1 : (!isAdmin && decide (project.userID ≠ userID)) = true
    · right; left; simp only [h1, if_true]
    · by_cases h2 : (!isAdmin && expired) = true
      · right; left; simp only [h1, h2, if_true, Bool.false_eq_true, if_false]
      · simp only [h1, h2, Bool.false_eq_true, if_false]
        cases body with
        | none => right; right; left; rfl
        | some req =>
          right; right; right
          refine ⟨project, req, rfl, rfl, ?_⟩
          by_cases hc : req.isPublic = true ∧ project.isPublic = false ∧ project.magicCode = ""
          · left
            obtain ⟨c1, c2, c3⟩ := hc
            refine ⟨c1, c2, c3, ?_⟩
            have hcond : (req.isPublic && !project.isPublic && project.magicCode == "") = true := by
              simp [c1, c2, c3]
            simp only [hcond, if_true]
            cases hg : generateUniqueMagicCode db cands with
            | none => left; exact ⟨rfl, rfl⟩
            | some code => right; exact ⟨code, rfl, rfl⟩
          · right
            refine ⟨hc, ?_⟩
            have hcond : ¬ (req.isPublic && !project.isPublic && project.magicCode == "") = true := by
              intro h
              simp only [Bool.and_eq_true, Bool.not_eq_true', beq_iff_eq] at h
              exact hc ⟨h.1.1, h.1.2, h.2⟩
            simp only [hcond, Bool.false_eq_true, if_false]

/-- What holds of the magic codes across `UpdateProject`: whenever it returns, the
code of every other project is as it was, and a response other than 200 leaves the
table as it was; on a 200 response, when the request makes the project public, the
project was not public and its code was empty, `generateUniqueMagicCode` returned a
code and either the project now holds it or the `UPDATE` was rejected and the table
is as it was; in every other case the project holds its earlier code; so a non-empty
code is never replaced or cleared.  `UpdateProject` fails to return only while the
generation is still running. -/
theorem UpdateProject_magicCode_frame (id : String) (userID : Nat) (isAdmin expired : Bool)
    (body : Option UpdateRequest) (cands : List String) (db : DB) :
    (∀ (st : Nat) (db2 : DB),
      UpdateProject id userID isAdmin expired body cands db = some (st, db2) →
      (∀ id2, id2 ≠ id → db2.magicCode id2 = db.magicCode id2) ∧
      (st ≠ 200 → db2 = db) ∧
      (∀ project req, db.projects.find? (fun p => decide (p.id = id)) = some project →
        body = some req → st = 200 →
        (req.isPublic = true ∧ project.isPublic = false ∧ project.magicCode = "" →
          ∃ code, generateUniqueMagicCode db cands = some code ∧
            (db2.magicCode id = some code ∨ db2 = db)) ∧
        (¬ (req.isPublic = true ∧ project.isPublic = false ∧ project.magicCode = "") →
          db2.magicCode id = some project.magicCode)) ∧
      (∀ code, db.magicCode id = some code → code ≠ "" → db2.magicCode id = some code)) ∧
    (UpdateProject id userID isAdmin expired body cands db = none →
      generateUniqueMagicCode db cands = none ∧
      ∃ project req, db.projects.find? (fun p => decide (p.id = id)) = some project ∧
        body = some req ∧ req.isPublic = true ∧ project.isPublic = false ∧
        project.magicCode = "") := by
  have hcases := UpdateProject_cases id userID isAdmin expired body cands db
  constructor
  · intro st db2 hret
    have hsame : db2 = db →
        (∀ id2, id2 ≠ id → db2.magicCode id2 = db.magicCode id2) ∧
        (∀ code, db.magicCode id = some code → code ≠ "" → db2.magicCode id = some code) := by
      intro h; subst h; exact ⟨fun _ _ => rfl, fun _ h _ => h⟩
    rcases hcases with ⟨h, _⟩ | h | h | ⟨project, req, hfind, hbody, h⟩
    · rw [h] at hret
      simp only [Option.some.injEq, Prod.mk.injEq] at hret
      obtain ⟨h1, h2⟩ := hret
      subst h1
      exact ⟨(hsame h2.symm).1, fun _ => h2.symm, fun _ _ _ _ hst => by omega, (hsame h2.symm).2⟩
    · rw [h] at hret
      simp only [Option.some.injEq, Prod.mk.injEq] at hret
      obtain ⟨h1, h2⟩ := hret
      subst h1
      exact ⟨(hsame h2.symm).1, fun _ => h2.symm, fun _ _ _ _ hst => by omega, (hsame h2.symm).2⟩
    · rw [h] at hret
      simp only [Option.some.injEq, Prod.mk.injEq] at hret
      obtain ⟨h1, h2⟩ := hret
      subst h1
      exact ⟨(hsame h2.symm).1, fun _ => h2.symm, fun _ _ _ _ hst => by omega, (hsame h2.symm).2⟩
    · have hpid := find_project_id db id project hfind
      have hold : db.magicCode id = some project.magicCode := by
        unfold DB.magicCode; rw [hfind]; rfl
      rcases h with ⟨c1, c2, c3, hg⟩ | ⟨hc, hres⟩
      · rcases hg with ⟨_, hnone⟩ | ⟨code, hg, hres⟩
        · rw [hnone] at hret; cases hret
        · rw [hres] at hret
          simp only [Option.some.injEq, Prod.mk.injEq] at hret
          obtain ⟨h1, h2⟩ := hret
          subst h1; subst h2
          have hself := saveProject_magicCode_self db id project
            ⟨project.id, project.userID, req.name, project.panoPath, req.isPublic, code,
              project.size, project.status, req.isActive⟩ hfind hpid
          refine ⟨?_, fun h => absurd rfl h, ?_, ?_⟩
          · intro id2 hne
            exact saveProject_magicCode_other db _ id2 (by rw [hpid]; exact hne)
          · intro project2 req2 hfind2 hbody2 _
            rw [hfind] at hfind2
            rw [hbody] at hbody2
            simp only [Option.some.injEq] at hfind2 hbody2
            subst hfind2; subst hbody2
            refine ⟨fun _ => ⟨code, hg, ?_⟩, fun hn => absurd ⟨c1, c2, c3⟩ hn⟩
            rcases hself with ⟨_, h⟩ | ⟨_, h⟩
            · exact Or.inl h
            · exact Or.inr h
          · intro code2 hcode hne
            rw [hold] at hcode
            simp only [Option.some.injEq] at hcode
            exact absurd (hcode.symm.trans c3) hne
      · rw [hres] at hret
        simp only [Option.some.injEq, Prod.mk.injEq] at hret
        obtain ⟨h1, h2⟩ := hret
        subst h1; subst h2
        have hself := saveProject_magicCode_kept db id project
          ⟨project.id, project.userID, req.name, project.panoPath, req.isPublic,
            project.magicCode, project.size, project.status, req.isActive⟩ hfind hpid rfl
        refine ⟨?_, fun h => absurd rfl h, ?_, ?_⟩
        · intro id2 hne
          exact saveProject_magicCode_other db _ id2 (by rw [hpid]; exact hne)
        · intro project2 req2 hfind2 hbody2 _
          rw [hfind] at hfind2
          rw [hbody] at hbody2
          simp only [Option.some.injEq] at hfind2 hbody2
          subst hfind2; subst hbody2
          exact ⟨fun hy => absurd hy hc, fun _ => hself⟩
        · intro code2 hcode _
          rw [hself, ← hold, hcode]
  · intro hnone
    rcases hcases with ⟨h, _⟩ | h | h | ⟨project, req, hfind, hbody, h⟩
    · rw [h] at hnone; cases hnone
    · rw [h] at hnone; cases hnone
    · rw [h] at hnone; cases hnone
    · rcases h with ⟨c1, c2, c3, hg⟩ | ⟨_, hres⟩
      · rcases hg with ⟨hg, _⟩ | ⟨code, _, hres⟩
        · exact ⟨hg, project, req, hfind, hbody, c1, c2, c3⟩
        · rw [hres] at hnone; cases hnone
      · rw [hres] at hnone; cases hnone


/-- `UpdateProject` on `codeDB`, where no row is soft-deleted: making `p1` (private,
no code) public gives it the first free candidate; making `p2` (private, code `AB12`)
public, or `p3` (public, code `CD34`) private, leaves the code. -/
theorem UpdateProject_magicCode_demo :
    (UpdateProject "p1" 7 false false (some ⟨"a", true, true⟩) ["AB12", "EF56"] codeDB).map
        (fun r => (r.1, r.2.magicCode "p1", r.2.magicCode "p2")) =
      some (200, some "EF56", some "AB12") ∧
    (UpdateProject "p2" 7 false false (some ⟨"b", true, true⟩) ["EF56"] codeDB).map
        (fun r => (r.1, r.2.magicCode "p2")) = some (200, some "AB12") ∧
    (UpdateProject "p3" 7 false false (some ⟨"c", false, true⟩) ["EF56"] codeDB).map
        (fun r => (r.1, r.2.magicCode "p3")) = some (200, some "CD34") := by
  refine ⟨by decide, by decide, by decide⟩

/-- C30, failing input.  The private project `p1` has no code, a soft-deleted project
still holds `EF56`, the request makes `p1` public and the first candidate drawn is
`EF56`: the count over the rows in reach is zero, so `generateUniqueMagicCode` returns
`EF56`; the `UPDATE` is rejected by the unique index; `UpdateProject` answers 200 and
the table is as it was, `p1` without code and not public. -/
theorem UpdateProject_generated_code_not_stored :
    trashDB.magicCode "p1" = some "" ∧
    trashDB.countMagicCode "EF56" = 0 ∧
    generateUniqueMagicCode trashDB ["EF56"] = some "EF56" ∧
    trashDB.rejectsUpdate ⟨"p1", 7, "a", "", true, "EF56", 1, "ready", true⟩ = true ∧
    UpdateProject "p1" 7 false false (some ⟨"a", true, true⟩) ["EF56"] trashDB
      = some (200, trashDB) ∧
    (UpdateProject "p1" 7 false false (some ⟨"a", true, true⟩) ["EF56"] trashDB).map
        (fun r => r.2.magicCode "p1") = some (some "") := by
  refine ⟨by decide, by decide, by decide, by decide, by decide, by decide⟩

end MagicCodeUpdate

end Handlers

namespace Handlers

open Pipeline

section SecondUpload

variable {F : Type}

end SecondUpload

end Handlers

namespace Handlers

open Pipeline

section StoredKeys

variable {F : Type}

/-! ## Object keys the task stores: claim C17 -/

/-- A path that was written is found by the lookup. -/
theorem lookup_isSome_of_mem {β : Type} (k : String) :
    ∀ l : List (String × β), k ∈ l.map Prod.fst → (l.lookup k).isSome = true := by
  intro l
  induction l with
  | nil => intro h; simp at h
  | cons a rest ih =>
    intro h
    obtain ⟨a1, a2⟩ := a
    by_cases hk : k = a1
    · subst hk; simp [List.lookup]
    · have hne : (k == a1) = false := by simpa using hk
      simp only [List.lookup, hne]
      apply ih
      simp only [List.map_cons, List.mem_cons] at h
      rcases h with h | h
      · exact absurd h hk
      · exact h

/-- A path found before an append of newer writes is still found. -/
theorem lookup_isSome_append {β : Type} (k : String) (l1 l2 : List (String × β))
    (h : (l1.lookup k).isSome = true ∨ (l2.lookup k).isSome = true) :
    ((l1 ++ l2).lookup k).isSome = true := by
  rw [List.lookup_append]
  cases h1 : l1.lookup k with
  | some v => rfl
  | none =>
    rw [h1] at h
    simpa using h

/-- The keys and content types one `UploadFile` call leaves in the bucket: its own,
on top of the old ones, when the local file is on disk and the store accepts the key. -/
theorem UploadFile_stored (env : Env) (key filePath contentType : String) (fs : FS)
    (st : Store) :
    (UploadFile env key filePath contentType fs st).2.objects.map (fun ob => (ob.1, ob.2.1)) =
      (if (fs.files.lookup filePath).isSome && !env.uploadFails key
        then [(key, contentType)] else [])
        ++ st.objects.map (fun ob => (ob.1, ob.2.1)) := by
  unfold UploadFile
  simp only
  cases hl : fs.files.lookup filePath with
  | none => simp
  | some body =>
    by_cases hf : env.uploadFails key = true
    · simp [hf]
    · simp [hf]

/-- The keys and content types the loop over the face paths leaves in the bucket,
when every face file is on disk: those the store accepts, latest first. -/
theorem uploadFaces_stored (env : Env) (pid sid : String) (fs : FS) (l : List String)
    (hdisk : ∀ fp ∈ l, (fs.files.lookup fp).isSome = true) :
    ∀ st : Store, (uploadFaces env pid sid fs l st).objects.map (fun ob => (ob.1, ob.2.1)) =
      (((l.map (fun fp => pid ++ "/" ++ sid ++ "/cubemap/" ++ env.base fp)).filter
        (fun k => !env.uploadFails k)).map (fun k => (k, "image/jpeg"))).reverse
        ++ st.objects.map (fun ob => (ob.1, ob.2.1)) := by
  induction l with
  | nil => intro st; rfl
  | cons fp rest ih =>
    intro st
    simp only [uploadFaces]
    rw [ih (fun g hg => hdisk g (List.mem_cons_of_mem _ hg)), UploadFile_stored,
      hdisk fp (List.mem_cons_self _ _)]
    by_cases hf : env.uploadFails (pid ++ "/" ++ sid ++ "/cubemap/" ++ env.base fp) = true
    · simp [List.filter_cons, hf]
    · simp [List.filter_cons, hf]

/-- After a successful `SlicePano` the source and the six faces are on disk. -/
theorem SlicePano_ok_disk (o : Float64Ops F) (env : Env) (inputPath outputDir : String)
    (fs : FS) (paths : List String)
    (hok : (SlicePano o env inputPath outputDir fs).1 = .ok paths) :
    ((SlicePano o env inputPath outputDir fs).2.files.lookup inputPath).isSome = true ∧
    ∀ n ∈ faces, ((SlicePano o env inputPath outputDir fs).2.files.lookup
      (env.join outputDir (n ++ ".jpg"))).isSome = true := by
  obtain ⟨_, src, hopen⟩ := SlicePano_ok_paths o env inputPath outputDir fs paths hok
  obtain ⟨thumb, _, _, heq⟩ := SlicePano_ok o env inputPath outputDir fs src hopen
    (SlicePano_ok_saves o env inputPath outputDir fs src paths hopen hok)
  rw [heq]
  simp only
  constructor
  · apply lookup_isSome_append
    right
    unfold imagingOpen at hopen
    split at hopen
    · cases hopen
    · cases hl : fs.files.lookup inputPath with
      | none => rw [hl] at hopen; cases hopen
      | some v => rfl
  · intro n hn
    apply lookup_isSome_append
    left
    apply lookup_isSome_append
    right
    apply lookup_isSome_of_mem
    simp only [faces, List.mem_cons, List.mem_singleton, List.not_mem_nil, or_false] at hn
    rcases hn with h | h | h | h | h | h <;> subst h <;>
      simp [faceWrites, faces, List.enum, List.enumFrom]

/-- After a successful `SlicePano`, the thumbnail is on disk when the front face
could be re-opened and the thumbnail saved. -/
theorem SlicePano_ok_thumbnail (o : Float64Ops F) (env : Env) (inputPath outputDir : String)
    (fs : FS) (paths : List String)
    (hok : (SlicePano o env inputPath outputDir fs).1 = .ok paths)
    (hfront : env.openFails (env.join outputDir "posz.jpg") = false)
    (hthumb : env.saveFails (env.join (env.dir outputDir) "thumbnail.jpg") = false) :
    ((SlicePano o env inputPath outputDir fs).2.files.lookup
      (env.join (env.dir outputDir) "thumbnail.jpg")).isSome = true := by
  obtain ⟨_, src, hopen⟩ := SlicePano_ok_paths o env inputPath outputDir fs paths hok
  have hsave := SlicePano_ok_saves o env inputPath outputDir fs src paths hopen hok
  have hs := saveFaces_ok o env src (src.width / 4) outputDir faces.enum []
    (ensureDir fs outputDir) ((mem_faces_enum_iff _).mpr hsave)
  unfold SlicePano
  rw [hopen]
  simp only [hs]
  have hz : ((List.map (fun f : Nat × String => (env.join outputDir (f.2 ++ ".jpg"),
      ExtractFace o src (f.1 : Int) (src.width / 4))) faces.enum).reverse ++
        (ensureDir fs outputDir).files).lookup (env.join outputDir "posz.jpg") ≠ none := by
    have := lookup_isSome_append (env.join outputDir "posz.jpg")
      (List.map (fun f : Nat × String => (env.join outputDir (f.2 ++ ".jpg"),
        ExtractFace o src (f.1 : Int) (src.width / 4))) faces.enum).reverse
      (ensureDir fs outputDir).files
      (Or.inl (lookup_isSome_of_mem _ _ (by simp [faces, List.enum, List.enumFrom])))
    intro hc
    rw [hc] at this
    cases this
  cases hl : ((List.map (fun f : Nat × String => (env.join outputDir (f.2 ++ ".jpg"),
      ExtractFace o src (f.1 : Int) (src.width / 4))) faces.enum).reverse ++
        (ensureDir fs outputDir).files).lookup (env.join outputDir "posz.jpg") with
  | none => exact absurd hl hz
  | some img =>
    simp only [imagingOpen, hfront, Bool.false_eq_true, if_false, hl, imagingSave, hthumb]
    simp [List.lookup]

/-- Appending different endings to one beginning gives different strings. -/
theorem append_left_cancel_ne (a b c : String) (h : b ≠ c) : a ++ b ≠ a ++ c := by
  intro he
  apply h
  have := congrArg String.data he
  simp only [String.data_append] at this
  exact String.ext (List.append_cancel_left this)

/-- The keys of one item: the original, the six faces, the thumbnail. -/
theorem itemKeys_parts (pid sid : String) :
    itemKeys pid sid = [pid ++ "/" ++ sid ++ "/original.jpg"]
      ++ faces.map (fun n => pid ++ "/" ++ sid ++ "/cubemap/" ++ (n ++ ".jpg"))
      ++ [pid ++ "/" ++ sid ++ "/thumbnail.jpg"] := by
  simp [itemKeys, faces, String.append_assoc]

/-- The keys and content types a task leaves in the bucket after a successful
`SlicePano`: of the eight keys of the item, those the store accepts, the thumbnail
only when its file is on disk. -/
theorem taskSlice_stored (o : Float64Ops F) (env : Env) (sid pid fpath : String) (w : World)
    (paths : List String) (hr2 : env.hasR2 = true)
    (hok : (SlicePano o env fpath (env.join (env.dir fpath) "cubemap") w.fs).1 = .ok paths)
    (hbase : ∀ n ∈ faces,
      env.base (env.join (env.join (env.dir fpath) "cubemap") (n ++ ".jpg")) = n ++ ".jpg") :
    (taskSlice o env sid pid fpath w).2.r2.objects.map (fun ob => (ob.1, ob.2.1)) =
      (((itemKeys pid sid).filter (fun k => !env.uploadFails k &&
          (k != pid ++ "/" ++ sid ++ "/thumbnail.jpg" ||
            ((SlicePano o env fpath (env.join (env.dir fpath) "cubemap") w.fs).2.files.lookup
              (env.join (env.dir (env.join (env.dir fpath) "cubemap"))
                "thumbnail.jpg")).isSome))).map
        (fun k => (k, "image/jpeg"))).reverse
        ++ w.r2.objects.map (fun ob => (ob.1, ob.2.1)) := by
  have hp := (SlicePano_ok_paths o env fpath _ w.fs paths hok).1
  obtain ⟨hsrc, hfaces⟩ := SlicePano_ok_disk o env fpath _ w.fs paths hok
  have hdisk : ∀ fp ∈ paths,
      ((SlicePano o env fpath (env.join (env.dir fpath) "cubemap") w.fs).2.files.lookup
        fp).isSome = true := by
    intro fp hfp
    rw [hp, List.mem_map] at hfp
    obtain ⟨n, hn, rfl⟩ := hfp
    exact hfaces n hn
  have hfk : paths.map (fun fp => pid ++ "/" ++ sid ++ "/cubemap/" ++ env.base fp) =
      faces.map (fun n => pid ++ "/" ++ sid ++ "/cubemap/" ++ (n ++ ".jpg")) := by
    rw [hp, List.map_map]
    apply List.map_congr_left
    intro n hn
    simp only [Function.comp, hbase n hn]
  rw [taskSlice_ok_r2 o env sid pid fpath w paths hr2 hok]
  simp only [uploadAndCleanup]
  rw [UploadFile_stored, uploadFaces_stored env pid sid _ paths hdisk, UploadFile_stored, hsrc,
    hfk, itemKeys_parts]
  simp only [List.filter_append, List.map_append, List.reverse_append, List.append_assoc]
  have h1 : (pid ++ "/" ++ sid ++ "/original.jpg" != pid ++ "/" ++ sid ++ "/thumbnail.jpg")
      = true := by
    simp only [bne_iff_ne]
    exact append_left_cancel_ne _ _ _ (by decide)
  have h2 : (pid ++ "/" ++ sid ++ "/thumbnail.jpg" != pid ++ "/" ++ sid ++ "/thumbnail.jpg")
      = false := by simp
  have h3 : ∀ k ∈ faces.map (fun n => pid ++ "/" ++ sid ++ "/cubemap/" ++ (n ++ ".jpg")),
      (!env.uploadFails k && (k != pid ++ "/" ++ sid ++ "/thumbnail.jpg" ||
        ((SlicePano o env fpath (env.join (env.dir fpath) "cubemap") w.fs).2.files.lookup
          (env.join (env.dir (env.join (env.dir fpath) "cubemap"))
            "thumbnail.jpg")).isSome)) = !env.uploadFails k := by
    intro k hk
    rw [List.mem_map] at hk
    obtain ⟨n, hn, rfl⟩ := hk
    have : (pid ++ "/" ++ sid ++ "/cubemap/" ++ (n ++ ".jpg")
        != pid ++ "/" ++ sid ++ "/thumbnail.jpg") = true := by
      simp only [bne_iff_ne, String.append_assoc]
      apply append_left_cancel_ne
      apply append_left_cancel_ne
      apply append_left_cancel_ne
      intro he
      have := congrArg String.data he
      simp only [String.data_append] at this
      have h0 := congrArg (fun l => l.get? 1) this
      simp at h0
    rw [this]
    simp
  rw [List.filter_congr h3]
  simp only [List.filter_cons, List.filter_nil, h1, h2, Bool.true_or, Bool.and_true,
    Bool.false_or, Bool.true_and]
  by_cases ha : env.uploadFails (pid ++ "/" ++ sid ++ "/original.jpg") = true <;>
  by_cases hb : env.uploadFails (pid ++ "/" ++ sid ++ "/thumbnail.jpg") = true <;>
  cases hc : ((SlicePano o env fpath (env.join (env.dir fpath) "cubemap") w.fs).2.files.lookup
      (env.join (env.dir (env.join (env.dir fpath) "cubemap")) "thumbnail.jpg")).isSome <;>
  simp [ha, hb, hc]

/-- C17: with an object store configured and slicing successful, the calls the task
adds to the upload log are, in order, those for the keys `pid/sid/original.jpg`,
`pid/sid/cubemap/<face>.jpg` for the six faces and `pid/sid/thumbnail.jpg`, each with
content type `image/jpeg`; every object the store gained has one of these keys and
that content type; the objects the store gained are, latest first, exactly those of
the eight keys that the store accepts, the thumbnail only when its file is on disk;
and when the store accepts the eight keys, the front face can be re-opened and the
thumbnail saved, the store gained exactly the eight keys, each as `image/jpeg`.  The
path library is assumed to give `<face>.jpg` as the base name of a face path. -/
theorem uploaded_keys (o : Float64Ops F) (env : Env) (sid pid fpath : String) (w : World)
    (paths : List String) (hr2 : env.hasR2 = true)
    (hok : (SlicePano o env fpath (env.join (env.dir fpath) "cubemap") w.fs).1 = .ok paths)
    (hbase : ∀ n ∈ faces,
      env.base (env.join (env.join (env.dir fpath) "cubemap") (n ++ ".jpg")) = n ++ ".jpg") :
    (taskSlice o env sid pid fpath w).2.r2.calls.map (fun c => (c.1, c.2.2)) =
      ((itemKeys pid sid).map (fun k => (k, "image/jpeg"))).reverse
        ++ w.r2.calls.map (fun c => (c.1, c.2.2)) ∧
    (∀ ob ∈ (taskSlice o env sid pid fpath w).2.r2.objects,
      ob ∈ w.r2.objects ∨ (ob.1 ∈ itemKeys pid sid ∧ ob.2.1 = "image/jpeg")) ∧
    (taskSlice o env sid pid fpath w).2.r2.objects.map (fun ob => (ob.1, ob.2.1)) =
      (((itemKeys pid sid).filter (fun k => !env.uploadFails k &&
          (k != pid ++ "/" ++ sid ++ "/thumbnail.jpg" ||
            ((SlicePano o env fpath (env.join (env.dir fpath) "cubemap") w.fs).2.files.lookup
              (env.join (env.dir (env.join (env.dir fpath) "cubemap"))
                "thumbnail.jpg")).isSome))).map
        (fun k => (k, "image/jpeg"))).reverse
        ++ w.r2.objects.map (fun ob => (ob.1, ob.2.1)) ∧
    ((∀ k ∈ itemKeys pid sid, env.uploadFails k = false) →
      env.openFails (env.join (env.join (env.dir fpath) "cubemap") "posz.jpg") = false →
      env.saveFails (env.join (env.dir (env.join (env.dir fpath) "cubemap")) "thumbnail.jpg")
        = false →
      (taskSlice o env sid pid fpath w).2.r2.objects.map (fun ob => (ob.1, ob.2.1)) =
        ((itemKeys pid sid).map (fun k => (k, "image/jpeg"))).reverse
          ++ w.r2.objects.map (fun ob => (ob.1, ob.2.1))) := by
  have hp := (SlicePano_ok_paths o env fpath _ w.fs paths hok).1
  have e1 : ∀ n ∈ faces, pid ++ "/" ++ sid ++ "/cubemap/" ++ (n ++ ".jpg") ∈ itemKeys pid sid := by
    intro n hn
    simp only [faces, List.mem_cons, List.mem_singleton, List.not_mem_nil, or_false] at hn
    rcases hn with h | h | h | h | h | h <;> subst h <;>
      simp only [itemKeys, List.mem_cons, String.append_assoc] <;> simp
  have hstored := taskSlice_stored o env sid pid fpath w paths hr2 hok hbase
  refine ⟨?_, ?_, hstored, ?_⟩
  · rw [taskSlice_ok_r2 o env sid pid fpath w paths hr2 hok]
    simp only [uploadAndCleanup, UploadFile_calls, uploadFaces_calls]
    subst hp
    have b1 := hbase "posx" (by decide)
    have b2 := hbase "negx" (by decide)
    have b3 := hbase "posy" (by decide)
    have b4 := hbase "negy" (by decide)
    have b5 := hbase "posz" (by decide)
    have b6 := hbase "negz" (by decide)
    simp only [faces, List.map, b1, b2, b3, b4, b5, b6, itemKeys, List.reverse_cons,
      List.reverse_nil, List.nil_append, List.cons_append, List.map_cons, List.map_append,
      List.map_nil, List.append_assoc, String.append_assoc]
    rfl
  · rw [taskSlice_ok_r2 o env sid pid fpath w paths hr2 hok]
    intro ob hob
    simp only [uploadAndCleanup] at hob
    rcases UploadFile_objects env _ _ _ _ _ ob hob with h | ⟨hk, hct⟩
    · rcases uploadFaces_objects env pid sid _ paths _ ob h with h2 | ⟨⟨fp, hfp, hk⟩, hct⟩
      · rcases UploadFile_objects env _ _ _ _ _ ob h2 with h3 | ⟨hk, hct⟩
        · exact Or.inl h3
        · right
          refine ⟨?_, hct⟩
          rw [hk]; simp [itemKeys]
      · right
        refine ⟨?_, hct⟩
        rw [hp, List.mem_map] at hfp
        obtain ⟨n, hn, rfl⟩ := hfp
        rw [hk, hbase n hn]
        exact e1 n hn
    · right
      refine ⟨?_, hct⟩
      rw [hk]; simp [itemKeys]
  · intro hup hfront hthumb
    rw [hstored]
    have hth := SlicePano_ok_thumbnail o env fpath _ w.fs paths hok hfront hthumb
    have hall : (itemKeys pid sid).filter (fun k => !env.uploadFails k &&
        (k != pid ++ "/" ++ sid ++ "/thumbnail.jpg" ||
          ((SlicePano o env fpath (env.join (env.dir fpath) "cubemap") w.fs).2.files.lookup
            (env.join (env.dir (env.join (env.dir fpath) "cubemap"))
              "thumbnail.jpg")).isSome)) = itemKeys pid sid := by
      rw [List.filter_eq_self]
      intro k hk
      rw [hup k hk, hth]
      simp
    rw [hall]

/-- C17 in the world where nothing fails: eight calls with the keys of item `s1` of
aggregate `p1`, and the eight objects are in the bucket, each as `image/jpeg`. -/
theorem uploaded_keys_witness :
    (quietEnv.hasR2 = true ∧
      (SlicePano demoOps quietEnv demoSource
        (quietEnv.join (quietEnv.dir demoSource) "cubemap") demoWorld.fs).1 =
        .ok ["uploads/p1/s1/cubemap/posx.jpg", "uploads/p1/s1/cubemap/negx.jpg",
          "uploads/p1/s1/cubemap/posy.jpg", "uploads/p1/s1/cubemap/negy.jpg",
          "uploads/p1/s1/cubemap/posz.jpg", "uploads/p1/s1/cubemap/negz.jpg"] ∧
      ∀ n ∈ faces, quietEnv.base (quietEnv.join
        (quietEnv.join (quietEnv.dir demoSource) "cubemap") (n ++ ".jpg")) = n ++ ".jpg") ∧
    (taskSlice demoOps quietEnv "s1" "p1" demoSource demoWorld).2.r2.calls.map
        (fun c => (c.1, c.2.2)) =
      ((itemKeys "p1" "s1").map (fun k => (k, "image/jpeg"))).reverse
        ++ demoWorld.r2.calls.map (fun c => (c.1, c.2.2)) ∧
    (taskSlice demoOps quietEnv "s1" "p1" demoSource demoWorld).2.r2.objects.map
        (fun ob => (ob.1, ob.2.1)) =
      [("p1/s1/thumbnail.jpg", "image/jpeg"), ("p1/s1/cubemap/negz.jpg", "image/jpeg"),
       ("p1/s1/cubemap/posz.jpg", "image/jpeg"), ("p1/s1/cubemap/negy.jpg", "image/jpeg"),
       ("p1/s1/cubemap/posy.jpg", "image/jpeg"), ("p1/s1/cubemap/negx.jpg", "image/jpeg"),
       ("p1/s1/cubemap/posx.jpg", "image/jpeg"), ("p1/s1/original.jpg", "image/jpeg")] :=
  ⟨⟨rfl, rfl, by decide⟩,
   (uploaded_keys demoOps quietEnv "s1" "p1" demoSource demoWorld _ rfl rfl (by decide)).1,
   (uploaded_keys demoOps quietEnv "s1" "p1" demoSource demoWorld _ rfl rfl
      (by decide)).2.2.2 (fun _ _ => rfl) rfl rfl⟩

/-- When the front face cannot be re-opened no thumbnail is written: the task still
calls the store for the eight keys, and seven objects are stored. -/
theorem task_without_thumbnail_stores_seven :
    (taskSlice demoOps noThumbEnv "s1" "p1" demoSource demoWorld).2.r2.calls.map
        (fun c => c.1) = (itemKeys "p1" "s1").reverse ∧
    (taskSlice demoOps noThumbEnv "s1" "p1" demoSource demoWorld).2.r2.objects.map
        (fun ob => ob.1) =
      ["p1/s1/cubemap/negz.jpg", "p1/s1/cubemap/posz.jpg", "p1/s1/cubemap/negy.jpg",
       "p1/s1/cubemap/posy.jpg", "p1/s1/cubemap/negx.jpg", "p1/s1/cubemap/posx.jpg",
       "p1/s1/original.jpg"] := by
  constructor <;> rfl

end StoredKeys

end Handlers

namespace Handlers

open Pipeline

section PrefixDelete

variable {F : Type}

/-! ## The prefix delete of `DeleteProject`: claim C19 -/

/-- A permitted `DeleteProject` of an existing aggregate, with an object store
configured: status 200, the row soft-deleted, and the bucket `DeleteDirectory`
leaves for the aggregate id. -/
theorem DeleteProject_ok (env : Env) (api : R2Api) (id : String) (userID : Nat)
    (isAdmin expired : Bool) (db : DB) (w : World) (project : Project)
    (hfind : db.projects.find? (fun p => decide (p.id = id)) = some project)
    (hperm : isAdmin = true ∨ (project.userID = userID ∧ expired = false))
    (hr2 : env.hasR2 = true) :
    DeleteProject env api id userID isAdmin expired db w =
      (200, db.deleteProject project.id, { w with r2 := (DeleteDirectory api id w.r2).2 }) := by
  unfold DeleteProject
  rw [hfind]
  rcases hperm with h | ⟨h1, h2⟩
  · simp [h, hr2]
  · simp [h1, h2, hr2]

/-- Where neither the listing nor a `DeleteObject` fails and the keys beginning with
`pre` fit in one page, `DeleteDirectory` leaves exactly the objects whose key does not
begin with `pre`. -/
theorem DeleteDirectory_exact (api : R2Api) (pre : String) (st : Store)
    (hlist : api.listFails pre = false) (hdel : ∀ k, api.deleteFails k = false)
    (hfit : (st.keys.filter (fun k => hasPrefix pre k)).length ≤ api.maxKeys)
    (ob : String × String × Image) :
    ob ∈ (DeleteDirectory api pre st).2.objects ↔ (ob ∈ st.objects ∧ hasPrefix pre ob.1 = false) := by
  have hok : (DeleteDirectory api pre st).1 = .ok () := by
    unfold DeleteDirectory listObjects
    simp only [hlist, Bool.false_eq_true, if_false]
    exact deleteKeys_no_error api hdel _ st
  constructor
  · intro hob
    refine ⟨?_, DeleteDirectory_one_page api pre st hfit hok ob hob⟩
    unfold DeleteDirectory listObjects at hok hob
    simp only [hlist, Bool.false_eq_true, if_false] at hok hob
    exact (deleteKeys_ok api _ st hok ob hob).1
  · intro h
    exact DeleteDirectory_keeps_others api pre st ob h.1 h.2

/-- The prefix match for an item key of an aggregate with a UUID id. -/
theorem hasPrefix_itemKeys (id pid sid : String) (hid : isUUID id = true)
    (hpid : isUUID pid = true) :
    ∀ key ∈ itemKeys pid sid, hasPrefix id key = true ↔ pid = id := by
  intro key hk
  obtain ⟨t, ht⟩ := itemKeys_data pid sid key hk
  unfold hasPrefix
  rw [ht, isPrefixOf_append_same_length _ _ _
    ((isUUID_length id hid).trans (isUUID_length pid hpid).symm)]
  constructor
  · intro h; exact String.ext h
  · intro h; rw [h]

/-- No media key begins with a UUID. -/
theorem hasPrefix_mediaKey (id : String) (hid : isUUID id = true) (newName : String) :
    hasPrefix id (mediaKey newName) = false := by
  obtain ⟨c, cs, hd, hc⟩ := isUUID_head id hid
  unfold hasPrefix mediaKey
  rw [hd, String.data_append]
  have hm : ("media/" : String).data = 'm' :: ['e', 'd', 'i', 'a', '/'] := rfl
  rw [hm]
  simp only [List.cons_append, List.isPrefixOf, Bool.and_eq_false_imp, beq_iff_eq]
  intro h
  exact absurd h hc

/-- C19: the aggregate ids being of the shape `uuid.New().String()` gives them, a key
the pipeline uploaded for an item of aggregate `pid` (original, six faces, thumbnail)
begins with `id` exactly when `pid = id`, and no key of `UploadMedia` (`media/...`)
begins with `id`; the listing `DeleteDirectory` makes for `id` returns the bucket keys
beginning with `id`.  A permitted `DeleteProject` of an existing aggregate `id`, with an
object store configured, answers 200, soft-deletes the row and leaves the bucket
`DeleteDirectory` leaves for `id`; where neither the listing nor a deletion fails and
the keys beginning with `id` fit in one page, that bucket holds exactly the objects
whose key does not begin with `id`, so that an object stored under an item key of
aggregate `pid` is left exactly when `pid ≠ id`, and every media object is left. -/
theorem delete_matches_own_keys (id pid sid : String) (hid : isUUID id = true)
    (hpid : isUUID pid = true) :
    (∀ key ∈ itemKeys pid sid, hasPrefix id key = true ↔ pid = id) ∧
    (∀ newName : String, hasPrefix id (mediaKey newName) = false) ∧
    (∀ (api : R2Api) (st : Store), api.listFails id = false →
      listObjects api st id = .ok ((st.keys.filter (fun k => hasPrefix id k)).take api.maxKeys)) ∧
    (∀ (env : Env) (api : R2Api) (userID : Nat) (isAdmin expired : Bool) (db : DB) (w : World),
      env.hasR2 = true → (DeleteProject env api id userID isAdmin expired db w).1 = 200 →
      (DeleteProject env api id userID isAdmin expired db w).2.2 =
        { w with r2 := (DeleteDirectory api id w.r2).2 }) ∧
    (∀ (env : Env) (api : R2Api) (userID : Nat) (isAdmin expired : Bool) (db : DB) (w : World)
      (project : Project),
      db.projects.find? (fun p => decide (p.id = id)) = some project →
      (isAdmin = true ∨ (project.userID = userID ∧ expired = false)) →
      env.hasR2 = true →
      DeleteProject env api id userID isAdmin expired db w =
        (200, db.deleteProject project.id,
          { w with r2 := (DeleteDirectory api id w.r2).2 })) ∧
    (∀ (api : R2Api) (st : Store), api.listFails id = false →
      (∀ k, api.deleteFails k = false) →
      (st.keys.filter (fun k => hasPrefix id k)).length ≤ api.maxKeys →
      ∀ ob, ob ∈ (DeleteDirectory api id st).2.objects ↔
        (ob ∈ st.objects ∧ hasPrefix id ob.1 = false)) ∧
    (∀ (env : Env) (api : R2Api) (userID : Nat) (isAdmin expired : Bool) (db : DB) (w : World)
      (project : Project),
      db.projects.find? (fun p => decide (p.id = id)) = some project →
      (isAdmin = true ∨ (project.userID = userID ∧ expired = false)) →
      env.hasR2 = true → api.listFails id = false → (∀ k, api.deleteFails k = false) →
      (w.r2.keys.filter (fun k => hasPrefix id k)).length ≤ api.maxKeys →
      ∀ ob ∈ w.r2.objects,
        (ob.1 ∈ itemKeys pid sid →
          (ob ∈ (DeleteProject env api id userID isAdmin expired db w).2.2.r2.objects ↔
            pid ≠ id)) ∧
        (∀ newName : String, ob.1 = mediaKey newName →
          ob ∈ (DeleteProject env api id userID isAdmin expired db w).2.2.r2.objects)) := by
  refine ⟨hasPrefix_itemKeys id pid sid hid hpid, hasPrefix_mediaKey id hid, ?_, ?_, ?_, ?_, ?_⟩
  · intro api st hlist
    simp only [listObjects, hlist, Bool.false_eq_true, if_false]
  · intro env api userID isAdmin expired db w hr2 hst
    unfold DeleteProject at hst ⊢
    split at hst
    · cases hst
    · rename_i project hfind
      simp only [hfind]
      split at hst
      · cases hst
      · split at hst
        · cases hst
        · rename_i h1 h2
          simp only [h1, h2, hr2, if_true, if_false]
          rfl
  · intro env api userID isAdmin expired db w project hfind hperm hr2
    exact DeleteProject_ok env api id userID isAdmin expired db w project hfind hperm hr2
  · intro api st hlist hdel hfit ob
    exact DeleteDirectory_exact api id st hlist hdel hfit ob
  · intro env api userID isAdmin expired db w project hfind hperm hr2 hlist hdel hfit ob hob
    rw [DeleteProject_ok env api id userID isAdmin expired db w project hfind hperm hr2]
    simp only
    constructor
    · intro hk
      rw [DeleteDirectory_exact api id w.r2 hlist hdel hfit ob]
      constructor
      · intro h hpe
        have := (hasPrefix_itemKeys id pid sid hid hpid ob.1 hk).mpr hpe
        rw [h.2] at this
        exact Bool.false_ne_true this
      · intro hne
        refine ⟨hob, ?_⟩
        cases hp : hasPrefix id ob.1 with
        | false => rfl
        | true => exact absurd ((hasPrefix_itemKeys id pid sid hid hpid ob.1 hk).mp hp) hne
    · intro newName hk
      rw [DeleteDirectory_exact api id w.r2 hlist hdel hfit ob]
      exact ⟨hob, by rw [hk]; exact hasPrefix_mediaKey id hid newName⟩

/-- C19 for two ids that differ in their last character only: the owner deletes the
first aggregate; the answer is 200, the row is soft-deleted, and of the seventeen
objects of the bucket the eight of the other aggregate and the media file are left,
the eight keys beginning with the id fitting in one page. -/
theorem delete_matches_own_keys_witness :
    (isUUID demoId = true ∧ isUUID otherId = true) ∧
    (∀ key ∈ itemKeys otherId "s1", hasPrefix demoId key = true ↔ otherId = demoId) ∧
    (∀ newName : String, hasPrefix demoId (mediaKey newName) = false) ∧
    DeleteProject quietEnv r2Api demoId 7 false false ownerDB
        { fs := emptyDisk, r2 := sharedBucket } =
      (200, ownerDB.deleteProject demoId,
        { fs := emptyDisk, r2 := (DeleteDirectory r2Api demoId sharedBucket).2 }) ∧
    ((ownerDB.deleteProject demoId).projects.map (fun p => p.id) = [otherId] ∧
      (ownerDB.deleteProject demoId).deleted.map (fun p => p.id) = [demoId]) ∧
    (DeleteProject quietEnv r2Api demoId 7 false false ownerDB
        { fs := emptyDisk, r2 := sharedBucket }).2.2.r2.objects.map (fun ob => ob.1) =
      itemKeys otherId "s1" ++ [mediaKey "logo.png"] ∧
    ((sharedBucket.keys.filter (fun k => hasPrefix demoId k)).length ≤ r2Api.maxKeys ∧
      ∀ ob, ob ∈ (DeleteDirectory r2Api demoId sharedBucket).2.objects ↔
        (ob ∈ sharedBucket.objects ∧ hasPrefix demoId ob.1 = false)) :=
  ⟨⟨by decide, by decide⟩,
   (delete_matches_own_keys demoId otherId "s1" (by decide) (by decide)).1,
   (delete_matches_own_keys demoId otherId "s1" (by decide) (by decide)).2.1,
   (delete_matches_own_keys demoId otherId "s1" (by decide) (by decide)).2.2.2.2.1
     quietEnv r2Api 7 false false ownerDB ⟨emptyDisk, sharedBucket⟩ _ rfl
     (Or.inr ⟨rfl, rfl⟩) rfl,
   ⟨by decide, by decide⟩,
   by rfl,
   by decide,
   (delete_matches_own_keys demoId otherId "s1" (by decide) (by decide)).2.2.2.2.2.1
     r2Api sharedBucket rfl (fun _ => rfl) (by decide)⟩

end PrefixDelete

end Handlers
